import Mathlib

/-!
# how-to-oop: the payload parsers and their dispatch

Shallow embedding of

* `00_under-the-hood-of-oop/03_questions-arise/src/payload_constructor.c`
  (`extract_token`, `message_constructor`, `parse_payload`),
* `solutions/04/src/payload.h` (the data model of the vtable version),
* `solutions/04/src/payload_behaviors.c` (`process_*`, `transmit_*`,
  `destroy_*`),
* `00_under-the-hood-of-oop/01_extending-a-non-oop-project/src/traditional_dispatch.c`
  (`new_buffer`, `push_payload`, `process_next`),
* `00_under-the-hood-of-oop/00_traditional-approach/src/traditional_dispatch.c`
  (`handle_payload`),
* `00_under-the-hood-of-oop/02_refactoring-with-function-pointers/01_extending-oop-project/src/payload_constructor.c`
  (`message_constructor` with function pointers) and
  `solutions/03/02/src/payload.h` (its data model),
* `solutions/05/src/string.cpp`, `solutions/05/src/payload.hpp` and
  `00_under-the-hood-of-oop/04_raii/src/payload.cpp` (the RAII version),
* `solutions/06/src/payload.hpp` and
  `00_under-the-hood-of-oop/05_virtual-methods-and-inheritance/src/payload.cpp`
  (the virtual-inheritance version).

Conventions of the embedding.

* A `const char *` argument is the list of bytes of the object it points into,
  from the pointer onwards; `raw + k` is `raw.drop k`.  Reading at an index
  that is not in the list is a read outside the object: `Outcome.undefined`.
  A line `l` held in a buffer is `l ++ NUL :: slack`, where `slack` is whatever
  the buffer holds after the terminator (`[]` for a string literal).
* A heap block is a list of `Option Char`; `none` is a byte that has not been
  written since `malloc`.  `malloc` is taken to succeed.
* `assert` is active: a failed assertion is `Outcome.abort`.
* `int` indices are natural numbers (lines are shorter than `INT_MAX`).
* `printf` output is the list of the texts of the successive `printf` calls;
  `cout` output is the list of the texts of the successive statements.
* The functions of `payload_behaviors.c` are embedded twice: as functions from
  the payload to the text printed, and (`Stateful`) as steps on a state made of
  the payload in memory and the output so far, for what a call leaves in
  memory.
-/

namespace HowToOop

/-- Result of running a C fragment: a value, a failed `assert` (the program
aborts), undefined behaviour (access outside an object, read of an
indeterminate byte), or exhaustion of the iteration budget of a loop. -/
inductive Outcome (α : Type) where
  | ok (a : α)
  | abort
  | undefined
  | fuel_out
  deriving DecidableEq, Repr

/-- Sequencing of C statements: the first failure ends the run. -/
def Outcome.bind {α β : Type} : Outcome α → (α → Outcome β) → Outcome β
  | .ok a, f => f a
  | .abort, _ => .abort
  | .undefined, _ => .undefined
  | .fuel_out, _ => .fuel_out

instance : Monad Outcome where
  pure := Outcome.ok
  bind := Outcome.bind

/-- The string terminator. -/
def NUL : Char := Char.ofNat 0

/-- A heap block: `none` marks a byte not written since allocation. -/
abbrev Block := List (Option Char)

/-- Fresh block of `n` indeterminate bytes. -/
def malloc (n : Nat) : Block := List.replicate n none

/-- Read of `raw[i]`. -/
def load (raw : List Char) (i : Nat) : Outcome Char :=
  match raw[i]? with
  | some c => .ok c
  | none => .undefined

/-- Write `blk[i] = c`. -/
def store (blk : Block) (i : Nat) (c : Char) : Outcome Block :=
  if i < blk.length then .ok (blk.set i (some c)) else .undefined

/-- The block holding the C string `s`: its characters and the terminator. -/
def cblock (s : List Char) : Block := s.map some ++ [some NUL]

/-- The buffer holding the line `l`, with `slack` after the terminator. -/
def cline (l slack : List Char) : List Char := l ++ NUL :: slack

/-- Length of the C string at `s`. -/
def strlen : List Char → Outcome Nat
  | [] => .undefined
  | c :: rest => if c = NUL then .ok 0 else do
      let n ← strlen rest
      .ok (n + 1)

/-- The loop of `strcpy(dst, src)`, at index `i`: copies up to and including
the terminator. -/
def strcpy : Block → List Char → Nat → Outcome Block
  | _, [], _ => .undefined
  | dst, c :: rest, i => do
      let dst ← store dst i c
      if c = NUL then .ok dst else strcpy dst rest (i + 1)

/-- Test `strcmp(lit, s) == 0` for a string literal `lit` (given without its
terminator) against the bytes `s`: bytes are compared until the first
difference or the end of the literal. -/
def strcmp_eq : List Char → Block → Outcome Bool
  | _, [] => .undefined
  | _, none :: _ => .undefined
  | [], some c :: _ => .ok (c = NUL)
  | a :: as, some c :: bs => if a = c then strcmp_eq as bs else .ok false

/-- Text printed for `%s` with the bytes `s`: up to the terminator. -/
def cstr : Block → Outcome (List Char)
  | [] => .undefined
  | none :: _ => .undefined
  | some c :: rest => if c = NUL then .ok [] else do
      let s ← cstr rest
      .ok (c :: s)

/-! ## Data model (`payload.h`) -/

/-- The three receiver vtables. -/
inductive message_receiving_entity_vtable where
  | direct_message_vtable
  | group_message_vtable
  | global_message_vtable
  deriving DecidableEq, Repr

/-- The struct `message_receiving_entity`; `none` is an indeterminate pointer. -/
structure message_receiving_entity where
  vtable : Option message_receiving_entity_vtable
  additional_info : Option Block
  deriving DecidableEq, Repr

/-- The four payload vtables. -/
inductive payload_vtable where
  | command_login_vtable
  | command_join_vtable
  | command_logout_vtable
  | message_vtable
  deriving DecidableEq, Repr

/-- The union `payload_data`.  `zeroed` is the union of a compound literal
that names no member of `data`; `indeterminate` is a union never written. -/
inductive payload_data where
  | indeterminate
  | zeroed
  | command_login (username password : Block)
  | command_join (channel : Block)
  | message (receivers : List message_receiving_entity) (content : Block)
      (receiver_count : Nat)
  deriving DecidableEq, Repr

/-- The struct `payload`; `none` is an indeterminate vtable pointer. -/
structure payload where
  vtable : Option payload_vtable
  data : payload_data
  deriving DecidableEq, Repr

/-! ## `payload_constructor.c` -/

/-- The scan `for (end = 0; raw[end] != ' ' && raw[end] != '\0'; end++);` of
`extract_token`, on the bytes from `raw + end`. -/
def extract_token_scan : List Char → Nat → Outcome Nat
  | [], _ => .undefined
  | c :: rest, end_ =>
      if c ≠ ' ' ∧ c ≠ NUL then extract_token_scan rest (end_ + 1) else .ok end_

/-- The copy `for (int i = 0; i < end; i++) token[i] = raw[i];` of
`extract_token`; the first argument is `end - i`. -/
def extract_token_copy (raw : List Char) : Nat → Nat → Block → Outcome Block
  | 0, _, token => .ok token
  | k + 1, i, token => do
      let c ← load raw i
      let token ← store token i c
      extract_token_copy raw k (i + 1) token

/-- The function `extract_token`: `none` is the `NULL` result. -/
def extract_token (raw : List Char) : Outcome (Option Block) := do
  let end_ ← extract_token_scan raw 0
  if end_ = 0 then
    .ok none
  else do
    let token := malloc (end_ + 1)
    let token ← store token end_ NUL
    let token ← extract_token_copy raw end_ 0 token
    .ok (some token)

/-- The statement `assert((x = e))` for a pointer: aborts on `NULL`. -/
def assert_ptr {α : Type} : Option α → Outcome α
  | some a => .ok a
  | none => .abort

/-- The scan `for (name_end = content_offset; raw[name_end] != ' '; name_end++);`
of `message_constructor`, on the bytes from `raw + name_end`. -/
def name_end_scan : List Char → Nat → Outcome Nat
  | [], _ => .undefined
  | c :: rest, name_end =>
      if c ≠ ' ' then name_end_scan rest (name_end + 1) else .ok name_end

/-- The copy `for (int i = content_offset + 1; raw[i] != ' '; i++)
receiver_name[i - content_offset - 1] = raw[i];`, on the bytes from `raw + i`. -/
def receiver_name_copy (content_offset : Nat) :
    List Char → Nat → Block → Outcome Block
  | [], _, _ => .undefined
  | c :: rest, i, receiver_name =>
      if c ≠ ' ' then do
        let receiver_name ← store receiver_name (i - content_offset - 1) c
        receiver_name_copy content_offset rest (i + 1) receiver_name
      else .ok receiver_name

/-- An array element not written since allocation. -/
def fresh_entity : message_receiving_entity := ⟨none, none⟩

/-- The call `realloc(receivers, sizeof(struct message_receiving_entity) * n)`. -/
def realloc (receivers : List message_receiving_entity) (n : Nat) :
    List message_receiving_entity :=
  receivers.take n ++ List.replicate (n - receivers.length) fresh_entity

/-- The assignment `receivers[i] = e`. -/
def store_entity (receivers : List message_receiving_entity) (i : Nat)
    (e : message_receiving_entity) : Outcome (List message_receiving_entity) :=
  if i < receivers.length then .ok (receivers.set i e) else .undefined

/-- The `while (raw[content_offset] == '@' || raw[content_offset] == '#')` loop
of `message_constructor`; the first argument bounds the number of iterations. -/
def receiver_loop (raw : List Char) :
    Nat → List message_receiving_entity → Nat → Nat →
      Outcome (List message_receiving_entity × Nat × Nat)
  | 0, _, _, _ => .fuel_out
  | fuel + 1, receivers, receiver_count, content_offset => do
      let c ← load raw content_offset
      if c = '@' ∨ c = '#' then do
        let name_end ← name_end_scan (raw.drop content_offset) content_offset
        let receiver_name := malloc (name_end - content_offset)
        let receiver_name ← receiver_name_copy content_offset
          (raw.drop (content_offset + 1)) (content_offset + 1) receiver_name
        let receiver_name ← store receiver_name (name_end - content_offset - 1) NUL
        let receivers :=
          if receiver_count ≥ 1 then realloc receivers (receiver_count + 1)
          else receivers
        let receivers ← store_entity receivers receiver_count
          { additional_info := some receiver_name,
            vtable := some (if c = '@' then .direct_message_vtable
                            else .group_message_vtable) }
        receiver_loop raw fuel receivers (receiver_count + 1) (name_end + 1)
      else .ok (receivers, receiver_count, content_offset)

/-- The assignment `receivers->vtable = &global_message_vtable`. -/
def set_global (receivers : List message_receiving_entity) :
    Outcome (List message_receiving_entity) :=
  match receivers with
  | [] => .undefined
  | r :: rest => .ok ({ r with vtable := some .global_message_vtable } :: rest)

/-- The function `message_constructor`.  The size `strlen(raw) - content_offset
+ 1` is unsigned: when `content_offset` exceeds the length it wraps, to `0`
(the copy then overruns the block) or to a size no allocation satisfies (the
assertion on `content` fails). -/
def message_constructor (p : payload) (raw : List Char) : Outcome payload := do
  let p := { p with vtable := some .message_vtable }
  let receivers := [fresh_entity]
  let (receivers, receiver_count, content_offset) ←
    receiver_loop raw (raw.length + 1) receivers 0 0
  let (receivers, receiver_count) ←
    if content_offset = 0 then do
      let receivers ← set_global receivers
      .ok (receivers, 1)
    else .ok (receivers, receiver_count)
  let len ← strlen raw
  if content_offset ≤ len then do
    let content := malloc (len - content_offset + 1)
    let content ← strcpy content (raw.drop content_offset) 0
    .ok { p with data := .message receivers content receiver_count }
  else if content_offset = len + 1 then .undefined
  else .abort

/-- The loop `for (i = 0; i < 6 && raw[i + 1] != ' '; i++) command_name[i] =
raw[i + 1];` of `parse_payload`; the first argument is `6 - i`. -/
def command_name_loop (raw : List Char) : Nat → Nat → Block → Outcome (Nat × Block)
  | 0, i, command_name => .ok (i, command_name)
  | k + 1, i, command_name => do
      let c ← load raw (i + 1)
      if c ≠ ' ' then do
        let command_name ← store command_name i c
        command_name_loop raw k (i + 1) command_name
      else .ok (i, command_name)

/-- The function `parse_payload`: the returned flag, the payload `*p` after
the call, and the text printed. -/
def parse_payload (p : payload) (raw : List Char) :
    Outcome (Bool × payload × List (List Char)) := do
  let c0 ← load raw 0
  if c0 = '/' then do
    let (i, command_name) ← command_name_loop raw 6 0 (malloc 7)
    let command_name ← store command_name i NUL
    if (← strcmp_eq "login".toList command_name) then do
      let username ← assert_ptr (← extract_token (raw.drop 7))
      let n ← cstr username
      let password ← assert_ptr (← extract_token (raw.drop (n.length + 8)))
      .ok (true, ⟨some .command_login_vtable, .command_login username password⟩, [])
    else if (← strcmp_eq "join".toList command_name) then do
      let channel ← assert_ptr (← extract_token (raw.drop 6))
      .ok (true, ⟨some .command_join_vtable, .command_join channel⟩, [])
    else if (← strcmp_eq "logout".toList command_name) then
      .ok (true, ⟨some .command_logout_vtable, .zeroed⟩, [])
    else do
      let name ← cstr command_name
      .ok (false, p, ["Ignoring invalid command ".toList ++ name ++ "\n".toList])
  else do
    let p ← message_constructor p raw
    .ok (true, p, [])

/-! ## `payload_behaviors.c` -/

/-- Argument of a `%s` conversion: the string at a pointer; an indeterminate
pointer has no string. -/
def string_arg : Option Block → Outcome (List Char)
  | some b => cstr b
  | none => .undefined

/-- The function `process_command_login`. -/
def process_command_login (self : payload) : Outcome (List (List Char)) :=
  match self.data with
  | .command_login username password => do
      let u ← cstr username
      let p ← cstr password
      .ok ["Command: login\n  Arguments: [username: ".toList ++ u ++
        ", password ".toList ++ p ++ "]\n".toList]
  | _ => .undefined

/-- The function `process_command_join`. -/
def process_command_join (self : payload) : Outcome (List (List Char)) :=
  match self.data with
  | .command_join channel => do
      let c ← cstr channel
      .ok ["Command: join\n  Arguments: [channel: ".toList ++ c ++ "]\n".toList]
  | _ => .undefined

/-- The function `process_command_logout`. -/
def process_command_logout (_self : payload) : Outcome (List (List Char)) :=
  .ok ["Command: logout\n  Arguments: []\n".toList]

/-- The function `transmit_direct_message`. -/
def transmit_direct_message (self : message_receiving_entity) (content : Block) :
    Outcome (List (List Char)) := do
  let name ← string_arg self.additional_info
  let c ← cstr content
  .ok ["Direct message to ".toList ++ name ++ ": ".toList ++ c ++ "\n".toList]

/-- The function `transmit_group_message`. -/
def transmit_group_message (self : message_receiving_entity) (content : Block) :
    Outcome (List (List Char)) := do
  let name ← string_arg self.additional_info
  let c ← cstr content
  .ok ["Group message to ".toList ++ name ++ ": ".toList ++ c ++ "\n".toList]

/-- The function `transmit_global_message`. -/
def transmit_global_message (_self : message_receiving_entity) (content : Block) :
    Outcome (List (List Char)) := do
  let c ← cstr content
  .ok ["Global message: ".toList ++ c ++ "\n".toList]

/-- The member `transmit_message` of each receiver vtable. -/
def message_receiving_entity_vtable.transmit_message :
    message_receiving_entity_vtable → message_receiving_entity → Block →
      Outcome (List (List Char))
  | .direct_message_vtable => transmit_direct_message
  | .group_message_vtable => transmit_group_message
  | .global_message_vtable => transmit_global_message

/-- The call through `receivers[i].vtable`; an indeterminate vtable pointer
cannot be called through. -/
def call_transmit (r : message_receiving_entity) (content : Block) :
    Outcome (List (List Char)) :=
  match r.vtable with
  | some vt => vt.transmit_message r content
  | none => .undefined

/-- The loop `for (int i = 0; i < receiver_count; i++)` of `process_message`;
the first argument is `receiver_count - i`. -/
def process_message_loop (receivers : List message_receiving_entity) (content : Block) :
    Nat → Nat → Outcome (List (List Char))
  | 0, _ => .ok []
  | k + 1, i =>
      match receivers[i]? with
      | none => .undefined
      | some r => do
          let out ← call_transmit r content
          let rest ← process_message_loop receivers content k (i + 1)
          .ok (out ++ rest)

/-- The function `process_message`. -/
def process_message (self : payload) : Outcome (List (List Char)) :=
  match self.data with
  | .message receivers content receiver_count =>
      process_message_loop receivers content receiver_count 0
  | _ => .undefined

/-- The member `process` of each payload vtable. -/
def payload_vtable.process : payload_vtable → payload → Outcome (List (List Char))
  | .command_login_vtable => process_command_login
  | .command_join_vtable => process_command_join
  | .command_logout_vtable => process_command_logout
  | .message_vtable => process_message

/-! ## Vocabulary of the specification -/

/-- The receiver variants of the specification's data model. -/
inductive Receiver where
  | Direct (username : List Char)
  | Group (channel : List Char)
  | Global
  deriving DecidableEq, Repr

/-- Line that the specification prescribes for transmitting `content` to a
receiver. -/
def Receiver.line (content : List Char) : Receiver → List Char
  | .Direct username =>
      "Direct message to ".toList ++ username ++ ": ".toList ++ content ++ "\n".toList
  | .Group channel =>
      "Group message to ".toList ++ channel ++ ": ".toList ++ content ++ "\n".toList
  | .Global => "Global message: ".toList ++ content ++ "\n".toList

/-- The struct `e` holds the receiver `r`: the vtable of its kind and, for
Direct and Group, the name as a C string. -/
def Receiver.held_by : Receiver → message_receiving_entity → Prop
  | .Direct username, e =>
      e.vtable = some .direct_message_vtable ∧ NUL ∉ username ∧
        e.additional_info = some (cblock username)
  | .Group channel, e =>
      e.vtable = some .group_message_vtable ∧ NUL ∉ channel ∧
        e.additional_info = some (cblock channel)
  | .Global, e => e.vtable = some .global_message_vtable

/-- A payload variable before any assignment. -/
def fresh_payload : payload := ⟨none, .indeterminate⟩

/-- Text of a run of receiver tokens, each followed by one space; a token is
its first character and its name. -/
def tokens_text : List (Char × List Char) → List Char
  | [] => []
  | t :: ts => t.1 :: t.2 ++ ' ' :: tokens_text ts

/-- Receiver expected for a token: Direct for `@`, Group otherwise, holding
the name as a C string. -/
def token_entity (t : Char × List Char) : message_receiving_entity :=
  { vtable := some (if t.1 = '@' then .direct_message_vtable else .group_message_vtable),
    additional_info := some (cblock t.2) }

/-- The receiver that `message_constructor` leaves for a line without receiver
token: the vtable is set, `additional_info` is never written. -/
def global_entity : message_receiving_entity :=
  { vtable := some .global_message_vtable, additional_info := none }

/-! ## Auxiliary definitions of the proofs -/

/-- The receivers array after the tokens `acc` have been stored: the block of
one element allocated at entry, until the first token is stored. -/
def receiver_array (acc : List message_receiving_entity) :
    List message_receiving_entity :=
  match acc with
  | [] => [fresh_entity]
  | _ :: _ => acc

/-- The call `p->vtable->process(p)`; an indeterminate vtable pointer cannot
be called through. -/
def payload.process (self : payload) : Outcome (List (List Char)) :=
  match self.vtable with
  | some vt => vt.process self
  | none => .undefined

/-- The state of the program around a `process` call: `memory` is the payload
object with all that its pointers lead to (the strings, the receivers array
and the names of the receivers), `stdout` the texts printed so far. -/
structure world where
  memory : payload
  stdout : List (List Char)
  deriving DecidableEq, Repr

/-! ## `payload_behaviors.c` on the program state

Each function is a step from the state before the call to the state after it.
A pointer argument is the place in `memory` that it points to: `self` of a
`process` function is the payload, `self` of a `transmit` function is the
element `receivers[i]` of its array and `content` is its content string, as
`process_message` passes them. -/

namespace Stateful

/-- The call `printf`, with the text that the format and the arguments give:
the text is added to `stdout`.  The arguments are read only. -/
def printf (text : List Char) (w : world) : world :=
  { w with stdout := w.stdout ++ [text] }

/-- The function `process_command_login`. -/
def process_command_login (w : world) : Outcome world :=
  match w.memory.data with
  | .command_login username password => do
      let u ← cstr username
      let p ← cstr password
      .ok (printf ("Command: login\n  Arguments: [username: ".toList ++ u ++
        ", password ".toList ++ p ++ "]\n".toList) w)
  | _ => .undefined

/-- The function `process_command_join`. -/
def process_command_join (w : world) : Outcome world :=
  match w.memory.data with
  | .command_join channel => do
      let c ← cstr channel
      .ok (printf ("Command: join\n  Arguments: [channel: ".toList ++ c ++ "]\n".toList) w)
  | _ => .undefined

/-- The function `process_command_logout`. -/
def process_command_logout (w : world) : Outcome world :=
  .ok (printf "Command: logout\n  Arguments: []\n".toList w)

/-- The element `receivers[i]` and the content string of the message in
memory: what the arguments `self` and `content` of a `transmit` function point
to. -/
def transmit_arguments (i : Nat) (w : world) :
    Outcome (message_receiving_entity × Block) :=
  match w.memory.data with
  | .message receivers content _ =>
      match receivers[i]? with
      | some self => .ok (self, content)
      | none => .undefined
  | _ => .undefined

/-- The function `transmit_direct_message`, called with `&receivers[i]`. -/
def transmit_direct_message (i : Nat) (w : world) : Outcome world := do
  let (self, content) ← transmit_arguments i w
  let name ← string_arg self.additional_info
  let c ← cstr content
  .ok (printf ("Direct message to ".toList ++ name ++ ": ".toList ++ c ++ "\n".toList) w)

/-- The function `transmit_group_message`, called with `&receivers[i]`. -/
def transmit_group_message (i : Nat) (w : world) : Outcome world := do
  let (self, content) ← transmit_arguments i w
  let name ← string_arg self.additional_info
  let c ← cstr content
  .ok (printf ("Group message to ".toList ++ name ++ ": ".toList ++ c ++ "\n".toList) w)

/-- The function `transmit_global_message`, called with `&receivers[i]`. -/
def transmit_global_message (i : Nat) (w : world) : Outcome world := do
  let (_, content) ← transmit_arguments i w
  let c ← cstr content
  .ok (printf ("Global message: ".toList ++ c ++ "\n".toList) w)

/-- The call `receivers[i].vtable->transmit_message(&receivers[i],
self->data.message.content)`: the vtable pointer is read from the element in
memory. -/
def call_transmit (i : Nat) (w : world) : Outcome world := do
  let (r, _) ← transmit_arguments i w
  match r.vtable with
  | some .direct_message_vtable => transmit_direct_message i w
  | some .group_message_vtable => transmit_group_message i w
  | some .global_message_vtable => transmit_global_message i w
  | none => .undefined

/-- The loop `for (int i = 0; i < self->data.message.receiver_count; i++)` of
`process_message`, from the test of its condition with the index `i`;
`receiver_count` is read from memory at every test.  The first argument bounds
the number of tests. -/
def process_message_loop : Nat → Nat → world → Outcome world
  | 0, _, _ => .fuel_out
  | fuel + 1, i, w =>
      match w.memory.data with
      | .message _ _ receiver_count =>
          if i < receiver_count then do
            let w ← call_transmit i w
            process_message_loop fuel (i + 1) w
          else .ok w
      | _ => .undefined

/-- The function `process_message`. -/
def process_message (w : world) : Outcome world :=
  match w.memory.data with
  | .message _ _ receiver_count => process_message_loop (receiver_count + 1) 0 w
  | _ => .undefined

/-- The statement `p.vtable->process(&p);`: the vtable pointer is read from the
payload in memory; an indeterminate one cannot be called through. -/
def process (w : world) : Outcome world :=
  match w.memory.vtable with
  | some .command_login_vtable => process_command_login w
  | some .command_join_vtable => process_command_join w
  | some .command_logout_vtable => process_command_logout w
  | some .message_vtable => process_message w
  | none => .undefined

/-- Two statements `p.vtable->process(&p);` in a row: the second acts on the
state that the first leaves. -/
def process_twice (w : world) : Outcome world := do
  let w ← process w
  process w

end Stateful

/-- Receiver named by a token: Direct for `@`, Group otherwise. -/
def token_receiver (t : Char × List Char) : Receiver :=
  if t.1 = '@' then .Direct t.2 else .Group t.2

/-- The payloads of the data model, as `parse_payload` builds them: a login
with two C strings, a join with one, a logout without field, or a message
whose array holds `receiver_count` receivers, at least one, and whose content
is a C string. -/
def payload.well_formed (q : payload) : Prop :=
  (∃ u pw, NUL ∉ u ∧ NUL ∉ pw ∧
    q = ⟨some .command_login_vtable, .command_login (cblock u) (cblock pw)⟩) ∨
  (∃ c, NUL ∉ c ∧ q = ⟨some .command_join_vtable, .command_join (cblock c)⟩) ∨
  q = ⟨some .command_logout_vtable, .zeroed⟩ ∨
  (∃ rs es content, rs ≠ [] ∧ NUL ∉ content ∧ List.Forall₂ Receiver.held_by rs es ∧
    q = ⟨some .message_vtable, .message es (cblock content) es.length⟩)

/-! ## Milestone 01: `traditional_dispatch.c` (switch statements) -/

namespace Traditional

/-- Modelled from the spec: the header `traditional_dispatch.h` of milestone 01
is not among the sources; the payload kinds are the six that the `switch`
statements of `traditional_dispatch.c` name. -/
inductive payload_kind where
  | COMMAND_LOGIN
  | COMMAND_JOIN
  | COMMAND_LOGOUT
  | MESSAGE_DIRECT
  | MESSAGE_GROUP
  | MESSAGE_GLOBAL
  deriving DecidableEq, Repr

/-- Modelled from the spec: the union `data` of `struct payload` (header not
among the sources), with the members and fields that `traditional_dispatch.c`
uses.  `zeroed` is the union of a compound literal that names no member;
`indeterminate` is a union never written. -/
inductive payload_data where
  | indeterminate
  | zeroed
  | command_login (username password : Block)
  | command_join (channel : Block)
  | message_direct (content username : Block)
  | message_group (content channel : Block)
  | message_global (content : Block)
  deriving DecidableEq, Repr

/-- Modelled from the spec: `struct payload` (header not among the sources), a
kind and the union; `none` is a kind never written. -/
structure payload where
  kind : Option payload_kind
  data : payload_data
  deriving DecidableEq, Repr

/-- Modelled from the spec: `struct payload_buffer` (header not among the
sources), with the four fields that `traditional_dispatch.c` uses; `payloads`
is the allocated array. -/
structure payload_buffer where
  process_base : Nat
  len : Nat
  cap : Nat
  payloads : List payload
  deriving DecidableEq, Repr

/-- An array element, or a local `struct payload`, never written. -/
def fresh_payload : payload := ⟨none, .indeterminate⟩

/-- The function `new_buffer`. -/
def new_buffer : payload_buffer :=
  { process_base := 0, len := 0, cap := 1, payloads := [fresh_payload] }

/-- The call `realloc(buf->payloads, n * sizeof(struct payload))`. -/
def realloc (payloads : List payload) (n : Nat) : List payload :=
  payloads.take n ++ List.replicate (n - payloads.length) fresh_payload

/-- Read of `s[0]` in a block. -/
def load_block (s : Block) : Outcome Char :=
  match s with
  | some c :: _ => .ok c
  | _ => .undefined

/-- The statements of `push_payload` before `if (payload_valid)`: the flag
`payload_valid`, the local `parsed` and the text printed.  The function
`extract_token` of this file has the same text as the one of
`payload_constructor.c`.  `content_len` is a difference of lengths in which the
receiver name is part of the line. -/
def push_payload_parse (payload : List Char) :
    Outcome (Bool × Traditional.payload × List (List Char)) := do
  let parsed := fresh_payload
  let c0 ← load payload 0
  if c0 = '/' then do
    let (i, command_name) ← command_name_loop payload 6 0 (malloc 7)
    let command_name ← store command_name i NUL
    if (← strcmp_eq "login".toList command_name) then do
      let username ← assert_ptr (← extract_token (payload.drop 7))
      let n ← cstr username
      let password ← assert_ptr (← extract_token (payload.drop (n.length + 8)))
      .ok (true, ⟨some .COMMAND_LOGIN, .command_login username password⟩, [])
    else if (← strcmp_eq "join".toList command_name) then do
      let channel ← assert_ptr (← extract_token (payload.drop 6))
      .ok (true, ⟨some .COMMAND_JOIN, .command_join channel⟩, [])
    else if (← strcmp_eq "logout".toList command_name) then
      .ok (true, ⟨some .COMMAND_LOGOUT, .zeroed⟩, [])
    else do
      let name ← cstr command_name
      .ok (false, parsed, ["Ignoring invalid command ".toList ++ name ++ "\n".toList])
  else do
    let kind : payload_kind :=
      if c0 = '@' then .MESSAGE_DIRECT
      else if c0 = '#' then .MESSAGE_GROUP
      else .MESSAGE_GLOBAL
    let receiver_name : Block ←
      (if kind ≠ .MESSAGE_GLOBAL then extract_token (payload.drop 1) >>= assert_ptr
       else .ok [some NUL])
    let n ← cstr receiver_name
    let len ← strlen payload
    let content_len := len - n.length
    let content := malloc (content_len + 1)
    let first ← load_block receiver_name
    let content ←
      (if first ≠ NUL then strcpy content (payload.drop (n.length + 2)) 0
       else strcpy content payload 0)
    if c0 = '@' then
      .ok (true, ⟨some kind, .message_direct content receiver_name⟩, [])
    else if c0 = '#' then
      .ok (true, ⟨some kind, .message_group content receiver_name⟩, [])
    else
      .ok (true, ⟨some kind, .message_global content⟩, [])

/-- The function `push_payload`: the buffer after the call and the text
printed. -/
def push_payload (buf : payload_buffer) (payload : List Char) :
    Outcome (payload_buffer × List (List Char)) := do
  let (payload_valid, parsed, out) ← push_payload_parse payload
  if payload_valid then do
    let buf :=
      if buf.cap = buf.len then
        { buf with cap := buf.cap * 2, payloads := realloc buf.payloads (buf.cap * 2) }
      else buf
    if buf.len < buf.payloads.length then
      .ok ({ buf with payloads := buf.payloads.set buf.len parsed, len := buf.len + 1 }, out)
    else .undefined
  else .ok (buf, out)

/-- The `switch (payload.kind)` of `process_next`: the text of its `printf`. -/
def process_next_switch (payload : Traditional.payload) : Outcome (List Char) :=
  match payload.kind, payload.data with
  | some .COMMAND_LOGIN, .command_login username password => do
      let u ← cstr username
      let p ← cstr password
      .ok ("Command: login\n  Arguments: [username: ".toList ++ u ++
        ", password ".toList ++ p ++ "]\n".toList)
  | some .COMMAND_JOIN, .command_join channel => do
      let c ← cstr channel
      .ok ("Command: login\n  Arguments: [channel: ".toList ++ c ++ "]\n".toList)
  | some .COMMAND_LOGOUT, _ => .ok "Command: logout\n  Arguments: []\n".toList
  | some .MESSAGE_DIRECT, .message_direct content username => do
      let u ← cstr username
      let c ← cstr content
      .ok ("Direct message to ".toList ++ u ++ ": ".toList ++ c ++ "\n".toList)
  | some .MESSAGE_GROUP, .message_group content channel => do
      let ch ← cstr channel
      let c ← cstr content
      .ok ("Group message to ".toList ++ ch ++ ": ".toList ++ c ++ "\n".toList)
  | some .MESSAGE_GLOBAL, .message_global content => do
      let c ← cstr content
      .ok ("Global message: ".toList ++ c ++ "\n".toList)
  | _, _ => .undefined

/-- The function `process_next`: the buffer after the call and the text
printed. -/
def process_next (buf : payload_buffer) :
    Outcome (payload_buffer × List (List Char)) :=
  if buf.process_base < buf.len then
    match buf.payloads[buf.process_base]? with
    | none => .undefined
    | some payload => do
        let text ← process_next_switch payload
        .ok ({ buf with process_base := buf.process_base + 1 }, [text])
  else .abort

/-- The line `raw` is valid: `push_payload` parses it with `payload_valid`
set, into `q`. -/
def parses_to (raw : List Char) (q : Traditional.payload) : Prop :=
  ∃ out, push_payload_parse raw = .ok (true, q, out)

end Traditional

/-- The buffer holds the payloads `ps`: they are its first `len` elements, in
order, inside an array of `cap` elements. -/
def Traditional.holds (buf : Traditional.payload_buffer) (ps : List Traditional.payload) :
    Prop :=
  buf.len = ps.length ∧ buf.payloads.length = buf.cap ∧ buf.len ≤ buf.cap ∧
    1 ≤ buf.cap ∧ buf.payloads.take buf.len = ps

/-! ## `strtok_r`, `strtok` and strings in a mutable buffer -/

/-- The step `s += strspn(s, delim)` of `strtok_r`: the bytes from the first
one that is not a delimiter. -/
def skip_delims (delim : List Char) : List Char → List Char
  | [] => []
  | c :: rest => if c ∈ delim then skip_delims delim rest else c :: rest

/-- The step `end = s + strcspn(s, delim)` of `strtok_r`: the characters before
the first delimiter or terminator, and the bytes from that one on. -/
def split_token (delim : List Char) : List Char → Outcome (List Char × List Char)
  | [] => .undefined
  | c :: rest =>
      if c = NUL ∨ c ∈ delim then .ok ([], c :: rest)
      else do
        let (t, e) ← split_token delim rest
        .ok (c :: t, e)

/-- The library function `strtok_r(s, delim, &save)` for a non-null `s`: the
token returned (`none` is `NULL`), as the string it is once its end has been
overwritten by a terminator, and the bytes from the new `save` on. -/
def strtok_r (s delim : List Char) : Outcome (Option (List Char) × List Char) :=
  match s with
  | [] => .undefined
  | c :: _ =>
    if c = NUL then .ok (none, s)
    else
      match skip_delims delim s with
      | [] => .undefined
      | c' :: rest' =>
        if c' = NUL then .ok (none, c' :: rest')
        else do
          let (t, e) ← split_token delim (c' :: rest')
          match e with
          | [] => .undefined
          | d :: after => if d = NUL then .ok (some t, d :: after) else .ok (some t, after)

/-- The first call `strtok(s, delim)` for a non-null `s`: the token of
`strtok_r`, the saved position being internal. -/
def strtok (s delim : List Char) : Outcome (Option (List Char)) := do
  let (t, _) ← strtok_r s delim
  .ok t

/-- The string at `s`: its characters up to the terminator. -/
def string_at : List Char → Outcome (List Char)
  | [] => .undefined
  | c :: rest => if c = NUL then .ok [] else do
      let s ← string_at rest
      .ok (c :: s)

/-- A `%s` argument or a `const char *` that must point to a string: a null
pointer has none. -/
def string_of_ptr : Option (List Char) → Outcome (List Char)
  | some s => .ok s
  | none => .undefined

/-! ## Milestone 00: `traditional_dispatch.c` (one function) -/

namespace Milestone00

/-- The function `handle_payload`. -/
def handle_payload (payload : List Char) : Outcome (List (List Char)) := do
  let first_char ← load payload 0
  if first_char = '/' then do
    let cmd ← string_of_ptr (← strtok payload " ".toList)
    .ok ["Command: ".toList ++ cmd ++ "\n".toList]
  else if first_char = '@' ∨ first_char = '#' then do
    let (receiver, content) ← strtok_r (payload.drop 1) " ".toList
    let receiver ← string_of_ptr receiver
    let content ← string_at content
    .ok ["Direct message to ".toList ++ receiver ++ ": ".toList ++ content ++ "\n".toList]
  else do
    let line ← string_at payload
    .ok ["Global message: ".toList ++ line ++ "\n".toList]

end Milestone00

/-! ## The RAII version: `string.cpp`, `payload.hpp` (solutions/05) and
`payload.cpp` (04_raii)

The output of the C++ versions is the list of the texts of the successive
statements on `cout`; `endl` is a newline.  A `char *` that holds a string is
the characters of the string, `none` is a null pointer. -/

namespace Raii

/-- The class `String`: the characters that `data` holds. -/
structure String where
  data : List Char
  deriving DecidableEq, Repr

/-- The constructor `String::String(const char *str)`: the object and the text
printed.  `strlen` of a null pointer is undefined. -/
def String.ctor (str : Option (List Char)) : Outcome (String × List (List Char)) := do
  let s ← string_of_ptr str
  .ok (⟨s⟩, ["String created: ".toList ++ s ++ "\n".toList])

/-- The destructor `String::~String()`: the text printed. -/
def String.dtor (self : String) : List (List Char) :=
  ["String destroyed: ".toList ++ self.data ++ "\n".toList]

/-- The class `LoginCommand`. -/
structure LoginCommand where
  username : String
  password : String
  deriving DecidableEq, Repr

/-- The constructor of `LoginCommand`: the members are initialised in the
order of their declaration. -/
def LoginCommand.ctor (i_username i_password : Option (List Char)) :
    Outcome (LoginCommand × List (List Char)) := do
  let (username, out1) ← String.ctor i_username
  let (password, out2) ← String.ctor i_password
  .ok (⟨username, password⟩, out1 ++ out2)

/-- The implicit destructor of `LoginCommand`: the members are destroyed in the
reverse order of their declaration. -/
def LoginCommand.dtor (self : LoginCommand) : List (List Char) :=
  self.password.dtor ++ self.username.dtor

/-- The function `LoginCommand::process` of `payload.cpp`. -/
def LoginCommand.process (self : LoginCommand) : List (List Char) :=
  ["Command: login\n  Arguments: [username: ".toList ++ self.username.data ++
    ", password:".toList ++ self.password.data ++ "]".toList ++ "\n".toList]

/-- The class `JoinCommand`. -/
structure JoinCommand where
  channel : String
  deriving DecidableEq, Repr

/-- The constructor of `JoinCommand`. -/
def JoinCommand.ctor (i_channel : Option (List Char)) :
    Outcome (JoinCommand × List (List Char)) := do
  let (channel, out) ← String.ctor i_channel
  .ok (⟨channel⟩, out)

/-- The implicit destructor of `JoinCommand`. -/
def JoinCommand.dtor (self : JoinCommand) : List (List Char) :=
  self.channel.dtor

/-- The function `JoinCommand::process` of `payload.cpp`. -/
def JoinCommand.process (self : JoinCommand) : List (List Char) :=
  ["Command: join\n  Arguments: [channel: ".toList ++ self.channel.data ++ "]".toList ++
    "\n".toList]

/-- The function `LogoutCommand::process` of `payload.cpp`; the class has no
member. -/
def LogoutCommand.process : List (List Char) :=
  ["Command: logout\n  Arguments: []".toList ++ "\n".toList]

/-- The function `handle_command_payload`.  The local command object of a
branch is destroyed at the end of the branch, before the final `cout`. -/
def handle_command_payload (raw : List Char) : Outcome (List (List Char)) := do
  let c0 ← load raw 0
  let out0 := if c0 ≠ '/' then ["Skipping non-command".toList ++ "\n".toList] else []
  let raw := raw.drop 1
  let (cmd, rest) ← strtok_r raw " ".toList
  let cmd ← string_of_ptr cmd
  if cmd = "login".toList then do
    let (username, rest) ← strtok_r rest " ".toList
    let (password, _) ← strtok_r rest " ".toList
    let (cmd, out1) ← LoginCommand.ctor username password
    .ok (out0 ++ out1 ++ cmd.process ++ cmd.dtor ++ ["\n".toList])
  else if cmd = "join".toList then do
    let (channel, _) ← strtok_r rest " ".toList
    let (cmd, out1) ← JoinCommand.ctor channel
    .ok (out0 ++ out1 ++ cmd.process ++ cmd.dtor ++ ["\n".toList])
  else if cmd = "logout".toList then
    .ok (out0 ++ LogoutCommand.process ++ ["\n".toList])
  else
    .ok (out0 ++ ["Unknown command!".toList ++ "\n".toList] ++ ["\n".toList])

end Raii

/-! ## The virtual-inheritance version: `payload.hpp` (solutions/06) and
`payload.cpp` (05_virtual-methods-and-inheritance)

A `std::string` member is the characters of the string. -/

namespace Virtual

/-- Objects of the classes derived from `Command`: the member `command_name`
of the base class and the members of the class. -/
inductive Command where
  | LoginCommand (command_name username password : List Char)
  | JoinCommand (command_name channel : List Char)
  | LogoutCommand (command_name : List Char)
  deriving DecidableEq, Repr

/-- Objects of the classes derived from `Message`: the member `content` of the
base class and the members of the class. -/
inductive Message where
  | DirectMessage (content username : List Char)
  | GroupMessage (content channel : List Char)
  | GlobalMessage (content : List Char)
  deriving DecidableEq, Repr

/-- A `Payload *`: an object of one of the six concrete classes. -/
inductive Payload where
  | command (c : Command)
  | message (m : Message)
  deriving DecidableEq, Repr

/-- The constructor `LoginCommand(username_, password_)`. -/
def new_LoginCommand (username_ password_ : List Char) : Payload :=
  .command (.LoginCommand "login".toList username_ password_)

/-- The constructor `JoinCommand(channel_)`. -/
def new_JoinCommand (channel_ : List Char) : Payload :=
  .command (.JoinCommand "join".toList channel_)

/-- The constructor `LogoutCommand()`. -/
def new_LogoutCommand : Payload :=
  .command (.LogoutCommand "logout".toList)

/-- The constructor `DirectMessage(content_, username_)`. -/
def new_DirectMessage (content_ username_ : List Char) : Payload :=
  .message (.DirectMessage content_ username_)

/-- The constructor `GroupMessage(content_, channel_)`. -/
def new_GroupMessage (content_ channel_ : List Char) : Payload :=
  .message (.GroupMessage content_ channel_)

/-- The constructor `GlobalMessage(content_)`. -/
def new_GlobalMessage (content_ : List Char) : Payload :=
  .message (.GlobalMessage content_)

/-- The private member `command_name` of `Command`. -/
def Command.command_name : Command → List Char
  | .LoginCommand command_name _ _ => command_name
  | .JoinCommand command_name _ => command_name
  | .LogoutCommand command_name => command_name

/-- The virtual function `process_arguments` with its three overriders. -/
def Command.process_arguments : Command → List (List Char)
  | .LoginCommand _ username password =>
      ["  Arguments: [username: ".toList ++ username ++ ", password: ".toList ++ password ++
        "]".toList ++ "\n".toList]
  | .JoinCommand _ channel =>
      ["  Arguments: [channel: ".toList ++ channel ++ "]".toList ++ "\n".toList]
  | .LogoutCommand _ => ["  Arguments: []".toList ++ "\n".toList]

/-- The function `Command::process`. -/
def Command.process (self : Command) : List (List Char) :=
  ["Command: ".toList ++ self.command_name ++ "\n".toList] ++ self.process_arguments

/-- The private member `content` of `Message`. -/
def Message.content : Message → List Char
  | .DirectMessage content _ => content
  | .GroupMessage content _ => content
  | .GlobalMessage content => content

/-- The virtual function `process_recipient` with its three overriders. -/
def Message.process_recipient : Message → List (List Char)
  | .DirectMessage _ username => ["Direct message to ".toList ++ username ++ ": ".toList]
  | .GroupMessage _ channel => ["Group message to ".toList ++ channel ++ ": ".toList]
  | .GlobalMessage _ => ["Global message: ".toList]

/-- The function `Message::process`. -/
def Message.process (self : Message) : List (List Char) :=
  self.process_recipient ++ [self.content ++ "\n".toList]

/-- The virtual call `payload->process()`. -/
def Payload.process : Payload → List (List Char)
  | .command c => c.process
  | .message m => m.process

end Virtual

/-! ## The vtable version with an allocator

The same functions of `payload_constructor.c` and the `destroy_*` functions of
`payload_behaviors.c`, with the allocator made explicit: every `malloc` takes
a fresh address, every `free` needs a live one.  A pointer to an allocated
block is the address of the block together with its contents. -/

namespace Alloc

/-- The allocator: `next` is the address that the next `malloc` returns,
`live` holds the addresses of the blocks allocated and not yet freed. -/
structure heap where
  next : Nat
  live : List Nat
  deriving DecidableEq, Repr

/-- A pointer to an allocated block: its address and the contents of the
block. -/
structure ptr (α : Type) where
  addr : Nat
  target : α
  deriving DecidableEq, Repr

/-- The call `malloc(..)`: the address of the new block and the allocator
afterwards. -/
def heap.malloc (h : heap) : Nat × heap :=
  (h.next, { next := h.next + 1, live := h.next :: h.live })

/-- The call `free(a)`: undefined unless `a` is the address of a live block. -/
def heap.free (h : heap) (a : Nat) : Outcome heap :=
  if a ∈ h.live then .ok { next := h.next, live := h.live.erase a } else .undefined

/-- The struct `message_receiving_entity`, with `additional_info` a pointer to
an allocated block; `none` is an indeterminate pointer. -/
structure message_receiving_entity where
  vtable : Option HowToOop.message_receiving_entity_vtable
  additional_info : Option (ptr Block)
  deriving DecidableEq, Repr

/-- The union `payload_data`, with pointers to allocated blocks. -/
inductive payload_data where
  | indeterminate
  | zeroed
  | command_login (username password : ptr Block)
  | command_join (channel : ptr Block)
  | message (receivers : ptr (List message_receiving_entity)) (content : ptr Block)
      (receiver_count : Nat)
  deriving DecidableEq, Repr

/-- The struct `payload`. -/
structure payload where
  vtable : Option HowToOop.payload_vtable
  data : payload_data
  deriving DecidableEq, Repr

/-- The function `extract_token`. -/
def extract_token (raw : List Char) (h : heap) : Outcome (Option (ptr Block) × heap) := do
  let end_ ← extract_token_scan raw 0
  if end_ = 0 then
    .ok (none, h)
  else do
    let (a, h) := h.malloc
    let token := malloc (end_ + 1)
    let token ← store token end_ NUL
    let token ← extract_token_copy raw end_ 0 token
    .ok (some ⟨a, token⟩, h)

/-- An array element not written since allocation. -/
def fresh_entity : message_receiving_entity := ⟨none, none⟩

/-- The call `realloc(receivers, sizeof(struct message_receiving_entity) * n)`:
the old block is released and the elements are in a new one. -/
def realloc (receivers : ptr (List message_receiving_entity)) (n : Nat) (h : heap) :
    Outcome (ptr (List message_receiving_entity) × heap) := do
  let h ← h.free receivers.addr
  let (a, h) := h.malloc
  .ok (⟨a, receivers.target.take n ++
    List.replicate (n - receivers.target.length) fresh_entity⟩, h)

/-- The assignment `receivers[i] = e`. -/
def store_entity (receivers : List message_receiving_entity) (i : Nat)
    (e : message_receiving_entity) : Outcome (List message_receiving_entity) :=
  if i < receivers.length then .ok (receivers.set i e) else .undefined

/-- The `while` loop of `message_constructor`; the first argument bounds the
number of iterations. -/
def receiver_loop (raw : List Char) :
    Nat → ptr (List message_receiving_entity) → Nat → Nat → heap →
      Outcome (ptr (List message_receiving_entity) × Nat × Nat × heap)
  | 0, _, _, _, _ => .fuel_out
  | fuel + 1, receivers, receiver_count, content_offset, h => do
      let c ← load raw content_offset
      if c = '@' ∨ c = '#' then do
        let name_end ← name_end_scan (raw.drop content_offset) content_offset
        let (a, h) := h.malloc
        let receiver_name := malloc (name_end - content_offset)
        let receiver_name ← receiver_name_copy content_offset
          (raw.drop (content_offset + 1)) (content_offset + 1) receiver_name
        let receiver_name ← store receiver_name (name_end - content_offset - 1) NUL
        let (receivers, h) ←
          (if receiver_count ≥ 1 then realloc receivers (receiver_count + 1) h
           else .ok (receivers, h))
        let target ← store_entity receivers.target receiver_count
          { additional_info := some ⟨a, receiver_name⟩,
            vtable := some (if c = '@' then .direct_message_vtable
                            else .group_message_vtable) }
        receiver_loop raw fuel ⟨receivers.addr, target⟩ (receiver_count + 1)
          (name_end + 1) h
      else .ok (receivers, receiver_count, content_offset, h)

/-- The assignment `receivers->vtable = &global_message_vtable`. -/
def set_global (receivers : List message_receiving_entity) :
    Outcome (List message_receiving_entity) :=
  match receivers with
  | [] => .undefined
  | r :: rest => .ok ({ r with vtable := some .global_message_vtable } :: rest)

/-- The function `message_constructor`. -/
def message_constructor (p : payload) (raw : List Char) (h : heap) :
    Outcome (payload × heap) := do
  let p := { p with vtable := some .message_vtable }
  let (a, h) := h.malloc
  let (receivers, receiver_count, content_offset, h) ←
    receiver_loop raw (raw.length + 1) ⟨a, [fresh_entity]⟩ 0 0 h
  let (target, receiver_count) ←
    (if content_offset = 0 then set_global receivers.target >>= fun t => .ok (t, 1)
     else .ok (receivers.target, receiver_count))
  let len ← strlen raw
  if content_offset ≤ len then do
    let (a, h) := h.malloc
    let content := malloc (len - content_offset + 1)
    let content ← strcpy content (raw.drop content_offset) 0
    .ok ({ p with data := .message ⟨receivers.addr, target⟩ ⟨a, content⟩ receiver_count }, h)
  else if content_offset = len + 1 then .undefined
  else .abort

/-- The function `parse_payload`: the returned flag, the payload `*p` after
the call, the text printed, and the allocator afterwards. -/
def parse_payload (p : payload) (raw : List Char) (h : heap) :
    Outcome ((Bool × payload × List (List Char)) × heap) := do
  let c0 ← load raw 0
  if c0 = '/' then do
    let (i, command_name) ← command_name_loop raw 6 0 (malloc 7)
    let command_name ← store command_name i NUL
    let is_login ← strcmp_eq "login".toList command_name
    if is_login then do
      let (r, h) ← extract_token (raw.drop 7) h
      let username ← assert_ptr r
      let n ← cstr username.target
      let (r, h) ← extract_token (raw.drop (n.length + 8)) h
      let password ← assert_ptr r
      .ok ((true, ⟨some .command_login_vtable, .command_login username password⟩, []), h)
    else do
      let is_join ← strcmp_eq "join".toList command_name
      if is_join then do
        let (r, h) ← extract_token (raw.drop 6) h
        let channel ← assert_ptr r
        .ok ((true, ⟨some .command_join_vtable, .command_join channel⟩, []), h)
      else do
        let is_logout ← strcmp_eq "logout".toList command_name
        if is_logout then
          .ok ((true, ⟨some .command_logout_vtable, .zeroed⟩, []), h)
        else do
          let name ← cstr command_name
          .ok ((false, p, ["Ignoring invalid command ".toList ++ name ++ "\n".toList]), h)
  else do
    let (p, h) ← message_constructor p raw h
    .ok ((true, p, []), h)

/-- The function `destroy_command_login`. -/
def destroy_command_login (self : payload) (h : heap) : Outcome heap :=
  match self.data with
  | .command_login username password => do
      let h ← h.free username.addr
      h.free password.addr
  | _ => .undefined

/-- The function `destroy_command_join`. -/
def destroy_command_join (self : payload) (h : heap) : Outcome heap :=
  match self.data with
  | .command_join channel => h.free channel.addr
  | _ => .undefined

/-- The function `destroy_command_logout`. -/
def destroy_command_logout (_self : payload) (h : heap) : Outcome heap := .ok h

/-- The function `destroy_global_message`. -/
def destroy_global_message (_self : message_receiving_entity) (h : heap) : Outcome heap :=
  .ok h

/-- The function `destroy_group_or_direct_message`. -/
def destroy_group_or_direct_message (self : message_receiving_entity) (h : heap) :
    Outcome heap :=
  match self.additional_info with
  | some p => h.free p.addr
  | none => .undefined

/-- The call through `receivers[i].vtable->destroy`, by the member `destroy`
of each receiver vtable. -/
def call_destroy (r : message_receiving_entity) (h : heap) : Outcome heap :=
  match r.vtable with
  | some .direct_message_vtable => destroy_group_or_direct_message r h
  | some .group_message_vtable => destroy_group_or_direct_message r h
  | some .global_message_vtable => destroy_global_message r h
  | none => .undefined

/-- The loop `for (int i = 0; i < receiver_count; i++)` of `destroy_message`;
the first argument is `receiver_count - i`. -/
def destroy_message_loop (receivers : List message_receiving_entity) :
    Nat → Nat → heap → Outcome heap
  | 0, _, h => .ok h
  | k + 1, i, h =>
      match receivers[i]? with
      | none => .undefined
      | some r => do
          let h ← call_destroy r h
          destroy_message_loop receivers k (i + 1) h

/-- The function `destroy_message`. -/
def destroy_message (self : payload) (h : heap) : Outcome heap :=
  match self.data with
  | .message receivers content receiver_count => do
      let h ← destroy_message_loop receivers.target receiver_count 0 h
      let h ← h.free content.addr
      h.free receivers.addr
  | _ => .undefined

/-- The call `p->vtable->destroy(p)`, by the member `destroy` of each payload
vtable. -/
def payload.destroy (self : payload) (h : heap) : Outcome heap :=
  match self.vtable with
  | some .command_login_vtable => destroy_command_login self h
  | some .command_join_vtable => destroy_command_join self h
  | some .command_logout_vtable => destroy_command_logout self h
  | some .message_vtable => destroy_message self h
  | none => .undefined

/-- The blocks that a payload owns, by address: username and password of a
login, the channel of a join, nothing for a logout, and for a message the
content, the receivers array and the name of every Direct or Group receiver
among the first `receiver_count` elements. -/
def payload.owned (self : payload) : List Nat :=
  match self.data with
  | .command_login username password => [username.addr, password.addr]
  | .command_join channel => [channel.addr]
  | .message receivers content receiver_count =>
      content.addr :: receivers.addr ::
        (receivers.target.take receiver_count).filterMap fun r =>
          match r.vtable, r.additional_info with
          | some .direct_message_vtable, some p => some p.addr
          | some .group_message_vtable, some p => some p.addr
          | _, _ => none
  | _ => []

/-- The calls `free(a)` for the addresses of a list, in order. -/
def free_list : List Nat → heap → Outcome heap
  | [], h => .ok h
  | a :: as, h => do
      let h ← h.free a
      free_list as h

end Alloc

/-- The elements that the loop of `message_constructor` has stored for the
tokens `es`, each with the vtable of its kind and the pointer to its name. -/
def Alloc.built (es : List (message_receiving_entity_vtable × Alloc.ptr Block)) :
    List Alloc.message_receiving_entity :=
  es.map fun e => ⟨some e.1, some e.2⟩

/-- The receivers array after the tokens `es` have been stored: the block of
one element allocated at entry, until the first token is stored. -/
def Alloc.array_of (es : List (message_receiving_entity_vtable × Alloc.ptr Block)) :
    List Alloc.message_receiving_entity :=
  match es with
  | [] => [Alloc.fresh_entity]
  | _ :: _ => Alloc.built es

/-- State of the loop of `message_constructor` after the tokens `es`: the live
blocks are those live at entry (`L0`), the receivers array and the names, all
distinct and below the next address; the array holds the tokens. -/
def Alloc.loop_inv (L0 : List Nat) (receivers : Alloc.ptr (List Alloc.message_receiving_entity))
    (receiver_count content_offset : Nat) (h : Alloc.heap) : Prop :=
  ∃ (es : List (message_receiving_entity_vtable × Alloc.ptr Block)) (xs : List Nat),
    h.live = xs ++ L0 ∧ xs.Nodup ∧
    (∀ a, a ∈ xs ↔ a = receivers.addr ∨ a ∈ es.map (fun e => e.2.addr)) ∧
    (∀ a ∈ xs, a < h.next) ∧
    (receivers.addr :: es.map (fun e => e.2.addr)).Nodup ∧
    receiver_count = es.length ∧
    (∀ e ∈ es, e.1 = .direct_message_vtable ∨ e.1 = .group_message_vtable) ∧
    receivers.target = Alloc.array_of es ∧
    (content_offset = 0 ↔ es = [])

/-- The struct of the first embedding that an element with addresses stands
for: the same vtable, the contents of the block for the pointer. -/
def Alloc.message_receiving_entity.erase (e : Alloc.message_receiving_entity) :
    HowToOop.message_receiving_entity :=
  ⟨e.vtable, e.additional_info.map fun p => p.target⟩

/-- The union of the first embedding that a union with addresses stands for. -/
def Alloc.payload_data.erase : Alloc.payload_data → HowToOop.payload_data
  | .indeterminate => .indeterminate
  | .zeroed => .zeroed
  | .command_login username password => .command_login username.target password.target
  | .command_join channel => .command_join channel.target
  | .message receivers content receiver_count =>
      .message (receivers.target.map Alloc.message_receiving_entity.erase) content.target
        receiver_count

/-- The payload of the first embedding that a payload with addresses stands
for. -/
def Alloc.payload.erase (q : Alloc.payload) : HowToOop.payload :=
  ⟨q.vtable, q.data.erase⟩

/-! ## Milestone 02/01: `payload_constructor.c` with function pointers

The data model is that of `solutions/03/02/src/payload.h`; a function pointer
is the name of the function it points to. -/

namespace FunctionPointer

/-- The functions that the member `transmit_message` of a receiver points to. -/
inductive transmit_message_fn where
  | transmit_direct_message
  | transmit_group_message
  | transmit_global_message
  deriving DecidableEq, Repr

/-- The functions that the member `destroy` of a receiver points to. -/
inductive receiver_destroy_fn where
  | destroy_group_or_direct_message
  | destroy_global_message
  deriving DecidableEq, Repr

/-- The struct `message_receiving_entity`; `none` is a member not written
since allocation. -/
structure message_receiving_entity where
  transmit_message : Option transmit_message_fn
  destroy : Option receiver_destroy_fn
  additional_info : Option Block
  deriving DecidableEq, Repr

/-- The size of `struct message_receiving_entity`: three pointers of 8 bytes. -/
def sizeof_message_receiving_entity : Nat := 24

/-- The functions that the member `process` of a payload points to. -/
inductive process_fn where
  | process_command_login
  | process_command_join
  | process_command_logout
  | process_message
  deriving DecidableEq, Repr

/-- The functions that the member `destroy` of a payload points to. -/
inductive destroy_fn where
  | destroy_command_login
  | destroy_command_join
  | destroy_command_logout
  | destroy_message
  deriving DecidableEq, Repr

/-- The union `payload_data`. -/
inductive payload_data where
  | indeterminate
  | zeroed
  | command_login (username password : Block)
  | command_join (channel : Block)
  | message (receivers : List message_receiving_entity) (content : Block)
      (receiver_count : Nat)
  deriving DecidableEq, Repr

/-- The struct `payload`. -/
structure payload where
  process : Option process_fn
  destroy : Option destroy_fn
  data : payload_data
  deriving DecidableEq, Repr

/-- An array element not written since allocation. -/
def fresh_entity : message_receiving_entity := ⟨none, none, none⟩

/-- The call `realloc(receivers, sizeof(struct message_receiving_entity) * n)`. -/
def realloc (receivers : List message_receiving_entity) (n : Nat) :
    List message_receiving_entity :=
  receivers.take n ++ List.replicate (n - receivers.length) fresh_entity

/-- The assignment `receivers[i] = e`. -/
def store_entity (receivers : List message_receiving_entity) (i : Nat)
    (e : message_receiving_entity) : Outcome (List message_receiving_entity) :=
  if i < receivers.length then .ok (receivers.set i e) else .undefined

/-- The `while (raw[content_offset] == '@' || raw[content_offset] == '#')` loop
of `message_constructor`; the first argument bounds the number of iterations.
The block of a name has `sizeof(struct message_receiving_entity) * (name_end -
content_offset)` bytes and the terminator is stored at index `name_end -
content_offset`. -/
def receiver_loop (raw : List Char) :
    Nat → List message_receiving_entity → Nat → Nat →
      Outcome (List message_receiving_entity × Nat × Nat)
  | 0, _, _, _ => .fuel_out
  | fuel + 1, receivers, receiver_count, content_offset => do
      let c ← load raw content_offset
      if c = '@' ∨ c = '#' then do
        let name_end ← name_end_scan (raw.drop content_offset) content_offset
        let receiver_name :=
          malloc (sizeof_message_receiving_entity * (name_end - content_offset))
        let receiver_name ← receiver_name_copy content_offset
          (raw.drop (content_offset + 1)) (content_offset + 1) receiver_name
        let receiver_name ← store receiver_name (name_end - content_offset) NUL
        let receivers :=
          if receiver_count ≥ 1 then realloc receivers (receiver_count + 1)
          else receivers
        let receivers ← store_entity receivers receiver_count
          { additional_info := some receiver_name,
            transmit_message := some (if c = '@' then .transmit_direct_message
                                      else .transmit_group_message),
            destroy := some .destroy_group_or_direct_message }
        receiver_loop raw fuel receivers (receiver_count + 1) (name_end + 1)
      else .ok (receivers, receiver_count, content_offset)

/-- The statements of `if (content_offset == 0)`, on the first element. -/
def set_global (receivers : List message_receiving_entity) :
    Outcome (List message_receiving_entity) :=
  match receivers with
  | [] => .undefined
  | r :: rest =>
      .ok ({ r with transmit_message := some .transmit_global_message,
                    destroy := some .destroy_global_message } :: rest)

/-- The function `message_constructor`. -/
def message_constructor (p : payload) (raw : List Char) : Outcome payload := do
  let p := { p with destroy := some .destroy_message, process := some .process_message }
  let receivers := [fresh_entity]
  let (receivers, receiver_count, content_offset) ←
    receiver_loop raw (raw.length + 1) receivers 0 0
  let (receivers, receiver_count) ←
    (if content_offset = 0 then set_global receivers >>= fun r => .ok (r, 1)
     else .ok (receivers, receiver_count))
  let len ← strlen raw
  if content_offset ≤ len then do
    let content := malloc (len - content_offset + 1)
    let content ← strcpy content (raw.drop content_offset) 0
    .ok { p with data := .message receivers content receiver_count }
  else if content_offset = len + 1 then .undefined
  else .abort

end FunctionPointer

/-- The bytes that a read of the block finds when the memory that `malloc`
returned held the byte `c` everywhere: a byte never written reads as `c`. -/
def initial_contents (c : Char) (b : Block) : Block :=
  b.map fun x => some (x.getD c)

/-- The receiver names of a message payload of milestone 02/01, as blocks. -/
def FunctionPointer.payload.receiver_names (q : FunctionPointer.payload) :
    List (Option Block) :=
  match q.data with
  | .message receivers _ receiver_count =>
      (receivers.take receiver_count).map fun r => r.additional_info
  | _ => []

/-- The receiver names of a message payload of the vtable version, as blocks. -/
def payload.receiver_names (q : payload) : List (Option Block) :=
  match q.data with
  | .message receivers _ receiver_count =>
      (receivers.take receiver_count).map fun r => r.additional_info
  | _ => []

/-! ## Sequences of calls on the payload buffer of milestone 01 -/

namespace Traditional

/-- A call on a payload buffer: `push_payload(buf, payload)` or
`process_next(buf)`. -/
inductive call where
  | push_payload (payload : List Char)
  | process_next
  deriving DecidableEq, Repr

/-- The calls of a list, in order, on a buffer: the buffer at the end.  A call
whose assertion fails, or that is undefined, ends the run. -/
def run : payload_buffer → List call → Outcome payload_buffer
  | buf, [] => .ok buf
  | buf, .push_payload payload :: calls => do
      let (buf, _) ← Traditional.push_payload buf payload
      run buf calls
  | buf, .process_next :: calls => do
      let (buf, _) ← Traditional.process_next buf
      run buf calls

/-- The flag `payload_valid` at the end of the parsing part of `push_payload`,
for a line on which that part returns. -/
def payload_valid (payload : List Char) : Bool :=
  match push_payload_parse payload with
  | .ok (valid, _, _) => valid
  | _ => false

/-- The number of calls of a list that push a valid payload. -/
def valid_pushes : List call → Nat
  | [] => 0
  | .push_payload payload :: calls =>
      (if payload_valid payload then 1 else 0) + valid_pushes calls
  | .process_next :: calls => valid_pushes calls

/-- The calls `push_payload(buf, payload); process_next(buf);` on the buffer of
`new_buffer()`, the calls that `tests/it_works.c` makes for six lines at once:
the text printed. -/
def push_then_process (payload : List Char) : Outcome (List (List Char)) := do
  let (buf, out1) ← Traditional.push_payload new_buffer payload
  let (_, out2) ← Traditional.process_next buf
  .ok (out1 ++ out2)

end Traditional

/-- The counterpart of `Traditional.push_then_process` in the vtable version:
the call `parse_payload(&p, raw)` and, when it returns `true`, the call
`p.vtable->process(&p)`; the text printed.  No file of the sources makes the
two calls in a row: the composition is the one that the comparison of the two
versions is about. -/
def parse_then_process (p : payload) (raw : List Char) : Outcome (List (List Char)) := do
  let (valid, p, out1) ← parse_payload p raw
  if valid then do
    let out2 ← p.process
    .ok (out1 ++ out2)
  else .ok out1

/-- The body of the `while` loop of `message_constructor`, entered with the
character `c` at `raw[content_offset]`: the array, `receiver_count` and
`content_offset` at its end. -/
def receiver_iteration (raw : List Char) (c : Char)
    (receivers : List message_receiving_entity) (receiver_count content_offset : Nat) :
    Outcome (List message_receiving_entity × Nat × Nat) := do
  let name_end ← name_end_scan (raw.drop content_offset) content_offset
  let receiver_name := malloc (name_end - content_offset)
  let receiver_name ← receiver_name_copy content_offset
    (raw.drop (content_offset + 1)) (content_offset + 1) receiver_name
  let receiver_name ← store receiver_name (name_end - content_offset - 1) NUL
  let receivers :=
    if receiver_count ≥ 1 then realloc receivers (receiver_count + 1)
    else receivers
  let receivers ← store_entity receivers receiver_count
    { additional_info := some receiver_name,
      vtable := some (if c = '@' then .direct_message_vtable
                      else .group_message_vtable) }
  .ok (receivers, receiver_count + 1, name_end + 1)

/-- State of a payload buffer after `n` valid payloads have been pushed: the
indices are ordered, the array has `cap` elements, `len` is `n`, and `cap` is
the least power of two that is at least `len`. -/
def Traditional.capacity_inv (buf : Traditional.payload_buffer) (n : Nat) : Prop :=
  buf.process_base ≤ buf.len ∧ buf.len ≤ buf.cap ∧ buf.payloads.length = buf.cap ∧
    buf.len = n ∧ ∃ k, buf.cap = 2 ^ k ∧ ∀ j, buf.len ≤ 2 ^ j → k ≤ j

/-- The block that milestone 02/01 leaves for a receiver name `nm`: the
characters copied, one byte never written, the terminator, and the rest of the
allocation. -/
def FunctionPointer.name_block (nm : List Char) : Block :=
  nm.map some ++ none :: some NUL ::
    List.replicate (FunctionPointer.sizeof_message_receiving_entity * (nm.length + 1) -
      (nm.length + 2)) none

/-- The element that milestone 02/01 stores for a token. -/
def FunctionPointer.token_entity (t : Char × List Char) :
    FunctionPointer.message_receiving_entity :=
  { transmit_message := some (if t.1 = '@' then .transmit_direct_message
                              else .transmit_group_message),
    destroy := some .destroy_group_or_direct_message,
    additional_info := some (FunctionPointer.name_block t.2) }

/-- The receivers array of milestone 02/01 after the elements `acc` have been
stored: the block of one element allocated at entry, until the first is
stored. -/
def FunctionPointer.receiver_array (acc : List FunctionPointer.message_receiving_entity) :
    List FunctionPointer.message_receiving_entity :=
  match acc with
  | [] => [FunctionPointer.fresh_entity]
  | _ :: _ => acc

/-! ## Basic facts about the memory primitives -/

@[simp] theorem ok_bind {α β : Type} (a : α) (f : α → Outcome β) :
    (Outcome.ok a >>= f) = f a := rfl

@[simp] theorem pure_eq_ok {α : Type} (a : α) : (pure a : Outcome α) = .ok a := rfl

theorem load_append (pre : List Char) (c : Char) (rest : List Char) :
    load (pre ++ c :: rest) pre.length = .ok c := by
  have h : (pre ++ c :: rest)[pre.length]? = some c := by
    rw [List.getElem?_append_right (le_refl _)]
    simp
  simp only [load, h]

theorem strlen_cline (l rest : List Char) (h : NUL ∉ l) :
    strlen (l ++ NUL :: rest) = .ok l.length := by
  induction l with
  | nil => simp [strlen]
  | cons c l ih =>
    have hc : c ≠ NUL := fun e => h (by simp [e])
    have hl : NUL ∉ l := fun e => h (by simp [e])
    simp [strlen, hc, ih hl]

theorem cstr_cblock (s : List Char) (rest : Block) (h : NUL ∉ s) :
    cstr (s.map some ++ some NUL :: rest) = .ok s := by
  induction s with
  | nil => simp [cstr]
  | cons c s ih =>
    have hc : c ≠ NUL := fun e => h (by simp [e])
    have hs : NUL ∉ s := fun e => h (by simp [e])
    simp [cstr, hc, ih hs]

theorem store_append (a : Block) (o : Option Char) (b : Block) (c : Char) :
    store (a ++ o :: b) a.length c = .ok (a ++ some c :: b) := by
  simp [store]

/-! ## `extract_token` -/

theorem extract_token_scan_token (t : List Char) (d : Char) (rest : List Char)
    (k : Nat) (ht : ∀ c ∈ t, c ≠ ' ' ∧ c ≠ NUL) (hd : d = ' ' ∨ d = NUL) :
    extract_token_scan (t ++ d :: rest) k = .ok (k + t.length) := by
  induction t generalizing k with
  | nil => rcases hd with rfl | rfl <;> simp [extract_token_scan]
  | cons c t ih =>
    have hc := ht c (by simp)
    have h := ih (k + 1) (fun x hx => ht x (by simp [hx]))
    show extract_token_scan (c :: (t ++ d :: rest)) k = _
    rw [extract_token_scan, if_pos hc, h, List.length_cons]
    congr 1
    omega

theorem extract_token_copy_eq (t post : List Char) (pre : List Char)
    (tpre told tpost : Block) (hlen : told.length = t.length)
    (hi : tpre.length = pre.length) :
    extract_token_copy (pre ++ t ++ post) t.length pre.length (tpre ++ told ++ tpost) =
      .ok (tpre ++ t.map some ++ tpost) := by
  induction t generalizing pre tpre told with
  | nil =>
    cases told with
    | nil => simp [extract_token_copy]
    | cons o told => simp at hlen
  | cons c t ih =>
    cases told with
    | nil => simp at hlen
    | cons o told =>
      have hl : load (pre ++ c :: t ++ post) pre.length = .ok c := by
        simpa using load_append pre c (t ++ post)
      have hs : store (tpre ++ o :: told ++ tpost) pre.length c =
          .ok (tpre ++ some c :: (told ++ tpost)) := by
        rw [← hi]
        simpa using store_append tpre o (told ++ tpost) c
      have h := ih (pre ++ [c]) (tpre ++ [some c]) told (by simpa using hlen)
        (by simp [hi])
      simp only [List.length_cons, extract_token_copy, hl, hs, ok_bind]
      simpa using h

theorem extract_token_token (t : List Char) (d : Char) (rest : List Char)
    (hne : t ≠ []) (ht : ∀ c ∈ t, c ≠ ' ' ∧ c ≠ NUL) (hd : d = ' ' ∨ d = NUL) :
    extract_token (t ++ d :: rest) = .ok (some (cblock t)) := by
  have hpos : t.length ≠ 0 := by
    intro h
    exact hne (List.length_eq_zero.mp h)
  have hm : malloc (t.length + 1) = List.replicate t.length none ++ [none] := by
    simp [malloc, List.replicate_succ']
  have hs : store (malloc (t.length + 1)) t.length NUL =
      .ok (List.replicate t.length none ++ [some NUL]) := by
    rw [hm]
    simpa using store_append (List.replicate t.length none) none [] NUL
  have hc := extract_token_copy_eq t (d :: rest) [] [] (List.replicate t.length none)
    [some NUL] (by simp) rfl
  simp only [List.nil_append, List.length_nil] at hc
  simp only [extract_token, extract_token_scan_token t d rest 0 ht hd, ok_bind,
    Nat.zero_add, hpos, if_false, hs, hc, cblock]

theorem extract_token_empty (d : Char) (rest : List Char) (hd : d = ' ' ∨ d = NUL) :
    extract_token (d :: rest) = .ok none := by
  rcases hd with rfl | rfl <;> simp [extract_token, extract_token_scan]

/-! ## `parse_payload`: the command branch -/

theorem cstr_cblock_eq (s : List Char) (h : NUL ∉ s) : cstr (cblock s) = .ok s := by
  simpa [cblock] using cstr_cblock s [] h

theorem not_nul_of_token (t : List Char) (ht : ∀ c ∈ t, c ≠ ' ' ∧ c ≠ NUL) : NUL ∉ t :=
  fun h => (ht NUL h).2 rfl

theorem parse_login_args (pl : payload) (rest : List Char) :
    parse_payload pl ('/' :: 'l' :: 'o' :: 'g' :: 'i' :: 'n' :: ' ' :: rest) =
      (do
        let username ← assert_ptr (← extract_token rest)
        let n ← cstr username
        let password ← assert_ptr (← extract_token (rest.drop (n.length + 1)))
        .ok (true, ⟨some .command_login_vtable, .command_login username password⟩, [])) := by
  simp [parse_payload, load, command_name_loop, store, malloc, strcmp_eq, NUL]

theorem parse_join_args (pl : payload) (rest : List Char) :
    parse_payload pl ('/' :: 'j' :: 'o' :: 'i' :: 'n' :: ' ' :: rest) =
      (do
        let channel ← assert_ptr (← extract_token rest)
        .ok (true, ⟨some .command_join_vtable, .command_join channel⟩, [])) := by
  simp [parse_payload, load, command_name_loop, store, malloc, strcmp_eq, NUL]

theorem parse_logout_any (pl : payload) (c : Char) (rest : List Char) :
    parse_payload pl ('/' :: 'l' :: 'o' :: 'g' :: 'o' :: 'u' :: 't' :: c :: rest) =
      .ok (true, ⟨some .command_logout_vtable, .zeroed⟩, []) := by
  simp [parse_payload, load, command_name_loop, store, malloc, strcmp_eq, NUL]

theorem tail_delim (tail slack : List Char) (htail : tail = [] ∨ ∃ rest, tail = ' ' :: rest) :
    ∃ d rest, (d = ' ' ∨ d = NUL) ∧ tail ++ NUL :: slack = d :: rest := by
  rcases htail with rfl | ⟨rest, rfl⟩
  · exact ⟨NUL, slack, Or.inr rfl, rfl⟩
  · exact ⟨' ', rest ++ NUL :: slack, Or.inl rfl, rfl⟩

theorem parse_login_tokens (pl : payload) (u p : List Char) (d : Char) (rest : List Char)
    (hu : u ≠ []) (hp : p ≠ [])
    (hu' : ∀ c ∈ u, c ≠ ' ' ∧ c ≠ NUL) (hp' : ∀ c ∈ p, c ≠ ' ' ∧ c ≠ NUL)
    (hd : d = ' ' ∨ d = NUL) :
    parse_payload pl ("/login ".toList ++ u ++ ' ' :: p ++ d :: rest) =
      .ok (true, ⟨some .command_login_vtable,
        .command_login (cblock u) (cblock p)⟩, []) := by
  have hraw : "/login ".toList ++ u ++ ' ' :: p ++ d :: rest =
      '/' :: 'l' :: 'o' :: 'g' :: 'i' :: 'n' :: ' ' :: (u ++ ' ' :: (p ++ d :: rest)) := by
    simp
  have hdrop : (u ++ ' ' :: (p ++ d :: rest)).drop (u.length + 1) = p ++ d :: rest := by
    simp
  rw [hraw, parse_login_args,
    extract_token_token u ' ' (p ++ d :: rest) hu hu' (Or.inl rfl)]
  simp only [ok_bind, assert_ptr, cstr_cblock_eq u (not_nul_of_token u hu'), hdrop,
    extract_token_token p d rest hp hp' hd]

theorem parse_join_token (pl : payload) (c : List Char) (d : Char) (rest : List Char)
    (hc : c ≠ []) (hc' : ∀ x ∈ c, x ≠ ' ' ∧ x ≠ NUL) (hd : d = ' ' ∨ d = NUL) :
    parse_payload pl ("/join ".toList ++ c ++ d :: rest) =
      .ok (true, ⟨some .command_join_vtable, .command_join (cblock c)⟩, []) := by
  have hraw : "/join ".toList ++ c ++ d :: rest =
      '/' :: 'j' :: 'o' :: 'i' :: 'n' :: ' ' :: (c ++ d :: rest) := by
    simp
  rw [hraw, parse_join_args, extract_token_token c d rest hc hc' hd]
  simp only [ok_bind, assert_ptr]

/-! ## `message_constructor` -/

theorem name_end_scan_name (nm rest : List Char) (k : Nat) (hnm : ' ' ∉ nm) :
    name_end_scan (nm ++ ' ' :: rest) k = .ok (k + nm.length) := by
  induction nm generalizing k with
  | nil => simp [name_end_scan]
  | cons c nm ih =>
    have hc : c ≠ ' ' := fun e => hnm (by simp [e])
    have h := ih (k + 1) (fun e => hnm (by simp [e]))
    show name_end_scan (c :: (nm ++ ' ' :: rest)) k = _
    rw [name_end_scan, if_pos hc, h, List.length_cons]
    congr 1
    omega

theorem receiver_name_copy_eq (co : Nat) (nm rest : List Char)
    (tpre told tpost : Block) (hlen : told.length = nm.length) (hnm : ' ' ∉ nm) :
    receiver_name_copy co (nm ++ ' ' :: rest) (co + 1 + tpre.length)
        (tpre ++ told ++ tpost) = .ok (tpre ++ nm.map some ++ tpost) := by
  induction nm generalizing tpre told with
  | nil =>
    cases told with
    | nil => simp [receiver_name_copy]
    | cons o told => simp at hlen
  | cons c nm ih =>
    cases told with
    | nil => simp at hlen
    | cons o told =>
      have hc : c ≠ ' ' := fun e => hnm (by simp [e])
      have hidx : co + 1 + tpre.length - co - 1 = tpre.length := by omega
      have hs : store (tpre ++ o :: told ++ tpost) tpre.length c =
          .ok (tpre ++ some c :: (told ++ tpost)) := by
        simpa using store_append tpre o (told ++ tpost) c
      have h := ih (tpre ++ [some c]) told (by simpa using hlen)
        (fun e => hnm (by simp [e]))
      have hi : co + 1 + (tpre ++ [some c]).length = co + 1 + tpre.length + 1 := by
        simp
        omega
      rw [hi] at h
      show receiver_name_copy co (c :: (nm ++ ' ' :: rest)) _ _ = _
      rw [receiver_name_copy, if_pos hc, hidx, hs, ok_bind]
      simpa using h

theorem receiver_array_push (acc : List message_receiving_entity)
    (e : message_receiving_entity) :
    store_entity (if acc.length ≥ 1 then realloc (receiver_array acc) (acc.length + 1)
        else receiver_array acc) acc.length e = .ok (receiver_array (acc ++ [e])) := by
  cases acc with
  | nil => simp [receiver_array, store_entity]
  | cons a acc =>
    have h : realloc (a :: acc) ((a :: acc).length + 1) = (a :: acc) ++ [fresh_entity] := by
      simp [realloc, List.take_of_length_le]
    simp only [receiver_array, List.length_cons, ge_iff_le, Nat.le_add_left, if_true]
    rw [List.length_cons] at h
    rw [h]
    simp [store_entity]

theorem receiver_loop_step (pre nm rest : List Char) (c : Char)
    (hc : c = '@' ∨ c = '#') (hnm : ' ' ∉ nm)
    (acc : List message_receiving_entity) (fuel : Nat) :
    receiver_loop (pre ++ c :: nm ++ ' ' :: rest) (fuel + 1) (receiver_array acc)
        acc.length pre.length =
      receiver_loop (pre ++ c :: nm ++ ' ' :: rest) fuel
        (receiver_array (acc ++ [token_entity (c, nm)])) (acc.length + 1)
        (pre.length + (nm.length + 1) + 1) := by
  have hraw : pre ++ c :: nm ++ ' ' :: rest = pre ++ c :: (nm ++ ' ' :: rest) := by simp
  have hload : load (pre ++ c :: (nm ++ ' ' :: rest)) pre.length = .ok c :=
    load_append pre c _
  have hdrop : (pre ++ c :: (nm ++ ' ' :: rest)).drop pre.length =
      (c :: nm) ++ ' ' :: rest := by
    simp
  have hdrop1 : (pre ++ c :: (nm ++ ' ' :: rest)).drop (pre.length + 1) =
      nm ++ ' ' :: rest := by
    simp
  have hcs : ' ' ∉ c :: nm := by
    intro h
    rcases List.mem_cons.mp h with h | h
    · rcases hc with rfl | rfl <;> exact absurd h (by decide)
    · exact hnm h
  have hscan := name_end_scan_name (c :: nm) rest pre.length hcs
  have hsize : pre.length + (c :: nm).length - pre.length = nm.length + 1 := by
    simp
  have hcopy := receiver_name_copy_eq pre.length nm rest [] (List.replicate nm.length none)
    [none] (by simp) hnm
  have hm : malloc (nm.length + 1) = [] ++ List.replicate nm.length none ++ [none] := by
    simp [malloc, List.replicate_succ']
  have hstore : store (nm.map some ++ [none]) (nm.length + 1 - 1) NUL = .ok (cblock nm) := by
    have h := store_append (nm.map some) none [] NUL
    simpa [cblock] using h
  rw [hraw, receiver_loop, hload, ok_bind, if_pos hc, hdrop, hscan, ok_bind, hdrop1, hsize, hm]
  simp only [List.length_nil, Nat.add_zero] at hcopy
  dsimp only
  rw [hcopy, ok_bind]
  simp only [List.nil_append]
  rw [hstore, ok_bind, receiver_array_push acc, ok_bind]
  simp [token_entity]

theorem receiver_loop_tokens (toks : List (Char × List Char)) (pre : List Char)
    (d : Char) (rest : List Char) (acc : List message_receiving_entity) (fuel : Nat)
    (htok : ∀ t ∈ toks, (t.1 = '@' ∨ t.1 = '#') ∧ ' ' ∉ t.2)
    (hd : d ≠ '@' ∧ d ≠ '#') (hfuel : toks.length < fuel) :
    receiver_loop (pre ++ tokens_text toks ++ d :: rest) fuel (receiver_array acc)
        acc.length pre.length =
      .ok (receiver_array (acc ++ toks.map token_entity), acc.length + toks.length,
        pre.length + (tokens_text toks).length) := by
  induction toks generalizing pre acc fuel with
  | nil =>
    cases fuel with
    | zero => simp at hfuel
    | succ fuel =>
      have hl : load (pre ++ d :: rest) pre.length = .ok d := load_append pre d rest
      simp [tokens_text, receiver_loop, hl, hd]
  | cons t ts ih =>
    cases fuel with
    | zero => simp at hfuel
    | succ fuel =>
      obtain ⟨c, nm⟩ := t
      have ht := htok (c, nm) (by simp)
      have hraw : pre ++ tokens_text ((c, nm) :: ts) ++ d :: rest =
          pre ++ c :: nm ++ ' ' :: (tokens_text ts ++ d :: rest) := by
        simp [tokens_text]
      have hraw2 : pre ++ c :: nm ++ ' ' :: (tokens_text ts ++ d :: rest) =
          (pre ++ c :: nm ++ [' ']) ++ tokens_text ts ++ d :: rest := by
        simp
      have h := ih (pre ++ c :: nm ++ [' ']) (acc ++ [token_entity (c, nm)]) fuel
        (fun t h => htok t (by simp [h])) (by simpa using hfuel)
      have hlen : (pre ++ c :: nm ++ [' ']).length = pre.length + (nm.length + 1) + 1 := by
        simp
        omega
      rw [hlen] at h
      rw [hraw, receiver_loop_step pre nm _ c ht.1 ht.2 acc fuel, hraw2]
      simp only [List.length_append, List.length_singleton] at h
      rw [h]
      simp [tokens_text]
      omega

theorem strcpy_eq (s rest : List Char) (tpre told tpost : Block)
    (hlen : told.length = s.length + 1) (hs : NUL ∉ s) :
    strcpy (tpre ++ told ++ tpost) (s ++ NUL :: rest) tpre.length =
      .ok (tpre ++ cblock s ++ tpost) := by
  induction s generalizing tpre told with
  | nil =>
    match told, hlen with
    | [o], _ =>
      have h := store_append tpre o tpost NUL
      simp only [List.nil_append, strcpy, cblock, List.map_nil]
      simp only [List.append_assoc, List.singleton_append, h, ok_bind, if_true]
  | cons c s ih =>
    cases told with
    | nil => simp at hlen
    | cons o told =>
      have hc : c ≠ NUL := fun e => hs (by simp [e])
      have hst : store (tpre ++ o :: told ++ tpost) tpre.length c =
          .ok (tpre ++ some c :: (told ++ tpost)) := by
        simpa using store_append tpre o (told ++ tpost) c
      have h := ih (tpre ++ [some c]) told (by simpa using hlen)
        (fun e => hs (by simp [e]))
      show strcpy _ (c :: (s ++ NUL :: rest)) _ = _
      rw [strcpy, hst, ok_bind, if_neg hc]
      simpa [cblock] using h

theorem strcpy_fresh (s rest : List Char) (hs : NUL ∉ s) :
    strcpy (malloc (s.length + 1)) (s ++ NUL :: rest) 0 = .ok (cblock s) := by
  have h := strcpy_eq s rest [] (malloc (s.length + 1)) [] (by simp [malloc]) hs
  simpa using h

theorem length_le_tokens_text (toks : List (Char × List Char)) :
    toks.length ≤ (tokens_text toks).length := by
  induction toks with
  | nil => simp [tokens_text]
  | cons t ts ih =>
    simp [tokens_text]
    omega

theorem content_head (content slack : List Char)
    (hc : content.head? ≠ some '@' ∧ content.head? ≠ some '#') :
    ∃ d rest, (d ≠ '@' ∧ d ≠ '#') ∧ content ++ NUL :: slack = d :: rest := by
  cases content with
  | nil => exact ⟨NUL, slack, by decide, rfl⟩
  | cons c content =>
    refine ⟨c, content ++ NUL :: slack, ⟨?_, ?_⟩, rfl⟩
    · exact fun e => hc.1 (by simp [e])
    · exact fun e => hc.2 (by simp [e])

theorem message_constructor_tokens (p : payload) (toks : List (Char × List Char))
    (content slack : List Char) (hne : toks ≠ [])
    (htok : ∀ t ∈ toks, (t.1 = '@' ∨ t.1 = '#') ∧ ' ' ∉ t.2)
    (hc : content.head? ≠ some '@' ∧ content.head? ≠ some '#')
    (hnul : NUL ∉ tokens_text toks ++ content) :
    message_constructor p (cline (tokens_text toks ++ content) slack) =
      .ok ⟨some .message_vtable,
        .message (toks.map token_entity) (cblock content) toks.length⟩ := by
  obtain ⟨d, rest, hd, hrest⟩ := content_head content slack hc
  have hraw : cline (tokens_text toks ++ content) slack =
      tokens_text toks ++ d :: rest := by
    simp [cline, hrest]
  have hloop := receiver_loop_tokens toks [] d rest []
    ((tokens_text toks ++ d :: rest).length + 1) htok hd (by
      have := length_le_tokens_text toks
      simp
      omega)
  simp only [List.nil_append, List.length_nil, Nat.zero_add] at hloop
  have hpos : (tokens_text toks).length ≠ 0 := by
    have := length_le_tokens_text toks
    have : toks.length ≠ 0 := fun h => hne (List.length_eq_zero.mp h)
    omega
  have hstrlen : strlen (cline (tokens_text toks ++ content) slack) =
      .ok (tokens_text toks ++ content).length :=
    strlen_cline (tokens_text toks ++ content) slack hnul
  have hdrop : (cline (tokens_text toks ++ content) slack).drop (tokens_text toks).length =
      content ++ NUL :: slack := by
    simp [cline]
  have hcontent : NUL ∉ content := fun h => hnul (by simp [h])
  have harr : receiver_array (toks.map token_entity) = toks.map token_entity := by
    cases toks with
    | nil => exact absurd rfl hne
    | cons t ts => rfl
  rw [show receiver_array ([] : List message_receiving_entity) = [fresh_entity] from rfl,
    harr] at hloop
  unfold message_constructor
  dsimp only
  rw [hraw, hloop, ← hraw]
  simp only [ok_bind, hpos, if_false, hstrlen, List.length_append, Nat.le_add_right,
    if_true, hdrop, Nat.add_sub_cancel_left, strcpy_fresh content slack hcontent]

theorem message_constructor_global (p : payload) (line slack : List Char)
    (hc : line.head? ≠ some '@' ∧ line.head? ≠ some '#') (hnul : NUL ∉ line) :
    message_constructor p (cline line slack) =
      .ok ⟨some .message_vtable, .message [global_entity] (cblock line) 1⟩ := by
  obtain ⟨d, rest, hd, hrest⟩ := content_head line slack hc
  have hraw : cline line slack = d :: rest := by
    simp [cline, hrest]
  have hloop := receiver_loop_tokens [] [] d rest [] ((d :: rest).length + 1) (by simp) hd
    (by simp)
  simp only [List.nil_append, List.length_nil, Nat.zero_add, tokens_text, List.map_nil] at hloop
  rw [show receiver_array ([] : List message_receiving_entity) = [fresh_entity] from rfl]
    at hloop
  have hstrlen : strlen (cline line slack) = .ok line.length := strlen_cline line slack hnul
  unfold message_constructor
  dsimp only
  rw [hraw, hloop, ← hraw]
  simp only [ok_bind, if_true, set_global, fresh_entity, hstrlen, Nat.zero_le, List.drop_zero,
    Nat.sub_zero]
  rw [cline, strcpy_fresh line slack hnul]
  rfl

theorem parse_payload_message (p : payload) (c : Char) (rest : List Char) (hc : c ≠ '/') :
    parse_payload p (c :: rest) = (do
      let q ← message_constructor p (c :: rest)
      .ok (true, q, [])) := by
  simp [parse_payload, load, hc]

/-! ## `process_message` -/

theorem call_transmit_held (r : Receiver) (e : message_receiving_entity) (c : List Char)
    (h : r.held_by e) (hc : NUL ∉ c) :
    call_transmit e (cblock c) = .ok [r.line c] := by
  cases r with
  | Direct username =>
    obtain ⟨hv, hn, hi⟩ := h
    simp [call_transmit, hv, message_receiving_entity_vtable.transmit_message,
      transmit_direct_message, hi, string_arg, cstr_cblock_eq, hn, hc, Receiver.line]
  | Group channel =>
    obtain ⟨hv, hn, hi⟩ := h
    simp [call_transmit, hv, message_receiving_entity_vtable.transmit_message,
      transmit_group_message, hi, string_arg, cstr_cblock_eq, hn, hc, Receiver.line]
  | Global =>
    have hv : e.vtable = some .global_message_vtable := h
    simp [call_transmit, hv, message_receiving_entity_vtable.transmit_message,
      transmit_global_message, cstr_cblock_eq, hc, Receiver.line]

theorem process_message_loop_held (rs : List Receiver) (es pre : List message_receiving_entity)
    (c : List Char) (h : List.Forall₂ Receiver.held_by rs es) (hc : NUL ∉ c) :
    process_message_loop (pre ++ es) (cblock c) es.length pre.length =
      .ok (rs.map (Receiver.line c)) := by
  induction h generalizing pre with
  | nil => simp [process_message_loop]
  | @cons r e rs es hre _ ih =>
    have hget : (pre ++ e :: es)[pre.length]? = some e := by
      rw [List.getElem?_append_right (le_refl _)]
      simp
    have h := ih (pre ++ [e])
    simp only [List.append_assoc, List.singleton_append, List.length_append,
      List.length_singleton] at h
    simp only [List.length_cons, process_message_loop, hget,
      call_transmit_held r e c hre hc, ok_bind, h, List.map_cons, List.singleton_append]

/-! ## `parse_payload`: whole lines -/

theorem parse_payload_tokens (p : payload) (toks : List (Char × List Char))
    (content slack : List Char) (hne : toks ≠ [])
    (htok : ∀ t ∈ toks, (t.1 = '@' ∨ t.1 = '#') ∧ ' ' ∉ t.2)
    (hc : content.head? ≠ some '@' ∧ content.head? ≠ some '#')
    (hnul : NUL ∉ tokens_text toks ++ content) :
    parse_payload p (cline (tokens_text toks ++ content) slack) =
      .ok (true, ⟨some .message_vtable,
        .message (toks.map token_entity) (cblock content) toks.length⟩, []) := by
  have hm := message_constructor_tokens p toks content slack hne htok hc hnul
  cases toks with
  | nil => exact absurd rfl hne
  | cons t ts =>
    have ht : t.1 ≠ '/' := by
      rcases (htok t (by simp)).1 with h | h <;> rw [h] <;> decide
    have hraw : cline (tokens_text (t :: ts) ++ content) slack =
        t.1 :: (t.2 ++ ' ' :: tokens_text ts ++ content ++ NUL :: slack) := by
      simp [cline, tokens_text]
    rw [hraw] at hm ⊢
    rw [parse_payload_message p _ _ ht, hm]
    rfl

theorem parse_payload_global (p : payload) (line slack : List Char)
    (h : line.head? ≠ some '/' ∧ line.head? ≠ some '@' ∧ line.head? ≠ some '#')
    (hnul : NUL ∉ line) :
    parse_payload p (cline line slack) =
      .ok (true, ⟨some .message_vtable, .message [global_entity] (cblock line) 1⟩, []) := by
  have hm := message_constructor_global p line slack h.2 hnul
  cases line with
  | nil =>
    have hraw : cline [] slack = NUL :: slack := rfl
    rw [hraw] at hm ⊢
    rw [parse_payload_message p _ _ (by decide), hm]
    rfl
  | cons c line =>
    have hc : c ≠ '/' := fun e => h.1 (by simp [e])
    have hraw : cline (c :: line) slack = c :: (line ++ NUL :: slack) := rfl
    rw [hraw] at hm ⊢
    rw [parse_payload_message p _ _ hc, hm]
    rfl

theorem parse_logout_extended (p : payload) (ext slack : List Char) :
    parse_payload p (cline ("/logout".toList ++ ext) slack) =
      .ok (true, ⟨some .command_logout_vtable, .zeroed⟩, []) := by
  cases ext with
  | nil => exact parse_logout_any p NUL slack
  | cons c ext => exact parse_logout_any p c (ext ++ NUL :: slack)

@[simp] theorem abort_bind {α β : Type} (f : α → Outcome β) :
    ((Outcome.abort : Outcome α) >>= f) = .abort := rfl

theorem parse_login_no_username (pl : payload) (slack : List Char) :
    parse_payload pl (cline "/login ".toList slack) = .abort := by
  have hraw : cline "/login ".toList slack =
      '/' :: 'l' :: 'o' :: 'g' :: 'i' :: 'n' :: ' ' :: (NUL :: slack) := rfl
  rw [hraw, parse_login_args, extract_token_empty NUL slack (Or.inr rfl)]
  rfl

theorem parse_login_no_password (pl : payload) (u slack : List Char)
    (hu : u ≠ []) (hu' : ∀ c ∈ u, c ≠ ' ' ∧ c ≠ NUL) :
    parse_payload pl (cline ("/login ".toList ++ u ++ " ".toList) slack) = .abort := by
  have hraw : cline ("/login ".toList ++ u ++ " ".toList) slack =
      '/' :: 'l' :: 'o' :: 'g' :: 'i' :: 'n' :: ' ' :: (u ++ ' ' :: (NUL :: slack)) := by
    simp [cline]
  have hdrop : (u ++ ' ' :: (NUL :: slack)).drop (u.length + 1) = NUL :: slack := by
    simp
  rw [hraw, parse_login_args, extract_token_token u ' ' (NUL :: slack) hu hu' (Or.inl rfl)]
  simp only [ok_bind, assert_ptr, cstr_cblock_eq u (not_nul_of_token u hu'), hdrop,
    extract_token_empty NUL slack (Or.inr rfl), abort_bind]

theorem parse_join_no_channel (pl : payload) (slack : List Char) :
    parse_payload pl (cline "/join ".toList slack) = .abort := by
  have hraw : cline "/join ".toList slack =
      '/' :: 'j' :: 'o' :: 'i' :: 'n' :: ' ' :: (NUL :: slack) := rfl
  rw [hraw, parse_join_args, extract_token_empty NUL slack (Or.inr rfl)]
  rfl

/-! ## `parse_payload`: command names in general -/

theorem strcmp_eq_cstring (lit s : List Char) (rest : Block)
    (hl : NUL ∉ lit) (hs : NUL ∉ s) :
    strcmp_eq lit (s.map some ++ some NUL :: rest) = .ok (decide (lit = s)) := by
  induction lit generalizing s with
  | nil =>
    cases s with
    | nil => simp [strcmp_eq]
    | cons c s =>
      have hc : c ≠ NUL := fun e => hs (by simp [e])
      simp [strcmp_eq, hc]
  | cons a lit ih =>
    have ha : a ≠ NUL := fun e => hl (by simp [e])
    cases s with
    | nil => simp [strcmp_eq, ha]
    | cons c s =>
      have h := ih s (fun e => hl (by simp [e])) (fun e => hs (by simp [e]))
      by_cases hac : a = c
      · simp [strcmp_eq, hac, h]
      · simp [strcmp_eq, hac]

theorem command_name_of_line (name tail slack : List Char)
    (hname : ∀ c ∈ name, c ≠ ' ' ∧ c ≠ NUL)
    (htail : tail = [] ∨ ∃ rest, tail = ' ' :: rest)
    (hbound : 5 ≤ name.length ∨ tail ≠ []) :
    ∃ rest, (command_name_loop (cline ('/' :: name ++ tail) slack) 6 0 (malloc 7) >>=
        fun r => store r.2 r.1 NUL) = .ok ((name.take 6).map some ++ some NUL :: rest) := by
  have hsp : NUL ≠ ' ' := by decide
  match name, hname, hbound with
  | [], _, hb =>
    rcases htail with rfl | ⟨rest, rfl⟩
    · simp at hb
    · exact ⟨List.replicate 6 none, by
        simp [cline, command_name_loop, load, store, malloc]⟩
  | [a], hn, hb =>
    have ha := (hn a (by simp)).1
    rcases htail with rfl | ⟨rest, rfl⟩
    · simp at hb
    · exact ⟨List.replicate 5 none, by
        simp [cline, command_name_loop, load, store, malloc, ha]⟩
  | [a, b], hn, hb =>
    have ha := (hn a (by simp)).1
    have hb' := (hn b (by simp)).1
    rcases htail with rfl | ⟨rest, rfl⟩
    · simp at hb
    · exact ⟨List.replicate 4 none, by
        simp [cline, command_name_loop, load, store, malloc, ha, hb']⟩
  | [a, b, c], hn, hb =>
    have ha := (hn a (by simp)).1
    have hb' := (hn b (by simp)).1
    have hc := (hn c (by simp)).1
    rcases htail with rfl | ⟨rest, rfl⟩
    · simp at hb
    · exact ⟨List.replicate 3 none, by
        simp [cline, command_name_loop, load, store, malloc, ha, hb', hc]⟩
  | [a, b, c, d], hn, hb =>
    have ha := (hn a (by simp)).1
    have hb' := (hn b (by simp)).1
    have hc := (hn c (by simp)).1
    have hd := (hn d (by simp)).1
    rcases htail with rfl | ⟨rest, rfl⟩
    · simp at hb
    · exact ⟨List.replicate 2 none, by
        simp [cline, command_name_loop, load, store, malloc, ha, hb', hc, hd]⟩
  | [a, b, c, d, e], hn, _ =>
    have ha := (hn a (by simp)).1
    have hb' := (hn b (by simp)).1
    have hc := (hn c (by simp)).1
    have hd := (hn d (by simp)).1
    have he := (hn e (by simp)).1
    rcases htail with rfl | ⟨rest, rfl⟩
    · exact ⟨[some NUL], by
        simp [cline, command_name_loop, load, store, malloc, ha, hb', hc, hd, he, hsp]⟩
    · exact ⟨[none], by
        simp [cline, command_name_loop, load, store, malloc, ha, hb', hc, hd, he]⟩
  | a :: b :: c :: d :: e :: f :: more, hn, _ =>
    have ha := (hn a (by simp)).1
    have hb' := (hn b (by simp)).1
    have hc := (hn c (by simp)).1
    have hd := (hn d (by simp)).1
    have he := (hn e (by simp)).1
    have hf := (hn f (by simp)).1
    exact ⟨[], by
      simp [cline, command_name_loop, load, store, malloc, ha, hb', hc, hd, he, hf]⟩

theorem parse_payload_unknown_name (p : payload) (name tail slack : List Char)
    (hname : ∀ c ∈ name, c ≠ ' ' ∧ c ≠ NUL)
    (htail : tail = [] ∨ ∃ rest, tail = ' ' :: rest)
    (hbound : 5 ≤ name.length ∨ tail ≠ [])
    (hunk : name.take 6 ≠ "login".toList ∧ name.take 6 ≠ "join".toList ∧
      name.take 6 ≠ "logout".toList) :
    parse_payload p (cline ('/' :: name ++ tail) slack) =
      .ok (false, p,
        ["Ignoring invalid command ".toList ++ name.take 6 ++ "\n".toList]) := by
  obtain ⟨rest, hcmd⟩ := command_name_of_line name tail slack hname htail hbound
  have hs : NUL ∉ name.take 6 := fun h => (hname NUL (List.mem_of_mem_take h)).2 rfl
  have h0 : load (cline ('/' :: name ++ tail) slack) 0 = .ok '/' := by
    simp [cline, load]
  have h1 := strcmp_eq_cstring "login".toList (name.take 6) rest (by decide) hs
  have h2 := strcmp_eq_cstring "join".toList (name.take 6) rest (by decide) hs
  have h3 := strcmp_eq_cstring "logout".toList (name.take 6) rest (by decide) hs
  have hc := cstr_cblock (name.take 6) rest hs
  rw [decide_eq_false (Ne.symm hunk.1)] at h1
  rw [decide_eq_false (Ne.symm hunk.2.1)] at h2
  rw [decide_eq_false (Ne.symm hunk.2.2)] at h3
  unfold parse_payload
  rw [h0]
  cases hloop : command_name_loop (cline ('/' :: name ++ tail) slack) 6 0 (malloc 7) with
  | ok r =>
    obtain ⟨i, cmd⟩ := r
    rw [hloop] at hcmd
    have hst : store cmd i NUL = .ok ((name.take 6).map some ++ some NUL :: rest) := hcmd
    simp only [ok_bind, if_true, hst, h1, h2, h3, hc]
    rfl
  | abort => rw [hloop] at hcmd; exact absurd hcmd (by intro h; cases h)
  | undefined => rw [hloop] at hcmd; exact absurd hcmd (by intro h; cases h)
  | fuel_out => rw [hloop] at hcmd; exact absurd hcmd (by intro h; cases h)

theorem parse_payload_unknown_name_Login :
    parse_payload fresh_payload (cline "/Login a b".toList []) =
      .ok (false, fresh_payload, ["Ignoring invalid command Login\n".toList]) :=
  parse_payload_unknown_name fresh_payload "Login".toList " a b".toList []
    (by decide) (Or.inr ⟨_, rfl⟩) (by decide) (by decide)

theorem parse_payload_reads_past_terminator :
    parse_payload fresh_payload (cline "/login".toList []) = .undefined ∧
    parse_payload fresh_payload (cline "/login metw".toList []) = .undefined ∧
    parse_payload fresh_payload (cline "/join".toList []) = .undefined ∧
    parse_payload fresh_payload (cline "/quit".toList []) = .undefined :=
  ⟨by decide, by decide, by decide, by decide⟩

/-! ## The claims -/

/-- Claim C1 (receiver ordering).  A line made of `n ≥ 1` receiver tokens, each
`@` or `#` followed by a name without space and then one space, followed by a
content that does not begin with `@` or `#`, is parsed with result `true` into a
message whose `receiver_count` is `n`, whose receivers are, in the order of the
line, Direct for `@` and Group for `#` with the name as `additional_info`, and
whose content is the text after the space of the last token. -/
theorem parse_payload_receiver_ordering (p : payload) (toks : List (Char × List Char))
    (content slack : List Char) (hne : toks ≠ [])
    (htok : ∀ t ∈ toks, (t.1 = '@' ∨ t.1 = '#') ∧ ' ' ∉ t.2)
    (hc : content.head? ≠ some '@' ∧ content.head? ≠ some '#')
    (hnul : NUL ∉ tokens_text toks ++ content) :
    parse_payload p (cline (tokens_text toks ++ content) slack) =
      .ok (true, ⟨some .message_vtable,
        .message (toks.map token_entity) (cblock content) toks.length⟩, []) :=
  parse_payload_tokens p toks content slack hne htok hc hnul

theorem parse_payload_receiver_ordering_witness :
    parse_payload fresh_payload (cline "@alice #general Hello everyone!".toList []) =
      .ok (true, ⟨some .message_vtable,
        .message [⟨some .direct_message_vtable, some (cblock "alice".toList)⟩,
                  ⟨some .group_message_vtable, some (cblock "general".toList)⟩]
          (cblock "Hello everyone!".toList) 2⟩, []) :=
  parse_payload_receiver_ordering fresh_payload
    [('@', "alice".toList), ('#', "general".toList)] "Hello everyone!".toList []
    (by decide) (by decide) (by decide) (by decide)

/-- Claim C2 (global fallback).  A line whose first character is none of `/`,
`@`, `#` is parsed with result `true` into a message with exactly one receiver,
of the Global kind, whose content is the whole line. -/
theorem parse_payload_global_fallback (p : payload) (line slack : List Char)
    (h : line.head? ≠ some '/' ∧ line.head? ≠ some '@' ∧ line.head? ≠ some '#')
    (hnul : NUL ∉ line) :
    parse_payload p (cline line slack) =
      .ok (true, ⟨some .message_vtable, .message [global_entity] (cblock line) 1⟩, []) :=
  parse_payload_global p line slack h hnul

theorem parse_payload_global_fallback_witness :
    parse_payload fresh_payload (cline "hi @bob and #general".toList []) =
      .ok (true, ⟨some .message_vtable,
        .message [⟨some .global_message_vtable, none⟩]
          (cblock "hi @bob and #general".toList) 1⟩, []) :=
  parse_payload_global_fallback fresh_payload "hi @bob and #general".toList []
    (by decide) (by decide)

/-- Claim C3 (login parsing).  For non-empty `u` and `p` without space, the line
`/login u p`, alone or followed by a space and further text, is parsed with
result `true` into a login payload with username `u` and password `p`. -/
theorem parse_payload_login (pl : payload) (u p tail slack : List Char)
    (hu : u ≠ []) (hp : p ≠ [])
    (hu' : ∀ c ∈ u, c ≠ ' ' ∧ c ≠ NUL) (hp' : ∀ c ∈ p, c ≠ ' ' ∧ c ≠ NUL)
    (htail : tail = [] ∨ ∃ rest, tail = ' ' :: rest) :
    parse_payload pl (cline ("/login ".toList ++ u ++ " ".toList ++ p ++ tail) slack) =
      .ok (true, ⟨some .command_login_vtable,
        .command_login (cblock u) (cblock p)⟩, []) := by
  obtain ⟨d, rest, hd, hrest⟩ := tail_delim tail slack htail
  have hraw : cline ("/login ".toList ++ u ++ " ".toList ++ p ++ tail) slack =
      "/login ".toList ++ u ++ ' ' :: p ++ d :: rest := by
    simp [cline, hrest]
  rw [hraw]
  exact parse_login_tokens pl u p d rest hu hp hu' hp' hd

theorem parse_payload_login_witness :
    parse_payload fresh_payload (cline "/login metw password123".toList []) =
      .ok (true, ⟨some .command_login_vtable,
        .command_login (cblock "metw".toList) (cblock "password123".toList)⟩, []) :=
  parse_payload_login fresh_payload "metw".toList "password123".toList [] []
    (by decide) (by decide) (by decide) (by decide) (Or.inl rfl)

/-- Claim C4 (join parsing).  For non-empty `c` without space, the line
`/join c`, alone or followed by a space and further text, is parsed with result
`true` into a join payload with channel `c`. -/
theorem parse_payload_join (pl : payload) (c tail slack : List Char)
    (hc : c ≠ []) (hc' : ∀ x ∈ c, x ≠ ' ' ∧ x ≠ NUL)
    (htail : tail = [] ∨ ∃ rest, tail = ' ' :: rest) :
    parse_payload pl (cline ("/join ".toList ++ c ++ tail) slack) =
      .ok (true, ⟨some .command_join_vtable, .command_join (cblock c)⟩, []) := by
  obtain ⟨d, rest, hd, hrest⟩ := tail_delim tail slack htail
  have hraw : cline ("/join ".toList ++ c ++ tail) slack =
      "/join ".toList ++ c ++ d :: rest := by
    simp [cline, hrest]
  rw [hraw]
  exact parse_join_token pl c d rest hc hc' hd

theorem parse_payload_join_witness :
    parse_payload fresh_payload (cline "/join channel123 now".toList []) =
      .ok (true, ⟨some .command_join_vtable,
        .command_join (cblock "channel123".toList)⟩, []) :=
  parse_payload_join fresh_payload "channel123".toList " now".toList []
    (by decide) (by decide) (Or.inr ⟨"now".toList, rfl⟩)

/-- Claim C5 (logout parsing).  The line `/logout`, alone or followed by a
space and any text, is parsed with result `true` into the logout payload, which
has no field; the text after the name does not change the result. -/
theorem parse_payload_logout (pl : payload) (tail slack : List Char)
    (htail : tail = [] ∨ ∃ rest, tail = ' ' :: rest) :
    parse_payload pl (cline ("/logout".toList ++ tail) slack) =
      .ok (true, ⟨some .command_logout_vtable, .zeroed⟩, []) := by
  rcases htail with rfl | ⟨rest, rfl⟩
  · exact parse_logout_extended pl [] slack
  · exact parse_logout_extended pl (' ' :: rest) slack

theorem parse_payload_logout_witness :
    parse_payload fresh_payload (cline "/logout right now".toList []) =
      .ok (true, ⟨some .command_logout_vtable, .zeroed⟩, []) :=
  parse_payload_logout fresh_payload " right now".toList []
    (Or.inr ⟨"right now".toList, rfl⟩)

/-- Claim C6 (unknown command), at the line `/logoutx`: the command name
`logoutx` is none of `login`, `join`, `logout`, yet the call returns `true` and
overwrites the payload held in `*p` (here a join payload) with a logout
payload; nothing is printed. -/
theorem logoutx_overwrites_payload :
    parse_payload ⟨some .command_join_vtable, .command_join (cblock "general".toList)⟩
        (cline "/logoutx".toList []) =
      .ok (true, ⟨some .command_logout_vtable, .zeroed⟩, []) :=
  parse_logout_extended _ "x".toList []

/-- Claim C7 (nested dispatch order).  For a message payload with content `c`
whose array holds the receivers `r0 .. r(n-1)` and whose `receiver_count` is
`n`, `process_message` performs exactly `n` prints, the `i`-th being the line of
receiver `r(i)` for `c`: `Direct message to <name>: <c>`, `Group message to
<name>: <c>` or `Global message: <c>`, in the order of the array. -/
theorem process_message_nested_dispatch (vt : Option payload_vtable) (c : List Char)
    (rs : List Receiver) (es : List message_receiving_entity)
    (hc : NUL ∉ c) (h : List.Forall₂ Receiver.held_by rs es) :
    process_message ⟨vt, .message es (cblock c) es.length⟩ =
      .ok (rs.map (Receiver.line c)) := by
  have hl := process_message_loop_held rs es [] c h hc
  simpa [process_message] using hl

theorem process_message_nested_dispatch_witness :
    process_message ⟨some .message_vtable,
        .message [⟨some .direct_message_vtable, some (cblock "alice".toList)⟩,
                  ⟨some .global_message_vtable, none⟩,
                  ⟨some .group_message_vtable, some (cblock "general".toList)⟩]
          (cblock "Hello everyone!".toList) 3⟩ =
      .ok ["Direct message to alice: Hello everyone!\n".toList,
           "Global message: Hello everyone!\n".toList,
           "Group message to general: Hello everyone!\n".toList] :=
  process_message_nested_dispatch (some .message_vtable) "Hello everyone!".toList
    [.Direct "alice".toList, .Global, .Group "general".toList]
    [⟨some .direct_message_vtable, some (cblock "alice".toList)⟩,
     ⟨some .global_message_vtable, none⟩,
     ⟨some .group_message_vtable, some (cblock "general".toList)⟩]
    (by decide)
    (.cons ⟨rfl, by decide, rfl⟩ (.cons rfl (.cons ⟨rfl, by decide, rfl⟩ .nil)))

/-- Claim C8 fails at the line `/login ` (no username): the call does not
return to its caller, the assertion on the username aborts the program. -/
theorem parse_payload_missing_username_aborts :
    parse_payload fresh_payload (cline "/login ".toList []) = .abort := by
  decide

/-- Claim C8 as amended.  For the login lines `/login ` and `/login u ` (with
`u` a non-empty name without space) and for the join line `/join `, whose last
character is the space before the missing token, the assertion on the missing
token fails: the program aborts, no payload is produced and nothing is returned
to the caller. -/
theorem parse_payload_missing_argument_aborts (pl : payload) (u slack : List Char)
    (hu : u ≠ []) (hu' : ∀ c ∈ u, c ≠ ' ' ∧ c ≠ NUL) :
    parse_payload pl (cline "/login ".toList slack) = .abort ∧
    parse_payload pl (cline ("/login ".toList ++ u ++ " ".toList) slack) = .abort ∧
    parse_payload pl (cline "/join ".toList slack) = .abort :=
  ⟨parse_login_no_username pl slack, parse_login_no_password pl u slack hu hu',
    parse_join_no_channel pl slack⟩

theorem parse_payload_missing_argument_aborts_witness :
    parse_payload fresh_payload (cline "/login ".toList []) = .abort ∧
    parse_payload fresh_payload (cline "/login metw ".toList []) = .abort ∧
    parse_payload fresh_payload (cline "/join ".toList []) = .abort :=
  parse_payload_missing_argument_aborts fresh_payload "metw".toList []
    (by decide) (by decide)

/-- Claim C9 fails at the empty line: the call returns `true` and produces a
message with empty content addressed to Global. -/
theorem parse_payload_empty_line_accepted :
    parse_payload fresh_payload (cline [] []) =
      .ok (true, ⟨some .message_vtable,
        .message [⟨some .global_message_vtable, none⟩] [some NUL] 1⟩, []) := by
  decide

/-- Claim C9 as amended.  The empty line and every line made only of spaces is
accepted: the call returns `true` and produces a message with one receiver, of
the Global kind, whose content is the line itself.  There is no empty-payload
error. -/
theorem parse_payload_blank_line (p : payload) (n : Nat) (slack : List Char) :
    parse_payload p (cline (List.replicate n ' ') slack) =
      .ok (true, ⟨some .message_vtable,
        .message [global_entity] (cblock (List.replicate n ' ')) 1⟩, []) := by
  have hmem : ∀ c : Char, c ≠ ' ' → c ∉ List.replicate n ' ' := by
    intro c hc hm
    exact hc (List.eq_of_mem_replicate hm)
  have hhead : ∀ c : Char, c ≠ ' ' → (List.replicate n ' ').head? ≠ some c := by
    intro c hc h
    exact hmem c hc (List.mem_of_mem_head? h)
  exact parse_payload_global p _ slack
    ⟨hhead '/' (by decide), hhead '@' (by decide), hhead '#' (by decide)⟩
    (hmem NUL (by decide))

/-- Claim C10 (six-character cap), at the lines `/logoutx` and `/logout123 now`
named by the claim: both command names are longer than six characters, yet both
calls return `true` and produce a logout payload, as the scan keeps the first
six characters `logout`. -/
theorem parse_payload_long_logout_accepted :
    parse_payload fresh_payload (cline "/logoutx".toList []) =
      .ok (true, ⟨some .command_logout_vtable, .zeroed⟩, []) ∧
    parse_payload fresh_payload (cline "/logout123 now".toList []) =
      .ok (true, ⟨some .command_logout_vtable, .zeroed⟩, []) :=
  ⟨parse_logout_extended _ "x".toList [], parse_logout_extended _ "123 now".toList []⟩

/-! ## Report format of the vtable version -/

/-- Claim C12 (login report format), at the login payload of the line
`/login metw password123`: `process_command_login` prints `password` followed
by a space, without the colon of the normative format. -/
theorem process_command_login_without_colon :
    process_command_login ⟨some .command_login_vtable,
        .command_login (cblock "metw".toList) (cblock "password123".toList)⟩ =
      .ok ["Command: login\n  Arguments: [username: metw, password password123]\n".toList] ∧
    process_command_login ⟨some .command_login_vtable,
        .command_login (cblock "metw".toList) (cblock "password123".toList)⟩ ≠
      .ok ["Command: login\n  Arguments: [username: metw, password: password123]\n".toList] :=
  ⟨by decide, by decide⟩

/-! ## Runs of spaces -/

theorem parse_login_empty_username (pl : payload) (rest : List Char) :
    parse_payload pl ("/login ".toList ++ ' ' :: rest) = .abort := by
  have hraw : "/login ".toList ++ ' ' :: rest =
      '/' :: 'l' :: 'o' :: 'g' :: 'i' :: 'n' :: ' ' :: (' ' :: rest) := rfl
  rw [hraw, parse_login_args, extract_token_empty ' ' rest (Or.inl rfl)]
  rfl

theorem parse_login_empty_password (pl : payload) (u rest : List Char)
    (hu : u ≠ []) (hu' : ∀ c ∈ u, c ≠ ' ' ∧ c ≠ NUL) :
    parse_payload pl ("/login ".toList ++ u ++ ' ' :: ' ' :: rest) = .abort := by
  have hraw : "/login ".toList ++ u ++ ' ' :: ' ' :: rest =
      '/' :: 'l' :: 'o' :: 'g' :: 'i' :: 'n' :: ' ' :: (u ++ ' ' :: (' ' :: rest)) := by
    simp
  have hdrop : (u ++ ' ' :: (' ' :: rest)).drop (u.length + 1) = ' ' :: rest := by
    simp
  rw [hraw, parse_login_args, extract_token_token u ' ' (' ' :: rest) hu hu' (Or.inl rfl)]
  simp only [ok_bind, assert_ptr, cstr_cblock_eq u (not_nul_of_token u hu'), hdrop,
    extract_token_empty ' ' rest (Or.inl rfl), abort_bind]

theorem parse_join_empty_channel (pl : payload) (rest : List Char) :
    parse_payload pl ("/join ".toList ++ ' ' :: rest) = .abort := by
  have hraw : "/join ".toList ++ ' ' :: rest =
      '/' :: 'j' :: 'o' :: 'i' :: 'n' :: ' ' :: (' ' :: rest) := rfl
  rw [hraw, parse_join_args, extract_token_empty ' ' rest (Or.inl rfl)]
  rfl

/-- Claim C18 fails at the line `@alice  hi` of the claim: with the doubled
space the content is ` hi`, beginning with the extra space, while `@alice hi`
has the content `hi`; and at `/login  u p` the call aborts, while `/login u p`
is parsed into a login payload. -/
theorem parse_payload_double_space_differs :
    parse_payload fresh_payload (cline "@alice  hi".toList []) =
      .ok (true, ⟨some .message_vtable,
        .message [⟨some .direct_message_vtable, some (cblock "alice".toList)⟩]
          (cblock " hi".toList) 1⟩, []) ∧
    parse_payload fresh_payload (cline "@alice hi".toList []) =
      .ok (true, ⟨some .message_vtable,
        .message [⟨some .direct_message_vtable, some (cblock "alice".toList)⟩]
          (cblock "hi".toList) 1⟩, []) ∧
    parse_payload fresh_payload (cline "/login  u p".toList []) = .abort ∧
    parse_payload fresh_payload (cline "/login u p".toList []) =
      .ok (true, ⟨some .command_login_vtable,
        .command_login (cblock "u".toList) (cblock "p".toList)⟩, []) :=
  ⟨by decide, by decide, by decide, by decide⟩

/-- Claim C18 as amended.  Runs of spaces are not collapsed.  An extra space
after a receiver token ends the receiver scan: the message has the receivers
before it, and its content is all the text after the single space of the last
of them, beginning with the extra space.  An extra space before a command
argument (the username or the password of `/login`, the channel of `/join`)
makes that argument empty, and the assertion on it aborts the program. -/
theorem parse_payload_extra_space (p : payload) (toks : List (Char × List Char))
    (u rest slack : List Char) (hne : toks ≠ [])
    (htok : ∀ t ∈ toks, (t.1 = '@' ∨ t.1 = '#') ∧ ' ' ∉ t.2)
    (hnul : NUL ∉ tokens_text toks ++ ' ' :: rest)
    (hu : u ≠ []) (hu' : ∀ c ∈ u, c ≠ ' ' ∧ c ≠ NUL) :
    parse_payload p (cline (tokens_text toks ++ ' ' :: rest) slack) =
      .ok (true, ⟨some .message_vtable,
        .message (toks.map token_entity) (cblock (' ' :: rest)) toks.length⟩, []) ∧
    parse_payload p (cline ("/login ".toList ++ ' ' :: rest) slack) = .abort ∧
    parse_payload p (cline ("/login ".toList ++ u ++ ' ' :: ' ' :: rest) slack) = .abort ∧
    parse_payload p (cline ("/join ".toList ++ ' ' :: rest) slack) = .abort := by
  refine ⟨parse_payload_tokens p toks (' ' :: rest) slack hne htok
    ⟨by simp, by simp⟩ hnul, ?_, ?_, ?_⟩
  · have h := parse_login_empty_username p (rest ++ NUL :: slack)
    simpa [cline] using h
  · have h := parse_login_empty_password p u (rest ++ NUL :: slack) hu hu'
    simpa [cline] using h
  · have h := parse_join_empty_channel p (rest ++ NUL :: slack)
    simpa [cline] using h

theorem parse_payload_extra_space_witness :
    parse_payload fresh_payload (cline "@alice  @bob hi".toList []) =
      .ok (true, ⟨some .message_vtable,
        .message [⟨some .direct_message_vtable, some (cblock "alice".toList)⟩]
          (cblock " @bob hi".toList) 1⟩, []) ∧
    parse_payload fresh_payload (cline "/login  @bob hi".toList []) = .abort ∧
    parse_payload fresh_payload (cline "/login metw  @bob hi".toList []) = .abort ∧
    parse_payload fresh_payload (cline "/join  @bob hi".toList []) = .abort :=
  parse_payload_extra_space fresh_payload [('@', "alice".toList)] "metw".toList
    "@bob hi".toList [] (by decide) (by decide) (by decide) (by decide) (by decide)

/-! ## What the parser accepts: inversion of the scans -/

theorem bind_eq_ok {α β : Type} {x : Outcome α} {f : α → Outcome β} {b : β}
    (h : (x >>= f) = .ok b) : ∃ a, x = .ok a ∧ f a = .ok b := by
  cases x with
  | ok a => exact ⟨a, rfl, h⟩
  | abort => have h' : (Outcome.abort : Outcome β) = .ok b := h; cases h'
  | undefined => have h' : (Outcome.undefined : Outcome β) = .ok b := h; cases h'
  | fuel_out => have h' : (Outcome.fuel_out : Outcome β) = .ok b := h; cases h'

theorem load_eq_ok {raw : List Char} {i : Nat} {c : Char} (h : load raw i = .ok c) :
    ∃ rest, raw.drop i = c :: rest ∧ i < raw.length := by
  unfold load at h
  cases hg : raw[i]? with
  | none => rw [hg] at h; cases h
  | some d =>
    rw [hg] at h
    cases h
    obtain ⟨hi, hd⟩ := List.getElem?_eq_some_iff.mp hg
    refine ⟨raw.drop (i + 1), ?_, hi⟩
    rw [← hd]
    exact List.drop_eq_getElem_cons hi

theorem extract_token_scan_inv (raw : List Char) (k e : Nat)
    (h : extract_token_scan raw k = .ok e) :
    ∃ t d rest, raw = t ++ d :: rest ∧ e = k + t.length ∧
      (∀ c ∈ t, c ≠ ' ' ∧ c ≠ NUL) ∧ (d = ' ' ∨ d = NUL) := by
  induction raw generalizing k with
  | nil => simp [extract_token_scan] at h
  | cons c raw ih =>
    rw [extract_token_scan] at h
    by_cases hc : c ≠ ' ' ∧ c ≠ NUL
    · rw [if_pos hc] at h
      obtain ⟨t, d, rest, hraw, he, ht, hd⟩ := ih (k + 1) h
      refine ⟨c :: t, d, rest, by simp [hraw], by simp [he]; omega, ?_, hd⟩
      intro x hx
      rcases List.mem_cons.mp hx with rfl | hx
      · exact hc
      · exact ht x hx
    · rw [if_neg hc] at h
      cases h
      refine ⟨[], c, raw, rfl, rfl, by simp, ?_⟩
      by_cases h1 : c = ' '
      · exact Or.inl h1
      · by_cases h2 : c = NUL
        · exact Or.inr h2
        · exact absurd ⟨h1, h2⟩ hc

theorem extract_token_inv (raw : List Char) (tok : Block)
    (h : extract_token raw = .ok (some tok)) :
    ∃ t d rest, t ≠ [] ∧ raw = t ++ d :: rest ∧ (∀ c ∈ t, c ≠ ' ' ∧ c ≠ NUL) ∧
      (d = ' ' ∨ d = NUL) ∧ tok = cblock t := by
  have h0 := h
  unfold extract_token at h
  obtain ⟨e, hscan, h⟩ := bind_eq_ok h
  obtain ⟨t, d, rest, hraw, he, ht, hd⟩ := extract_token_scan_inv raw 0 e hscan
  have hne : t ≠ [] := by
    rintro rfl
    simp at he
    simp [he] at h
  have hf := extract_token_token t d rest hne ht hd
  rw [← hraw, h0] at hf
  cases hf
  exact ⟨t, d, rest, hne, hraw, ht, hd, rfl⟩

theorem name_end_scan_inv (l : List Char) (j ne : Nat) (h : name_end_scan l j = .ok ne) :
    ∃ nm rest, l = nm ++ ' ' :: rest ∧ ' ' ∉ nm ∧ ne = j + nm.length := by
  induction l generalizing j with
  | nil => simp [name_end_scan] at h
  | cons c l ih =>
    rw [name_end_scan] at h
    by_cases hc : c ≠ ' '
    · rw [if_pos hc] at h
      obtain ⟨nm, rest, hl, hnm, hne⟩ := ih (j + 1) h
      refine ⟨c :: nm, rest, by simp [hl], ?_, by simp [hne]; omega⟩
      intro hx
      rcases List.mem_cons.mp hx with e | hx
      · exact hc e.symm
      · exact hnm hx
    · rw [if_neg hc] at h
      cases h
      have hc' : c = ' ' := by
        by_contra h1
        exact hc h1
      exact ⟨[], l, by simp [hc'], by simp, rfl⟩

theorem strlen_inv (raw : List Char) (n : Nat) (h : strlen raw = .ok n) :
    ∃ l slack, raw = l ++ NUL :: slack ∧ NUL ∉ l ∧ n = l.length := by
  induction raw generalizing n with
  | nil => simp [strlen] at h
  | cons c raw ih =>
    rw [strlen] at h
    by_cases hc : c = NUL
    · rw [if_pos hc] at h
      cases h
      exact ⟨[], raw, by simp [hc], by simp, rfl⟩
    · rw [if_neg hc] at h
      obtain ⟨m, hm, h⟩ := bind_eq_ok h
      cases h
      obtain ⟨l, slack, hraw, hl, hlen⟩ := ih m hm
      refine ⟨c :: l, slack, by simp [hraw], ?_, by simp [hlen]⟩
      intro hx
      rcases List.mem_cons.mp hx with e | hx
      · exact hc e.symm
      · exact hl hx

theorem receiver_loop_inv (raw : List Char) (fuel : Nat)
    (acc : List message_receiving_entity) (off : Nat)
    (rs : List message_receiving_entity) (k off' : Nat)
    (h : receiver_loop raw fuel (receiver_array acc) acc.length off = .ok (rs, k, off')) :
    ∃ toks d rest, (∀ t ∈ toks, (t.1 = '@' ∨ t.1 = '#') ∧ ' ' ∉ t.2) ∧
      raw.drop off = tokens_text toks ++ d :: rest ∧ (d ≠ '@' ∧ d ≠ '#') ∧
      off' = off + (tokens_text toks).length ∧
      rs = receiver_array (acc ++ toks.map token_entity) ∧
      k = acc.length + toks.length := by
  induction fuel generalizing acc off with
  | zero => rw [receiver_loop] at h; cases h
  | succ fuel ih =>
    have h0 := h
    rw [receiver_loop] at h
    obtain ⟨c, hload, h⟩ := bind_eq_ok h
    obtain ⟨tl, hdrop, hoff⟩ := load_eq_ok hload
    by_cases hc : c = '@' ∨ c = '#'
    · rw [if_pos hc] at h
      obtain ⟨ne, hscan, -⟩ := bind_eq_ok h
      obtain ⟨nm0, rest, hl, hnm0, -⟩ := name_end_scan_inv _ _ _ hscan
      rw [hdrop] at hl
      cases nm0 with
      | nil =>
        simp at hl
        rcases hc with hc | hc <;> rw [hc] at hl <;> exact absurd hl.1 (by decide)
      | cons c' nm =>
        simp only [List.cons_append, List.cons.injEq] at hl
        obtain ⟨rfl, htl⟩ := hl
        have hnm : ' ' ∉ nm := fun hx => hnm0 (List.mem_cons_of_mem _ hx)
        obtain ⟨pre, hraw, hlen⟩ : ∃ pre, raw = pre ++ c :: nm ++ ' ' :: rest ∧
            pre.length = off := by
          refine ⟨raw.take off, ?_, ?_⟩
          · have := List.take_append_drop off raw
            rw [hdrop, htl] at this
            simpa using this.symm
          · simp [List.length_take]
            omega
        subst hraw
        subst hlen
        rw [receiver_loop_step pre nm rest c hc hnm acc fuel] at h0
        have hl1 : acc.length + 1 = (acc ++ [token_entity (c, nm)]).length := by simp
        rw [hl1] at h0
        obtain ⟨toks, d, rest', htoks, hd', hd, ho, hrs, hk⟩ := ih _ _ h0
        have hdr : (pre ++ c :: nm ++ ' ' :: rest).drop (pre.length + (nm.length + 1) + 1) =
            rest := by
          have h2 : pre ++ c :: nm ++ ' ' :: rest = (pre ++ c :: nm ++ [' ']) ++ rest := by
            simp
          rw [h2]
          have h3 : pre.length + (nm.length + 1) + 1 = (pre ++ c :: nm ++ [' ']).length := by
            simp
            omega
          rw [h3, List.drop_left]
        rw [hdr] at hd'
        refine ⟨(c, nm) :: toks, d, rest', ?_, ?_, hd, ?_, ?_, ?_⟩
        · intro t ht
          rcases List.mem_cons.mp ht with rfl | ht
          · exact ⟨hc, hnm⟩
          · exact htoks t ht
        · simp [tokens_text, hd']
        · rw [ho]
          simp [tokens_text]
          omega
        · rw [hrs]
          simp
        · rw [hk]
          simp
          omega
    · rw [if_neg hc] at h
      cases h
      refine ⟨[], c, tl, by simp, by simpa [tokens_text] using hdrop, ?_, by simp [tokens_text],
        by simp, by simp⟩
      exact ⟨fun e => hc (Or.inl e), fun e => hc (Or.inr e)⟩

@[simp] theorem undefined_bind {α β : Type} (f : α → Outcome β) :
    ((Outcome.undefined : Outcome α) >>= f) = .undefined := rfl

@[simp] theorem fuel_out_bind {α β : Type} (f : α → Outcome β) :
    ((Outcome.fuel_out : Outcome α) >>= f) = .fuel_out := rfl

theorem message_constructor_inv (p q : payload) (raw : List Char)
    (h : message_constructor p raw = .ok q) :
    ∃ toks content slack, raw = cline (tokens_text toks ++ content) slack ∧
      (∀ t ∈ toks, (t.1 = '@' ∨ t.1 = '#') ∧ ' ' ∉ t.2) ∧
      (content.head? ≠ some '@' ∧ content.head? ≠ some '#') ∧
      NUL ∉ tokens_text toks ++ content ∧
      q = ⟨some .message_vtable,
        .message (if toks = [] then [global_entity] else toks.map token_entity)
          (cblock content) (if toks = [] then 1 else toks.length)⟩ := by
  have h0 := h
  unfold message_constructor at h
  dsimp only at h
  obtain ⟨⟨rs, k, off'⟩, hloop, h⟩ := bind_eq_ok h
  obtain ⟨toks, d, rest, htoks, hraw, hd, hoff, -, -⟩ :=
    receiver_loop_inv raw _ [] 0 rs k off' hloop
  simp only [List.drop_zero, Nat.zero_add] at hraw hoff
  -- the length of the line and the position of the content
  have hlen : ∃ len, strlen raw = .ok len ∧ off' ≤ len := by
    cases hs : strlen raw with
    | ok len =>
      refine ⟨len, rfl, ?_⟩
      by_contra hle
      by_cases h1 : off' = 0
      · omega
      · by_cases h2 : off' = len + 1 <;> simp [h1, h2, hs, hle] at h
    | abort =>
      by_cases h1 : off' = 0 <;> simp [h1, hs, set_global] at h
      split at h <;> simp at h
    | undefined =>
      by_cases h1 : off' = 0 <;> simp [h1, hs, set_global] at h
      split at h <;> simp at h
    | fuel_out =>
      by_cases h1 : off' = 0 <;> simp [h1, hs, set_global] at h
      split at h <;> simp at h
  obtain ⟨len, hs, hle⟩ := hlen
  obtain ⟨l, slack, hl, hnul, hlen⟩ := strlen_inv raw len hs
  have htake : l.take off' = tokens_text toks := by
    have h1 : (l ++ NUL :: slack).take off' = (tokens_text toks ++ d :: rest).take off' := by
      rw [← hl, ← hraw]
    rw [List.take_append_of_le_length (by omega), hoff, List.take_left] at h1
    rw [hoff]
    exact h1
  have hsplit : l = tokens_text toks ++ l.drop off' := by
    rw [← htake]
    exact (List.take_append_drop off' l).symm
  have hcont : l.drop off' ++ NUL :: slack = d :: rest := by
    have h1 : tokens_text toks ++ (l.drop off' ++ NUL :: slack) =
        tokens_text toks ++ d :: rest := by
      rw [← List.append_assoc, ← hsplit, ← hl, hraw]
    exact List.append_cancel_left h1
  have hhead : (l.drop off').head? ≠ some '@' ∧ (l.drop off').head? ≠ some '#' := by
    cases hc : l.drop off' with
    | nil => simp
    | cons c cs =>
      rw [hc] at hcont
      simp only [List.cons_append, List.cons.injEq] at hcont
      rw [hcont.1]
      simp [hd.1, hd.2]
  have hnul' : NUL ∉ tokens_text toks ++ l.drop off' := by
    rw [← hsplit]
    exact hnul
  have hraw' : raw = cline (tokens_text toks ++ l.drop off') slack := by
    rw [← hsplit]
    exact hl
  refine ⟨toks, l.drop off', slack, hraw', htoks, hhead, hnul', ?_⟩
  by_cases ht : toks = []
  · subst ht
    have hf := message_constructor_global p (l.drop off') slack hhead
      (by simpa [tokens_text] using hnul')
    simp only [tokens_text, List.nil_append] at hraw'
    rw [← hraw', h0] at hf
    cases hf
    simp
  · have hf := message_constructor_tokens p toks (l.drop off') slack ht htoks hhead hnul'
    rw [← hraw', h0] at hf
    cases hf
    simp [ht]

theorem parse_payload_message_inv (p q : payload) (raw : List Char) (b : Bool)
    (out : List (List Char)) (hraw : raw.head? ≠ some '/')
    (h : parse_payload p raw = .ok (b, q, out)) :
    message_constructor p raw = .ok q ∧ b = true ∧ out = [] := by
  cases raw with
  | nil => simp [parse_payload, load] at h
  | cons c rest =>
    have hc : c ≠ '/' := fun e => hraw (by simp [e])
    rw [parse_payload_message p c rest hc] at h
    obtain ⟨q', hm, h⟩ := bind_eq_ok h
    cases h
    exact ⟨hm, rfl, rfl⟩

/-- Claim C11 (receiver list never empty).  When `parse_payload` returns on a
line that does not start with `/`, the line is a run of receiver tokens followed
by a content that does not begin with `@` or `#`, and the payload is a message
whose `receiver_count` is at least 1 and is the length of its receivers array:
the number of tokens when there is one or more, the array then holding the
Direct or Group receiver of each token in order, and 1 when there is none, the
array then holding one receiver of the Global kind, without name. -/
theorem parse_payload_receiver_count (p q : payload) (raw : List Char) (b : Bool)
    (out : List (List Char)) (hraw : raw.head? ≠ some '/')
    (h : parse_payload p raw = .ok (b, q, out)) :
    ∃ toks content slack receivers text receiver_count,
      raw = cline (tokens_text toks ++ content) slack ∧
      (∀ t ∈ toks, (t.1 = '@' ∨ t.1 = '#') ∧ ' ' ∉ t.2) ∧
      (content.head? ≠ some '@' ∧ content.head? ≠ some '#') ∧
      q.data = .message receivers text receiver_count ∧
      1 ≤ receiver_count ∧ receivers.length = receiver_count ∧
      receiver_count = (if toks.length = 0 then 1 else toks.length) ∧
      receivers = (if toks.length = 0 then [global_entity] else toks.map token_entity) ∧
      q.vtable = some .message_vtable ∧ text = cblock content := by
  obtain ⟨hm, -, -⟩ := parse_payload_message_inv p q raw b out hraw h
  obtain ⟨toks, content, slack, hr, htoks, hhead, -, hq⟩ := message_constructor_inv p q raw hm
  refine ⟨toks, content, slack, _, _, _, hr, htoks, hhead, by rw [hq], ?_, ?_, ?_, ?_,
    by rw [hq], rfl⟩
  · cases toks <;> simp
  · cases toks <;> simp
  · cases toks <;> simp
  · cases toks <;> simp

theorem parse_payload_receiver_count_witness :
    (∃ toks content slack receivers text receiver_count,
      cline "hello @bob".toList [] = cline (tokens_text toks ++ content) slack ∧
      (∀ t ∈ toks, (t.1 = '@' ∨ t.1 = '#') ∧ ' ' ∉ t.2) ∧
      (content.head? ≠ some '@' ∧ content.head? ≠ some '#') ∧
      (⟨some .message_vtable,
        .message [⟨some .global_message_vtable, none⟩]
          (cblock "hello @bob".toList) 1⟩ : payload).data =
        .message receivers text receiver_count ∧
      1 ≤ receiver_count ∧ receivers.length = receiver_count ∧
      receiver_count = (if toks.length = 0 then 1 else toks.length) ∧
      receivers = (if toks.length = 0 then [global_entity] else toks.map token_entity) ∧
      (⟨some .message_vtable,
        .message [⟨some .global_message_vtable, none⟩]
          (cblock "hello @bob".toList) 1⟩ : payload).vtable = some .message_vtable ∧
      text = cblock content) ∧
    (∃ toks content slack receivers text receiver_count,
      cline "@alice #general hi".toList [] = cline (tokens_text toks ++ content) slack ∧
      (∀ t ∈ toks, (t.1 = '@' ∨ t.1 = '#') ∧ ' ' ∉ t.2) ∧
      (content.head? ≠ some '@' ∧ content.head? ≠ some '#') ∧
      (⟨some .message_vtable,
        .message [⟨some .direct_message_vtable, some (cblock "alice".toList)⟩,
                  ⟨some .group_message_vtable, some (cblock "general".toList)⟩]
          (cblock "hi".toList) 2⟩ : payload).data = .message receivers text receiver_count ∧
      1 ≤ receiver_count ∧ receivers.length = receiver_count ∧
      receiver_count = (if toks.length = 0 then 1 else toks.length) ∧
      receivers = (if toks.length = 0 then [global_entity] else toks.map token_entity) ∧
      (⟨some .message_vtable,
        .message [⟨some .direct_message_vtable, some (cblock "alice".toList)⟩,
                  ⟨some .group_message_vtable, some (cblock "general".toList)⟩]
          (cblock "hi".toList) 2⟩ : payload).vtable = some .message_vtable ∧
      text = cblock content) :=
  ⟨parse_payload_receiver_count fresh_payload _ (cline "hello @bob".toList []) true []
      (by decide) (by decide),
   parse_payload_receiver_count fresh_payload _ (cline "@alice #general hi".toList []) true []
      (by decide) (by decide)⟩

/-! ## Payloads produced by `parse_payload` -/

theorem assert_ptr_eq_ok {α : Type} {r : Option α} {a : α} (h : assert_ptr r = .ok a) :
    r = some a := by
  cases r with
  | none => cases h
  | some x => cases h; rfl

theorem extract_token_string (raw : List Char) (tok : Block)
    (h : extract_token raw = .ok (some tok)) : ∃ t, NUL ∉ t ∧ tok = cblock t := by
  obtain ⟨t, -, -, -, -, ht, -, htok⟩ := extract_token_inv raw tok h
  exact ⟨t, not_nul_of_token t ht, htok⟩

theorem parse_payload_command_inv (p q : payload) (raw : List Char)
    (out : List (List Char)) (hraw : raw.head? = some '/')
    (h : parse_payload p raw = .ok (true, q, out)) :
    (∃ u pw, NUL ∉ u ∧ NUL ∉ pw ∧
      q = ⟨some .command_login_vtable, .command_login (cblock u) (cblock pw)⟩) ∨
    (∃ c, NUL ∉ c ∧ q = ⟨some .command_join_vtable, .command_join (cblock c)⟩) ∨
    q = ⟨some .command_logout_vtable, .zeroed⟩ := by
  cases raw with
  | nil => simp at hraw
  | cons c0 rest =>
    have hc : c0 = '/' := by simpa using hraw
    subst hc
    unfold parse_payload at h
    obtain ⟨c, hload, h⟩ := bind_eq_ok h
    have hc : c = '/' := by
      simp [load] at hload
      exact hload.symm
    subst hc
    rw [if_pos rfl] at h
    obtain ⟨⟨i, cmd⟩, -, h⟩ := bind_eq_ok h
    obtain ⟨cmd', -, h⟩ := bind_eq_ok h
    obtain ⟨b1, -, h⟩ := bind_eq_ok h
    cases b1 with
    | true =>
      rw [if_pos rfl] at h
      obtain ⟨r1, he1, h⟩ := bind_eq_ok h
      obtain ⟨username, ha1, h⟩ := bind_eq_ok h
      obtain ⟨n, -, h⟩ := bind_eq_ok h
      obtain ⟨r2, he2, h⟩ := bind_eq_ok h
      obtain ⟨password, ha2, h⟩ := bind_eq_ok h
      cases h
      rw [assert_ptr_eq_ok ha1] at he1
      rw [assert_ptr_eq_ok ha2] at he2
      obtain ⟨u, hu, rfl⟩ := extract_token_string _ _ he1
      obtain ⟨pw, hpw, rfl⟩ := extract_token_string _ _ he2
      exact Or.inl ⟨u, pw, hu, hpw, rfl⟩
    | false =>
      rw [if_neg (by simp)] at h
      obtain ⟨b2, -, h⟩ := bind_eq_ok h
      cases b2 with
      | true =>
        rw [if_pos rfl] at h
        obtain ⟨r1, he1, h⟩ := bind_eq_ok h
        obtain ⟨channel, ha1, h⟩ := bind_eq_ok h
        cases h
        rw [assert_ptr_eq_ok ha1] at he1
        obtain ⟨c, hc, rfl⟩ := extract_token_string _ _ he1
        exact Or.inr (Or.inl ⟨c, hc, rfl⟩)
      | false =>
        rw [if_neg (by simp)] at h
        obtain ⟨b3, -, h⟩ := bind_eq_ok h
        cases b3 with
        | true =>
          rw [if_pos rfl] at h
          cases h
          exact Or.inr (Or.inr rfl)
        | false =>
          rw [if_neg (by simp)] at h
          obtain ⟨name, -, h⟩ := bind_eq_ok h
          cases h

theorem token_receiver_held (t : Char × List Char) (ht : NUL ∉ t.2) :
    (token_receiver t).held_by (token_entity t) := by
  unfold token_receiver token_entity
  by_cases h : t.1 = '@'
  · simp only [h, if_true]
    exact ⟨rfl, ht, rfl⟩
  · simp only [h, if_false]
    exact ⟨rfl, ht, rfl⟩

theorem not_nul_of_tokens_text (toks : List (Char × List Char))
    (h : NUL ∉ tokens_text toks) : ∀ t ∈ toks, NUL ∉ t.2 := by
  induction toks with
  | nil => simp
  | cons t ts ih =>
    intro x hx
    simp only [tokens_text, List.cons_append, List.mem_cons, List.mem_append, not_or] at h
    rcases List.mem_cons.mp hx with rfl | hx
    · exact h.2.1
    · exact ih h.2.2.2 x hx

theorem tokens_held (toks : List (Char × List Char)) (h : ∀ t ∈ toks, NUL ∉ t.2) :
    List.Forall₂ Receiver.held_by (toks.map token_receiver) (toks.map token_entity) := by
  induction toks with
  | nil => exact .nil
  | cons t ts ih =>
    exact .cons (token_receiver_held t (h t (by simp))) (ih (fun x hx => h x (by simp [hx])))

theorem parse_payload_well_formed (p q : payload) (raw : List Char)
    (out : List (List Char)) (h : parse_payload p raw = .ok (true, q, out)) :
    q.well_formed := by
  by_cases hraw : raw.head? = some '/'
  · rcases parse_payload_command_inv p q raw out hraw h with h1 | h1 | h1
    · exact Or.inl h1
    · exact Or.inr (Or.inl h1)
    · exact Or.inr (Or.inr (Or.inl h1))
  · obtain ⟨hm, -, -⟩ := parse_payload_message_inv p q raw true out hraw h
    obtain ⟨toks, content, slack, -, -, -, hnul, hq⟩ := message_constructor_inv p q raw hm
    have hc : NUL ∉ content := fun hx => hnul (by simp [hx])
    have ht : NUL ∉ tokens_text toks := fun hx => hnul (by simp [hx])
    refine Or.inr (Or.inr (Or.inr ?_))
    by_cases hn : toks = []
    · subst hn
      refine ⟨[.Global], [global_entity], content, by simp, hc, .cons rfl .nil, ?_⟩
      rw [hq]
      simp
    · refine ⟨toks.map token_receiver, toks.map token_entity, content, by simpa using hn, hc,
        tokens_held toks (not_nul_of_tokens_text toks ht), ?_⟩
      rw [hq]
      simp [hn]

theorem process_well_formed (q : payload) (h : q.well_formed) :
    ∃ text, q.process = .ok text := by
  rcases h with ⟨u, pw, hu, hpw, rfl⟩ | ⟨c, hc, rfl⟩ | rfl | ⟨rs, es, content, -, hc, hrs, rfl⟩
  · refine ⟨["Command: login\n  Arguments: [username: ".toList ++ u ++
      ", password ".toList ++ pw ++ "]\n".toList], ?_⟩
    simp only [payload.process, payload_vtable.process, process_command_login,
      cstr_cblock_eq u hu, cstr_cblock_eq pw hpw, ok_bind]
  · refine ⟨["Command: join\n  Arguments: [channel: ".toList ++ c ++ "]\n".toList], ?_⟩
    simp only [payload.process, payload_vtable.process, process_command_join,
      cstr_cblock_eq c hc, ok_bind]
  · exact ⟨_, rfl⟩
  · refine ⟨rs.map (Receiver.line content), ?_⟩
    have hl := process_message_loop_held rs es [] content hrs hc
    simpa [payload.process, payload_vtable.process, process_message] using hl

theorem stateful_call_transmit_held (r : Receiver) (e : message_receiving_entity)
    (vt : Option payload_vtable) (receivers : List message_receiving_entity)
    (c : List Char) (n i : Nat) (printed : List (List Char))
    (hget : receivers[i]? = some e) (h : r.held_by e) (hc : NUL ∉ c) :
    Stateful.call_transmit i ⟨⟨vt, .message receivers (cblock c) n⟩, printed⟩ =
      .ok ⟨⟨vt, .message receivers (cblock c) n⟩, printed ++ [r.line c]⟩ := by
  cases r with
  | Direct username =>
    obtain ⟨hv, hn, hi⟩ := h
    simp [Stateful.call_transmit, Stateful.transmit_arguments, hget, hv,
      Stateful.transmit_direct_message, hi, string_arg, cstr_cblock_eq, hn, hc,
      Receiver.line, Stateful.printf]
  | Group channel =>
    obtain ⟨hv, hn, hi⟩ := h
    simp [Stateful.call_transmit, Stateful.transmit_arguments, hget, hv,
      Stateful.transmit_group_message, hi, string_arg, cstr_cblock_eq, hn, hc,
      Receiver.line, Stateful.printf]
  | Global =>
    have hv : e.vtable = some .global_message_vtable := h
    simp [Stateful.call_transmit, Stateful.transmit_arguments, hget, hv,
      Stateful.transmit_global_message, cstr_cblock_eq, hc, Receiver.line,
      Stateful.printf]

theorem stateful_process_message_loop_held (rs : List Receiver)
    (es pre : List message_receiving_entity) (vt : Option payload_vtable) (c : List Char)
    (printed : List (List Char)) (fuel n : Nat)
    (h : List.Forall₂ Receiver.held_by rs es) (hc : NUL ∉ c) (hfuel : es.length < fuel)
    (hn : n = pre.length + es.length) :
    Stateful.process_message_loop fuel pre.length
        ⟨⟨vt, .message (pre ++ es) (cblock c) n⟩, printed⟩ =
      .ok ⟨⟨vt, .message (pre ++ es) (cblock c) n⟩,
        printed ++ rs.map (Receiver.line c)⟩ := by
  induction h generalizing pre printed fuel with
  | nil =>
    cases fuel with
    | zero => simp at hfuel
    | succ fuel =>
      have hlt : ¬ pre.length < n := by
        simp at hn
        omega
      simp [Stateful.process_message_loop, hlt]
  | @cons r e rs es hre _ ih =>
    cases fuel with
    | zero => simp at hfuel
    | succ fuel =>
      have hget : (pre ++ e :: es)[pre.length]? = some e := by
        rw [List.getElem?_append_right (le_refl _)]
        simp
      have hlt : pre.length < n := by
        simp at hn
        omega
      have h := ih (pre ++ [e]) (printed ++ [r.line c]) fuel (by simpa using hfuel)
        (by simp at hn ⊢; omega)
      simp only [List.append_assoc, List.singleton_append, List.length_append,
        List.length_singleton] at h
      rw [Stateful.process_message_loop]
      simp only [hlt, if_true,
        stateful_call_transmit_held r e vt _ c _ _ printed hget hre hc, ok_bind]
      rw [h]
      simp

theorem stateful_process_well_formed (q : payload) (printed : List (List Char))
    (h : q.well_formed) :
    ∃ text, q.process = .ok text ∧
      Stateful.process ⟨q, printed⟩ = .ok ⟨q, printed ++ text⟩ := by
  rcases h with ⟨u, pw, hu, hpw, rfl⟩ | ⟨c, hc, rfl⟩ | rfl | ⟨rs, es, content, -, hc, hrs, rfl⟩
  · refine ⟨["Command: login\n  Arguments: [username: ".toList ++ u ++
      ", password ".toList ++ pw ++ "]\n".toList], ?_, ?_⟩
    · simp only [payload.process, payload_vtable.process, process_command_login,
        cstr_cblock_eq u hu, cstr_cblock_eq pw hpw, ok_bind]
    · simp only [Stateful.process, Stateful.process_command_login,
        cstr_cblock_eq u hu, cstr_cblock_eq pw hpw, ok_bind, Stateful.printf]
  · refine ⟨["Command: join\n  Arguments: [channel: ".toList ++ c ++ "]\n".toList], ?_, ?_⟩
    · simp only [payload.process, payload_vtable.process, process_command_join,
        cstr_cblock_eq c hc, ok_bind]
    · simp only [Stateful.process, Stateful.process_command_join,
        cstr_cblock_eq c hc, ok_bind, Stateful.printf]
  · exact ⟨_, rfl, rfl⟩
  · refine ⟨rs.map (Receiver.line content), ?_, ?_⟩
    · have hl := process_message_loop_held rs es [] content hrs hc
      simpa [payload.process, payload_vtable.process, process_message] using hl
    · have hl := stateful_process_message_loop_held rs es [] (some .message_vtable) content
        printed (es.length + 1) es.length hrs hc (Nat.lt_succ_self _) (by simp)
      simpa [Stateful.process, Stateful.process_message] using hl

theorem stateful_call_transmit_frame (i : Nat) (w w' : world)
    (h : Stateful.call_transmit i w = .ok w') : w'.memory = w.memory := by
  unfold Stateful.call_transmit at h
  obtain ⟨⟨r, c⟩, -, h⟩ := bind_eq_ok h
  dsimp only at h
  split at h
  · unfold Stateful.transmit_direct_message at h
    obtain ⟨⟨s, c⟩, -, h⟩ := bind_eq_ok h
    obtain ⟨name, -, h⟩ := bind_eq_ok h
    obtain ⟨t, -, h⟩ := bind_eq_ok h
    cases h
    rfl
  · unfold Stateful.transmit_group_message at h
    obtain ⟨⟨s, c⟩, -, h⟩ := bind_eq_ok h
    obtain ⟨name, -, h⟩ := bind_eq_ok h
    obtain ⟨t, -, h⟩ := bind_eq_ok h
    cases h
    rfl
  · unfold Stateful.transmit_global_message at h
    obtain ⟨⟨s, c⟩, -, h⟩ := bind_eq_ok h
    obtain ⟨t, -, h⟩ := bind_eq_ok h
    cases h
    rfl
  · cases h

theorem stateful_process_message_loop_frame (fuel i : Nat) (w w' : world)
    (h : Stateful.process_message_loop fuel i w = .ok w') : w'.memory = w.memory := by
  induction fuel generalizing i w with
  | zero => cases h
  | succ fuel ih =>
    rw [Stateful.process_message_loop] at h
    split at h
    · split at h
      · obtain ⟨w1, h1, h⟩ := bind_eq_ok h
        rw [ih _ _ h, stateful_call_transmit_frame i w w1 h1]
      · cases h
        rfl
    · cases h

theorem stateful_process_frame (w w' : world) (h : Stateful.process w = .ok w') :
    w'.memory = w.memory := by
  unfold Stateful.process at h
  split at h
  · unfold Stateful.process_command_login at h
    split at h
    · obtain ⟨u, -, h⟩ := bind_eq_ok h
      obtain ⟨p, -, h⟩ := bind_eq_ok h
      cases h
      rfl
    · cases h
  · unfold Stateful.process_command_join at h
    split at h
    · obtain ⟨c, -, h⟩ := bind_eq_ok h
      cases h
      rfl
    · cases h
  · cases h
    rfl
  · unfold Stateful.process_message at h
    split at h
    · exact stateful_process_message_loop_frame _ _ _ _ h
    · cases h
  · cases h

/-- Claim C19 (idempotent processing).  For every payload `q` that
`parse_payload` produces and whatever has been printed before, the statement
`p.vtable->process(&p)` returns, adds the report `text` of the payload to the
output and leaves the payload in memory as it was: the vtable pointer, the
command fields, the content, `receiver_count` and every receiver, name
included.  A second statement right after the first returns too, adds the
same text again and leaves the payload as it was. -/
theorem process_idempotent (p q : payload) (raw : List Char) (out : List (List Char))
    (printed : List (List Char)) (h : parse_payload p raw = .ok (true, q, out)) :
    ∃ text, q.process = .ok text ∧
      Stateful.process ⟨q, printed⟩ = .ok ⟨q, printed ++ text⟩ ∧
      Stateful.process ⟨q, printed ++ text⟩ = .ok ⟨q, printed ++ text ++ text⟩ ∧
      Stateful.process_twice ⟨q, printed⟩ = .ok ⟨q, printed ++ text ++ text⟩ := by
  have hwf := parse_payload_well_formed p q raw out h
  obtain ⟨text, ht, h1⟩ := stateful_process_well_formed q printed hwf
  obtain ⟨text2, ht2, h2⟩ := stateful_process_well_formed q (printed ++ text) hwf
  have he : text2 = text := by
    rw [ht] at ht2
    cases ht2
    rfl
  subst he
  refine ⟨text2, ht, h1, h2, ?_⟩
  unfold Stateful.process_twice
  rw [h1, ok_bind, h2]

theorem process_idempotent_witness :
    ∃ text,
      payload.process ⟨some .message_vtable,
        .message [⟨some .direct_message_vtable, some (cblock "alice".toList)⟩,
                  ⟨some .group_message_vtable, some (cblock "general".toList)⟩]
          (cblock "hi".toList) 2⟩ = .ok text ∧
      Stateful.process ⟨⟨some .message_vtable,
        .message [⟨some .direct_message_vtable, some (cblock "alice".toList)⟩,
                  ⟨some .group_message_vtable, some (cblock "general".toList)⟩]
          (cblock "hi".toList) 2⟩, ["earlier\n".toList]⟩ =
        .ok ⟨⟨some .message_vtable,
          .message [⟨some .direct_message_vtable, some (cblock "alice".toList)⟩,
                    ⟨some .group_message_vtable, some (cblock "general".toList)⟩]
            (cblock "hi".toList) 2⟩, ["earlier\n".toList] ++ text⟩ ∧
      Stateful.process ⟨⟨some .message_vtable,
        .message [⟨some .direct_message_vtable, some (cblock "alice".toList)⟩,
                  ⟨some .group_message_vtable, some (cblock "general".toList)⟩]
          (cblock "hi".toList) 2⟩, ["earlier\n".toList] ++ text⟩ =
        .ok ⟨⟨some .message_vtable,
          .message [⟨some .direct_message_vtable, some (cblock "alice".toList)⟩,
                    ⟨some .group_message_vtable, some (cblock "general".toList)⟩]
            (cblock "hi".toList) 2⟩, ["earlier\n".toList] ++ text ++ text⟩ ∧
      Stateful.process_twice ⟨⟨some .message_vtable,
        .message [⟨some .direct_message_vtable, some (cblock "alice".toList)⟩,
                  ⟨some .group_message_vtable, some (cblock "general".toList)⟩]
          (cblock "hi".toList) 2⟩, ["earlier\n".toList]⟩ =
        .ok ⟨⟨some .message_vtable,
          .message [⟨some .direct_message_vtable, some (cblock "alice".toList)⟩,
                    ⟨some .group_message_vtable, some (cblock "general".toList)⟩]
            (cblock "hi".toList) 2⟩, ["earlier\n".toList] ++ text ++ text⟩ :=
  process_idempotent fresh_payload _ (cline "@alice #general hi".toList []) []
    ["earlier\n".toList] (by decide)

theorem process_twice_examples :
    Stateful.process_twice ⟨⟨some .message_vtable,
        .message [⟨some .direct_message_vtable, some (cblock "alice".toList)⟩,
                  ⟨some .group_message_vtable, some (cblock "general".toList)⟩]
          (cblock "hi".toList) 2⟩, []⟩ =
      .ok ⟨⟨some .message_vtable,
        .message [⟨some .direct_message_vtable, some (cblock "alice".toList)⟩,
                  ⟨some .group_message_vtable, some (cblock "general".toList)⟩]
          (cblock "hi".toList) 2⟩,
        ["Direct message to alice: hi\n".toList, "Group message to general: hi\n".toList,
         "Direct message to alice: hi\n".toList, "Group message to general: hi\n".toList]⟩ ∧
    Stateful.process_twice
        ⟨⟨some .command_join_vtable, .command_join (cblock "room".toList)⟩, []⟩ =
      .ok ⟨⟨some .command_join_vtable, .command_join (cblock "room".toList)⟩,
        ["Command: join\n  Arguments: [channel: room]\n".toList,
         "Command: join\n  Arguments: [channel: room]\n".toList]⟩ ∧
    Stateful.process ⟨⟨some .message_vtable,
        .message [⟨some .direct_message_vtable, some (cblock "alice".toList)⟩]
          (cblock "hi".toList) 2⟩, []⟩ = .undefined :=
  ⟨by decide, by decide, by decide⟩

/-! ## Milestone 01: the payload buffer -/

theorem take_set_succ {α : Type} (l : List α) (n : Nat) (q : α) (h : n < l.length) :
    (l.set n q).take (n + 1) = l.take n ++ [q] := by
  induction l generalizing n with
  | nil => simp at h
  | cons x l ih =>
    cases n with
    | zero => simp
    | succ n =>
      have h' : n < l.length := by simpa using h
      simp [ih n h']

theorem push_payload_valid (buf : Traditional.payload_buffer)
    (ps : List Traditional.payload) (raw : List Char) (q : Traditional.payload)
    (hb : Traditional.holds buf ps) (h : Traditional.parses_to raw q) :
    ∃ buf' out, Traditional.push_payload buf raw = .ok (buf', out) ∧
      Traditional.holds buf' (ps ++ [q]) ∧ buf'.process_base = buf.process_base := by
  obtain ⟨out, hp⟩ := h
  obtain ⟨pb, len, cap, payloads⟩ := buf
  obtain ⟨hlen, hcap, hle, hpos, htake⟩ := hb
  simp only at hlen hcap hle hpos htake
  unfold Traditional.push_payload
  rw [hp]
  simp only [ok_bind, if_true]
  by_cases hc : cap = len
  · subst hc
    have hre : Traditional.realloc payloads (cap * 2) =
        payloads ++ List.replicate cap Traditional.fresh_payload := by
      unfold Traditional.realloc
      rw [List.take_of_length_le (by omega), hcap]
      congr 2
      omega
    have hlt : cap < (payloads ++ List.replicate cap Traditional.fresh_payload).length := by
      simp
      omega
    simp only [if_true, hre, hlt]
    refine ⟨_, _, rfl, ⟨?_, ?_, ?_, ?_, ?_⟩, rfl⟩
    · simp [hlen]
    · simp [hcap]
      omega
    · simp
      omega
    · simp
      omega
    · simp only
      rw [take_set_succ _ _ _ hlt, List.take_append_of_le_length (by omega), htake]
  · have hlt : len < payloads.length := by omega
    simp only [hc, if_false, hlt, if_true]
    refine ⟨_, _, rfl, ⟨?_, ?_, ?_, ?_, ?_⟩, rfl⟩
    · simp [hlen]
    · simp [hcap]
    · simp
      omega
    · exact hpos
    · simp only
      rw [take_set_succ _ _ _ hlt, htake]

/-- Claim C13 (join report format), at the buffer that holds the payload of the
line `/join channel123`: `process_next` prints `Command: login` in front of the
channel, not `Command: join`. -/
theorem process_next_join_prints_login :
    (Traditional.push_payload Traditional.new_buffer (cline "/join channel123".toList []) >>=
      fun r => Traditional.process_next r.1) =
      .ok (⟨1, 1, 1, [⟨some .COMMAND_JOIN, .command_join (cblock "channel123".toList)⟩]⟩,
        ["Command: login\n  Arguments: [channel: channel123]\n".toList]) := by
  decide

/-! ## The C++ versions -/

/-- Claim C14 (normative output formats, virtual-inheritance version).  For
every object of each of the six classes, the text that `process()` writes to
`cout` is the normative one for its fields, ended by a newline. -/
theorem virtual_process_formats (u p c content : List Char) :
    (Virtual.new_LoginCommand u p).process.flatten =
      "Command: login\n  Arguments: [username: ".toList ++ u ++ ", password: ".toList ++ p ++
        "]\n".toList ∧
    (Virtual.new_JoinCommand c).process.flatten =
      "Command: join\n  Arguments: [channel: ".toList ++ c ++ "]\n".toList ∧
    Virtual.new_LogoutCommand.process.flatten = "Command: logout\n  Arguments: []\n".toList ∧
    (Virtual.new_DirectMessage content u).process.flatten =
      "Direct message to ".toList ++ u ++ ": ".toList ++ content ++ "\n".toList ∧
    (Virtual.new_GroupMessage content c).process.flatten =
      "Group message to ".toList ++ c ++ ": ".toList ++ content ++ "\n".toList ∧
    (Virtual.new_GlobalMessage content).process.flatten =
      "Global message: ".toList ++ content ++ "\n".toList := by
  refine ⟨?_, ?_, ?_, ?_, ?_, ?_⟩ <;>
    simp [Virtual.new_LoginCommand, Virtual.new_JoinCommand, Virtual.new_LogoutCommand,
      Virtual.new_DirectMessage, Virtual.new_GroupMessage, Virtual.new_GlobalMessage,
      Virtual.Payload.process, Virtual.Command.process, Virtual.Command.command_name,
      Virtual.Command.process_arguments, Virtual.Message.process,
      Virtual.Message.process_recipient, Virtual.Message.content]

theorem split_token_space (t : List Char) (d : Char) (rest : List Char)
    (ht : ∀ c ∈ t, c ≠ ' ' ∧ c ≠ NUL) (hd : d = ' ' ∨ d = NUL) :
    split_token " ".toList (t ++ d :: rest) = .ok (t, d :: rest) := by
  induction t with
  | nil => rcases hd with rfl | rfl <;> simp [split_token]
  | cons c t ih =>
    have hc := ht c (by simp)
    have h := ih (fun x hx => ht x (by simp [hx]))
    have hcond : ¬ (c = NUL ∨ c ∈ " ".toList) := by
      simp [hc.1, hc.2]
    show split_token " ".toList (c :: (t ++ d :: rest)) = _
    rw [split_token, if_neg hcond, h]
    rfl

theorem strtok_r_token (t : List Char) (d : Char) (rest : List Char) (hne : t ≠ [])
    (ht : ∀ c ∈ t, c ≠ ' ' ∧ c ≠ NUL) (hd : d = ' ' ∨ d = NUL) :
    strtok_r (t ++ d :: rest) " ".toList =
      .ok (some t, if d = NUL then d :: rest else rest) := by
  cases t with
  | nil => exact absurd rfl hne
  | cons c t =>
    have hc := ht c (by simp)
    have hskip : skip_delims " ".toList (c :: t ++ d :: rest) = c :: t ++ d :: rest := by
      simp [skip_delims, hc.1]
    have hsplit := split_token_space (c :: t) d rest ht hd
    simp only [List.cons_append] at hskip hsplit
    simp only [strtok_r, List.cons_append, hc.2, if_false, hskip, hsplit, ok_bind]
    by_cases hd' : d = NUL <;> simp [hd']

theorem raii_login (u p slack : List Char) (hu : u ≠ []) (hp : p ≠ [])
    (hu' : ∀ c ∈ u, c ≠ ' ' ∧ c ≠ NUL) (hp' : ∀ c ∈ p, c ≠ ' ' ∧ c ≠ NUL) :
    Raii.handle_command_payload (cline ("/login ".toList ++ u ++ " ".toList ++ p) slack) =
      .ok ["String created: ".toList ++ u ++ "\n".toList,
           "String created: ".toList ++ p ++ "\n".toList,
           "Command: login\n  Arguments: [username: ".toList ++ u ++ ", password:".toList ++
             p ++ "]".toList ++ "\n".toList,
           "String destroyed: ".toList ++ p ++ "\n".toList,
           "String destroyed: ".toList ++ u ++ "\n".toList,
           "\n".toList] := by
  have hraw : cline ("/login ".toList ++ u ++ " ".toList ++ p) slack =
      '/' :: ("login".toList ++ ' ' :: (u ++ ' ' :: (p ++ NUL :: slack))) := by
    simp [cline]
  have h1 := strtok_r_token "login".toList ' ' (u ++ ' ' :: (p ++ NUL :: slack))
    (by decide) (by decide) (Or.inl rfl)
  have h2 := strtok_r_token u ' ' (p ++ NUL :: slack) hu hu' (Or.inl rfl)
  have h3 := strtok_r_token p NUL slack hp hp' (Or.inr rfl)
  have hsp : ¬ (' ' = NUL) := by decide
  rw [if_neg hsp] at h1 h2
  rw [if_pos rfl] at h3
  rw [hraw]
  simp only [Raii.handle_command_payload, load, List.getElem?_cons_zero, ok_bind,
    List.drop_succ_cons, List.drop_zero, h1, string_of_ptr, if_true, h2, h3,
    Raii.LoginCommand.ctor, Raii.String.ctor, Raii.LoginCommand.process,
    Raii.LoginCommand.dtor, Raii.String.dtor]
  simp

theorem raii_join (c slack : List Char) (hc : c ≠ [])
    (hc' : ∀ x ∈ c, x ≠ ' ' ∧ x ≠ NUL) :
    Raii.handle_command_payload (cline ("/join ".toList ++ c) slack) =
      .ok ["String created: ".toList ++ c ++ "\n".toList,
           "Command: join\n  Arguments: [channel: ".toList ++ c ++ "]".toList ++ "\n".toList,
           "String destroyed: ".toList ++ c ++ "\n".toList,
           "\n".toList] := by
  have hraw : cline ("/join ".toList ++ c) slack =
      '/' :: ("join".toList ++ ' ' :: (c ++ NUL :: slack)) := by
    simp [cline]
  have h1 := strtok_r_token "join".toList ' ' (c ++ NUL :: slack)
    (by decide) (by decide) (Or.inl rfl)
  have h2 := strtok_r_token c NUL slack hc hc' (Or.inr rfl)
  have hsp : ¬ (' ' = NUL) := by decide
  rw [if_neg hsp] at h1
  rw [if_pos rfl] at h2
  rw [hraw]
  have hne : "join".toList ≠ "login".toList := by decide
  simp only [Raii.handle_command_payload, load, List.getElem?_cons_zero, ok_bind,
    List.drop_succ_cons, List.drop_zero, h1, string_of_ptr, if_neg hne, if_true, h2,
    Raii.JoinCommand.ctor, Raii.String.ctor, Raii.JoinCommand.process,
    Raii.JoinCommand.dtor, Raii.String.dtor]
  simp

theorem raii_logout (slack : List Char) :
    Raii.handle_command_payload (cline "/logout".toList slack) =
      .ok ["Command: logout\n  Arguments: []".toList ++ "\n".toList, "\n".toList] := by
  have hraw : cline "/logout".toList slack = '/' :: ("logout".toList ++ NUL :: slack) := by
    simp [cline]
  have h1 := strtok_r_token "logout".toList NUL slack (by decide) (by decide) (Or.inr rfl)
  rw [if_pos rfl] at h1
  rw [hraw]
  have hne1 : "logout".toList ≠ "login".toList := by decide
  have hne2 : "logout".toList ≠ "join".toList := by decide
  simp only [Raii.handle_command_payload, load, List.getElem?_cons_zero, ok_bind,
    List.drop_succ_cons, List.drop_zero, h1, string_of_ptr, if_neg hne1, if_neg hne2,
    if_true, Raii.LogoutCommand.process]
  simp

/-- Claim C16 (disposal completeness through the String log).  For the lines
`/login u p`, `/join c` and `/logout`, the output of `handle_command_payload`
is, in this order: one `String created` line per argument in the order of the
line, the command report, one `String destroyed` line per argument in the
reverse order, and the final empty line.  So every String created is destroyed
exactly once, after the report, and nothing else is destroyed. -/
theorem raii_string_log (u p c slack : List Char) (hu : u ≠ []) (hp : p ≠ []) (hc : c ≠ [])
    (hu' : ∀ x ∈ u, x ≠ ' ' ∧ x ≠ NUL) (hp' : ∀ x ∈ p, x ≠ ' ' ∧ x ≠ NUL)
    (hc' : ∀ x ∈ c, x ≠ ' ' ∧ x ≠ NUL) :
    Raii.handle_command_payload (cline ("/login ".toList ++ u ++ " ".toList ++ p) slack) =
      .ok ["String created: ".toList ++ u ++ "\n".toList,
           "String created: ".toList ++ p ++ "\n".toList,
           "Command: login\n  Arguments: [username: ".toList ++ u ++ ", password:".toList ++
             p ++ "]".toList ++ "\n".toList,
           "String destroyed: ".toList ++ p ++ "\n".toList,
           "String destroyed: ".toList ++ u ++ "\n".toList,
           "\n".toList] ∧
    Raii.handle_command_payload (cline ("/join ".toList ++ c) slack) =
      .ok ["String created: ".toList ++ c ++ "\n".toList,
           "Command: join\n  Arguments: [channel: ".toList ++ c ++ "]".toList ++ "\n".toList,
           "String destroyed: ".toList ++ c ++ "\n".toList,
           "\n".toList] ∧
    Raii.handle_command_payload (cline "/logout".toList slack) =
      .ok ["Command: logout\n  Arguments: []".toList ++ "\n".toList, "\n".toList] :=
  ⟨raii_login u p slack hu hp hu' hp', raii_join c slack hc hc', raii_logout slack⟩

theorem raii_string_log_witness :
    Raii.handle_command_payload (cline "/login metw password123".toList []) =
      .ok ["String created: metw\n".toList,
           "String created: password123\n".toList,
           "Command: login\n  Arguments: [username: metw, password:password123]\n".toList,
           "String destroyed: password123\n".toList,
           "String destroyed: metw\n".toList,
           "\n".toList] ∧
    Raii.handle_command_payload (cline "/join channel123".toList []) =
      .ok ["String created: channel123\n".toList,
           "Command: join\n  Arguments: [channel: channel123]\n".toList,
           "String destroyed: channel123\n".toList,
           "\n".toList] ∧
    Raii.handle_command_payload (cline "/logout".toList []) =
      .ok ["Command: logout\n  Arguments: []\n".toList, "\n".toList] :=
  raii_string_log "metw".toList "password123".toList "channel123".toList []
    (by decide) (by decide) (by decide) (by decide) (by decide) (by decide)

/-- Claim C20 (group messages in the milestone-00 dispatcher), at the line
`#general test 123`: `handle_payload` prints `Direct message to general`, the
text of the `@` case, which the `#` case shares; a line without prefix is
printed as a global message. -/
theorem handle_payload_group_prints_direct :
    Milestone00.handle_payload (cline "#general test 123".toList []) =
      .ok ["Direct message to general: test 123\n".toList] ∧
    Milestone00.handle_payload (cline "global message".toList []) =
      .ok ["Global message: global message\n".toList] :=
  ⟨by decide, by decide⟩

/-! ## Allocation and release -/

theorem heap_free_ok (h : Alloc.heap) (xs L : List Nat) (a : Nat)
    (hl : h.live = xs ++ L) (ha : a ∈ xs) :
    h.free a = .ok ⟨h.next, xs.erase a ++ L⟩ := by
  have hm : a ∈ xs ++ L := List.mem_append_left _ ha
  simp only [Alloc.heap.free, hl, if_pos hm, List.erase_append_left _ ha]

theorem free_list_perm (as xs L : List Nat) (h : Alloc.heap)
    (hl : h.live = xs ++ L) (hp : as.Perm xs) (hn : as.Nodup) :
    Alloc.free_list as h = .ok ⟨h.next, L⟩ := by
  induction as generalizing xs h with
  | nil =>
    have hx : xs = [] := List.Perm.eq_nil hp.symm
    subst hx
    simp only [Alloc.free_list]
    congr 1
    cases h
    simpa using hl
  | cons a as ih =>
    have ha : a ∈ xs := hp.subset (by simp)
    have hp' : as.Perm (xs.erase a) := by
      have := hp.erase a
      simpa using this
    have hn' : as.Nodup := (List.nodup_cons.mp hn).2
    rw [Alloc.free_list, heap_free_ok h xs L a hl ha, ok_bind]
    exact ih (xs.erase a) ⟨h.next, xs.erase a ++ L⟩ rfl hp' hn'

theorem free_list_append (as bs : List Nat) (h : Alloc.heap) :
    Alloc.free_list (as ++ bs) h = (Alloc.free_list as h >>= Alloc.free_list bs) := by
  induction as generalizing h with
  | nil => rfl
  | cons a as ih =>
    show Alloc.free_list (a :: (as ++ bs)) h = _
    simp only [Alloc.free_list]
    cases hf : h.free a with
    | ok h' => simp only [ok_bind, ih]
    | abort => rfl
    | undefined => rfl
    | fuel_out => rfl

theorem destroy_message_loop_built
    (es : List (message_receiving_entity_vtable × Alloc.ptr Block))
    (pre : List Alloc.message_receiving_entity) (h : Alloc.heap)
    (hes : ∀ e ∈ es, e.1 = .direct_message_vtable ∨ e.1 = .group_message_vtable) :
    Alloc.destroy_message_loop (pre ++ Alloc.built es) es.length pre.length h =
      Alloc.free_list (es.map fun e => e.2.addr) h := by
  induction es generalizing pre h with
  | nil => rfl
  | cons e es ih =>
    have hget : (pre ++ Alloc.built (e :: es))[pre.length]? = some ⟨some e.1, some e.2⟩ := by
      rw [List.getElem?_append_right (le_refl _)]
      simp [Alloc.built]
    have hcall : Alloc.call_destroy ⟨some e.1, some e.2⟩ h = h.free e.2.addr := by
      rcases hes e (by simp) with h1 | h1 <;>
        simp [Alloc.call_destroy, h1, Alloc.destroy_group_or_direct_message]
    have ih' : ∀ h', Alloc.destroy_message_loop (pre ++ Alloc.built (e :: es)) es.length
        (pre.length + 1) h' = Alloc.free_list (es.map fun e => e.2.addr) h' := by
      intro h'
      have := ih (pre ++ [⟨some e.1, some e.2⟩]) h' (fun x hx => hes x (by simp [hx]))
      simpa [Alloc.built] using this
    simp only [List.length_cons, Alloc.destroy_message_loop, hget, hcall, List.map_cons,
      Alloc.free_list]
    cases hf : h.free e.2.addr with
    | ok h' => simp only [ok_bind, ih']
    | abort => rfl
    | undefined => rfl
    | fuel_out => rfl

theorem alloc_extract_token_inv (raw : List Char) (h h' : Alloc.heap)
    (r : Option (Alloc.ptr Block)) (hx : Alloc.extract_token raw h = .ok (r, h')) :
    (r = none ∧ h' = h) ∨
    (∃ blk, r = some ⟨h.next, blk⟩ ∧ h' = ⟨h.next + 1, h.next :: h.live⟩) := by
  unfold Alloc.extract_token at hx
  obtain ⟨e, -, hx⟩ := bind_eq_ok hx
  by_cases he : e = 0
  · rw [if_pos he] at hx
    cases hx
    exact Or.inl ⟨rfl, rfl⟩
  · rw [if_neg he] at hx
    simp only [Alloc.heap.malloc] at hx
    obtain ⟨t1, -, hx⟩ := bind_eq_ok hx
    obtain ⟨t2, -, hx⟩ := bind_eq_ok hx
    cases hx
    exact Or.inr ⟨t2, rfl, rfl⟩

theorem alloc_extract_token_some (raw : List Char) (h h' : Alloc.heap)
    (r : Option (Alloc.ptr Block)) (p : Alloc.ptr Block)
    (hx : Alloc.extract_token raw h = .ok (r, h')) (ha : assert_ptr r = .ok p) :
    p.addr = h.next ∧ h' = ⟨h.next + 1, h.next :: h.live⟩ := by
  have hr := assert_ptr_eq_ok ha
  subst hr
  rcases alloc_extract_token_inv raw h h' _ hx with ⟨h1, -⟩ | ⟨blk, h1, h2⟩
  · cases h1
  · cases h1
    exact ⟨rfl, h2⟩

theorem alloc_parse_command (p q : Alloc.payload) (raw : List Char)
    (out : List (List Char)) (h0 h1 : Alloc.heap) (hraw : raw.head? = some '/')
    (h : Alloc.parse_payload p raw h0 = .ok ((true, q, out), h1)) :
    ∃ xs h2, h1.live = xs ++ h0.live ∧ xs.Perm q.owned ∧ q.owned.Nodup ∧
      q.destroy h1 = .ok h2 ∧ h2.live = h0.live := by
  cases raw with
  | nil => simp at hraw
  | cons c0 rest =>
    have hc : c0 = '/' := by simpa using hraw
    subst hc
    unfold Alloc.parse_payload at h
    obtain ⟨c, hload, h⟩ := bind_eq_ok h
    have hc : c = '/' := by
      simp [load] at hload
      exact hload.symm
    subst hc
    rw [if_pos rfl] at h
    obtain ⟨⟨i, cmd⟩, -, h⟩ := bind_eq_ok h
    obtain ⟨cmd', -, h⟩ := bind_eq_ok h
    obtain ⟨b1, -, h⟩ := bind_eq_ok h
    cases b1 with
    | true =>
      rw [if_pos rfl] at h
      obtain ⟨⟨r1, hA⟩, he1, h⟩ := bind_eq_ok h
      obtain ⟨username, ha1, h⟩ := bind_eq_ok h
      obtain ⟨n, -, h⟩ := bind_eq_ok h
      obtain ⟨⟨r2, hB⟩, he2, h⟩ := bind_eq_ok h
      obtain ⟨password, ha2, h⟩ := bind_eq_ok h
      cases h
      obtain ⟨hu, rfl⟩ := alloc_extract_token_some _ _ _ _ _ he1 ha1
      obtain ⟨hp, rfl⟩ := alloc_extract_token_some _ _ _ _ _ he2 ha2
      simp only at hp
      have hne : h0.next ≠ h0.next + 1 := by omega
      refine ⟨[h0.next + 1, h0.next], ⟨h0.next + 1 + 1, h0.live⟩, rfl, ?_, ?_, ?_, rfl⟩
      · simp only [Alloc.payload.owned, hu, hp]
        exact List.Perm.swap _ _ _
      · simp [Alloc.payload.owned, hu, hp]
      · simp only [Alloc.payload.destroy, Alloc.destroy_command_login, hu, hp]
        rw [heap_free_ok _ [h0.next + 1, h0.next] h0.live h0.next rfl (by simp), ok_bind,
          heap_free_ok _ [h0.next + 1] h0.live (h0.next + 1) (by simp [hne]) (by simp)]
        simp
    | false =>
      rw [if_neg (by simp)] at h
      obtain ⟨b2, -, h⟩ := bind_eq_ok h
      cases b2 with
      | true =>
        rw [if_pos rfl] at h
        obtain ⟨⟨r1, hA⟩, he1, h⟩ := bind_eq_ok h
        obtain ⟨channel, ha1, h⟩ := bind_eq_ok h
        cases h
        obtain ⟨hu, rfl⟩ := alloc_extract_token_some _ _ _ _ _ he1 ha1
        refine ⟨[h0.next], ⟨h0.next + 1, h0.live⟩, rfl, ?_, ?_, ?_, rfl⟩
        · simp [Alloc.payload.owned, hu]
        · simp [Alloc.payload.owned]
        · simp only [Alloc.payload.destroy, Alloc.destroy_command_join, hu]
          rw [heap_free_ok _ [h0.next] h0.live h0.next rfl (by simp)]
          simp
      | false =>
        rw [if_neg (by simp)] at h
        obtain ⟨b3, -, h⟩ := bind_eq_ok h
        cases b3 with
        | true =>
          rw [if_pos rfl] at h
          cases h
          exact ⟨[], h0, by simp, by simp [Alloc.payload.owned],
            by simp [Alloc.payload.owned], rfl, rfl⟩
        | false =>
          rw [if_neg (by simp)] at h
          obtain ⟨name, -, h⟩ := bind_eq_ok h
          cases h

theorem alloc_built_length (es : List (message_receiving_entity_vtable × Alloc.ptr Block)) :
    (Alloc.built es).length = es.length := by
  simp [Alloc.built]

theorem alloc_array_of_ne_nil (es : List (message_receiving_entity_vtable × Alloc.ptr Block))
    (h : es ≠ []) : Alloc.array_of es = Alloc.built es := by
  cases es with
  | nil => exact absurd rfl h
  | cons e es => rfl

theorem alloc_store_entity_push (es : List (message_receiving_entity_vtable × Alloc.ptr Block))
    (e : message_receiving_entity_vtable × Alloc.ptr Block)
    (x : Alloc.message_receiving_entity) :
    Alloc.store_entity (Alloc.built es ++ [x]) es.length ⟨some e.1, some e.2⟩ =
      .ok (Alloc.array_of (es ++ [e])) := by
  have hne : es ++ [e] ≠ [] := by simp
  have hlen : es.length = (Alloc.built es).length := (alloc_built_length es).symm
  rw [alloc_array_of_ne_nil _ hne]
  simp only [Alloc.store_entity, List.length_append, List.length_singleton,
    alloc_built_length, Nat.lt_succ_self, if_true]
  congr 1
  rw [hlen, List.set_append_right _ _ (le_refl _)]
  simp [Alloc.built]

theorem alloc_iteration_inv (L0 : List Nat)
    (receivers recv1 : Alloc.ptr (List Alloc.message_receiving_entity))
    (count off ne : Nat) (h hB : Alloc.heap) (c : Char) (nm : Block)
    (target : List Alloc.message_receiving_entity)
    (hinv : Alloc.loop_inv L0 receivers count off h)
    (hre : (if count ≥ 1 then
        Alloc.realloc receivers (count + 1) ⟨h.next + 1, h.next :: h.live⟩
      else .ok (receivers, ⟨h.next + 1, h.next :: h.live⟩)) = .ok (recv1, hB))
    (hst : Alloc.store_entity recv1.target count
      { additional_info := some ⟨h.next, nm⟩,
        vtable := some (if c = '@' then .direct_message_vtable
                        else .group_message_vtable) } = .ok target) :
    Alloc.loop_inv L0 ⟨recv1.addr, target⟩ (count + 1) (ne + 1) hB := by
  obtain ⟨es, xs, hlive, hnd, hmem, hlt, hnd2, hcount, hkind, htarget, hoff⟩ := hinv
  have hr_mem : receivers.addr ∈ xs := (hmem _).mpr (Or.inl rfl)
  have hr_lt : receivers.addr < h.next := hlt _ hr_mem
  have hnames_lt : ∀ a ∈ es.map (fun e => e.2.addr), a < h.next :=
    fun a ha => hlt a ((hmem a).mpr (Or.inr ha))
  have hnext_names : h.next ∉ es.map (fun e => e.2.addr) :=
    fun hx => Nat.lt_irrefl _ (hnames_lt _ hx)
  have hnames_nd : (es.map (fun e => e.2.addr)).Nodup := (List.nodup_cons.mp hnd2).2
  have hr_names : receivers.addr ∉ es.map (fun e => e.2.addr) :=
    (List.nodup_cons.mp hnd2).1
  refine ⟨es ++ [(if c = '@' then .direct_message_vtable else .group_message_vtable,
    ⟨h.next, nm⟩)], ?_⟩
  by_cases hk : count ≥ 1
  · -- the array is reallocated
    rw [if_pos hk] at hre
    unfold Alloc.realloc at hre
    obtain ⟨hF, hfree, hre⟩ := bind_eq_ok hre
    have hl1 : (⟨h.next + 1, h.next :: h.live⟩ : Alloc.heap).live =
        (h.next :: xs) ++ L0 := by
      simp [hlive]
    rw [heap_free_ok _ (h.next :: xs) L0 receivers.addr hl1
      (List.mem_cons_of_mem _ hr_mem)] at hfree
    cases hfree
    simp only [Alloc.heap.malloc] at hre
    cases hre
    have hes : es ≠ [] := by
      rintro rfl
      simp at hcount
      omega
    have herase : (h.next :: xs).erase receivers.addr =
        h.next :: xs.erase receivers.addr := by
      rw [List.erase_cons_tail]
      simp
      omega
    have hmem_erase : ∀ a, a ∈ xs.erase receivers.addr ↔
        a ∈ es.map (fun e => e.2.addr) := by
      intro a
      rw [hnd.mem_erase_iff, hmem]
      constructor
      · rintro ⟨h1, h2 | h2⟩
        · exact absurd h2 h1
        · exact h2
      · intro h2
        exact ⟨fun e => hr_names (e ▸ h2), Or.inr h2⟩
    refine ⟨(h.next + 1) :: h.next :: xs.erase receivers.addr, ?_, ?_, ?_, ?_, ?_, ?_,
      ?_, ?_, ?_⟩
    · simp [herase]
    · refine List.nodup_cons.mpr ⟨?_, List.nodup_cons.mpr ⟨?_, hnd.erase _⟩⟩
      · intro hx
        rcases List.mem_cons.mp hx with hx | hx
        · omega
        · have := hlt _ (List.mem_of_mem_erase hx)
          omega
      · intro hx
        have := hlt _ (List.mem_of_mem_erase hx)
        omega
    · intro a
      simp only [List.mem_cons, hmem_erase, List.map_append, List.map_cons, List.map_nil,
        List.mem_append, List.mem_singleton]
      tauto
    · intro a ha
      simp only [List.mem_cons] at ha
      rcases ha with rfl | rfl | ha
      · show _ < h.next + 1 + 1
        omega
      · show _ < h.next + 1 + 1
        omega
      · have := hlt _ (List.mem_of_mem_erase ha)
        show _ < h.next + 1 + 1
        omega
    · simp only [List.map_append, List.map_cons, List.map_nil]
      refine List.nodup_cons.mpr ⟨?_, ?_⟩
      · intro hx
        rcases List.mem_append.mp hx with hx | hx
        · have := hnames_lt _ hx
          omega
        · simp at hx
      · refine List.Nodup.append hnames_nd (List.nodup_singleton _) ?_
        intro a ha hb
        simp at hb
        subst hb
        exact hnext_names ha
    · simp [hcount]
    · intro e he
      rcases List.mem_append.mp he with he | he
      · exact hkind e he
      · simp at he
        subst he
        by_cases h1 : c = '@' <;> simp [h1]
    · have ht : receivers.target.take (count + 1) ++
          List.replicate (count + 1 - receivers.target.length) Alloc.fresh_entity =
          Alloc.built es ++ [Alloc.fresh_entity] := by
        rw [htarget, alloc_array_of_ne_nil es hes, List.take_of_length_le
          (by rw [alloc_built_length]; omega), alloc_built_length, hcount]
        simp
      simp only [ht] at hst
      rw [hcount] at hst
      have := alloc_store_entity_push es
        (if c = '@' then .direct_message_vtable else .group_message_vtable, ⟨h.next, nm⟩)
        Alloc.fresh_entity
      simp only at this
      rw [this] at hst
      cases hst
      rfl
    · simp
  · -- the first token
    rw [if_neg hk] at hre
    cases hre
    have hes : es = [] := by
      have : es.length = 0 := by omega
      exact List.length_eq_zero.mp this
    subst hes
    refine ⟨h.next :: xs, ?_, ?_, ?_, ?_, ?_, ?_, ?_, ?_, ?_⟩
    · simp [hlive]
    · refine List.nodup_cons.mpr ⟨?_, hnd⟩
      intro hx
      exact Nat.lt_irrefl _ (hlt _ hx)
    · intro a
      simp only [List.mem_cons, hmem, List.map_nil, List.not_mem_nil, or_false,
        List.nil_append, List.map_cons]
      tauto
    · intro a ha
      rcases List.mem_cons.mp ha with rfl | ha
      · simp
      · have := hlt _ ha
        simp
        omega
    · simp
      omega
    · simp [hcount]
    · intro e he
      simp at he
      subst he
      by_cases h1 : c = '@' <;> simp [h1]
    · simp only [htarget, Alloc.array_of, hcount, List.length_nil] at hst
      simp only [Alloc.store_entity, List.length_singleton, Nat.lt_one_iff, if_true,
        List.set_cons_zero] at hst
      cases hst
      rfl
    · simp

theorem alloc_receiver_loop_inv (raw : List Char) (L0 : List Nat) (fuel : Nat)
    (receivers receivers' : Alloc.ptr (List Alloc.message_receiving_entity))
    (count off count' off' : Nat) (h h' : Alloc.heap)
    (hinv : Alloc.loop_inv L0 receivers count off h)
    (hloop : Alloc.receiver_loop raw fuel receivers count off h =
      .ok (receivers', count', off', h')) :
    Alloc.loop_inv L0 receivers' count' off' h' := by
  induction fuel generalizing receivers count off h with
  | zero => rw [Alloc.receiver_loop] at hloop; cases hloop
  | succ fuel ih =>
    rw [Alloc.receiver_loop] at hloop
    obtain ⟨c, -, hloop⟩ := bind_eq_ok hloop
    by_cases hc : c = '@' ∨ c = '#'
    · rw [if_pos hc] at hloop
      obtain ⟨ne, -, hloop⟩ := bind_eq_ok hloop
      simp only [Alloc.heap.malloc] at hloop
      obtain ⟨nm1, -, hloop⟩ := bind_eq_ok hloop
      obtain ⟨nm, -, hloop⟩ := bind_eq_ok hloop
      obtain ⟨⟨recv1, hB⟩, hre, hloop⟩ := bind_eq_ok hloop
      obtain ⟨target, hst, hloop⟩ := bind_eq_ok hloop
      exact ih _ _ _ _ (alloc_iteration_inv L0 receivers recv1 count off ne h hB c nm target
        hinv hre hst) hloop
    · rw [if_neg hc] at hloop
      cases hloop
      exact hinv

theorem bind_ok_right {α : Type} (x : Outcome α) : (x >>= Outcome.ok) = x := by
  cases x <;> rfl

theorem alloc_owned_names (es : List (message_receiving_entity_vtable × Alloc.ptr Block))
    (hes : ∀ e ∈ es, e.1 = .direct_message_vtable ∨ e.1 = .group_message_vtable) :
    (Alloc.built es).filterMap (fun r =>
      match r.vtable, r.additional_info with
      | some .direct_message_vtable, some p => some p.addr
      | some .group_message_vtable, some p => some p.addr
      | _, _ => none) = es.map (fun e => e.2.addr) := by
  induction es with
  | nil => rfl
  | cons e es ih =>
    have ih' := ih (fun x hx => hes x (by simp [hx]))
    simp only [Alloc.built] at ih'
    rcases hes e (by simp) with h1 | h1 <;>
      simp [Alloc.built, List.filterMap_cons, h1, ih']

theorem alloc_destroy_message (L0 : List Nat)
    (es : List (message_receiving_entity_vtable × Alloc.ptr Block))
    (target : List Alloc.message_receiving_entity) (count r ac : Nat)
    (content : Block) (h : Alloc.heap) (xs : List Nat)
    (hlive : h.live = xs ++ L0)
    (hloop : ∀ h', Alloc.destroy_message_loop target count 0 h' =
      Alloc.free_list (es.map fun e => e.2.addr) h')
    (hperm : (es.map (fun e => e.2.addr) ++ [ac, r]).Perm xs)
    (hnd : (es.map (fun e => e.2.addr) ++ [ac, r]).Nodup) :
    Alloc.destroy_message
      ⟨some .message_vtable, .message ⟨r, target⟩ ⟨ac, content⟩ count⟩ h =
      .ok ⟨h.next, L0⟩ := by
  have hf := free_list_perm _ xs L0 h hlive hperm hnd
  rw [free_list_append] at hf
  simp only [Alloc.destroy_message, hloop]
  cases hl : Alloc.free_list (es.map fun e => e.2.addr) h with
  | ok h' =>
    rw [hl, ok_bind] at hf
    simp only [Alloc.free_list] at hf
    rw [ok_bind]
    cases hc : h'.free ac with
    | ok h'' =>
      rw [hc, ok_bind] at hf
      rw [ok_bind]
      rw [← hf]
      exact (bind_ok_right _).symm
    | abort => rw [hc] at hf; cases hf
    | undefined => rw [hc] at hf; cases hf
    | fuel_out => rw [hc] at hf; cases hf
  | abort => rw [hl] at hf; cases hf
  | undefined => rw [hl] at hf; cases hf
  | fuel_out => rw [hl] at hf; cases hf

theorem alloc_message_constructor (p q : Alloc.payload) (raw : List Char)
    (h0 h1 : Alloc.heap) (h : Alloc.message_constructor p raw h0 = .ok (q, h1)) :
    ∃ xs h2, h1.live = xs ++ h0.live ∧ xs.Perm q.owned ∧ q.owned.Nodup ∧
      q.destroy h1 = .ok h2 ∧ h2.live = h0.live := by
  unfold Alloc.message_constructor at h
  simp only [Alloc.heap.malloc] at h
  obtain ⟨⟨receivers, count, off, hL⟩, hloop, h⟩ := bind_eq_ok h
  have hinit : Alloc.loop_inv h0.live ⟨h0.next, [Alloc.fresh_entity]⟩ 0 0
      ⟨h0.next + 1, h0.next :: h0.live⟩ :=
    ⟨[], [h0.next], rfl, by simp, by simp, by simp, by simp, rfl, by simp, rfl, by simp⟩
  obtain ⟨es, xs, hlive, hnd, hmem, hlt, hnd2, hcount, hkind, htarget, hoff⟩ :=
    alloc_receiver_loop_inv raw h0.live _ _ _ _ _ _ _ _ _ hinit hloop
  obtain ⟨⟨target, count2⟩, hset, h⟩ := bind_eq_ok h
  obtain ⟨len, -, h⟩ := bind_eq_ok h
  by_cases hle : off ≤ len
  · rw [if_pos hle] at h
    obtain ⟨content, -, h⟩ := bind_eq_ok h
    cases h
    -- the addresses
    have hr_mem : receivers.addr ∈ xs := (hmem _).mpr (Or.inl rfl)
    have hr_lt : receivers.addr < hL.next := hlt _ hr_mem
    have hnames_lt : ∀ a ∈ es.map (fun e => e.2.addr), a < hL.next :=
      fun a ha => hlt a ((hmem a).mpr (Or.inr ha))
    have hnames_nd : (es.map (fun e => e.2.addr)).Nodup := (List.nodup_cons.mp hnd2).2
    have hr_names : receivers.addr ∉ es.map (fun e => e.2.addr) :=
      (List.nodup_cons.mp hnd2).1
    have hac_names : hL.next ∉ es.map (fun e => e.2.addr) :=
      fun hx => Nat.lt_irrefl _ (hnames_lt _ hx)
    have hac_xs : hL.next ∉ xs := fun hx => Nat.lt_irrefl _ (hlt _ hx)
    have hnd_xs : (hL.next :: xs).Nodup := List.nodup_cons.mpr ⟨hac_xs, hnd⟩
    have hnd_as : (es.map (fun e => e.2.addr) ++ [hL.next, receivers.addr]).Nodup := by
      refine List.Nodup.append hnames_nd ?_ ?_
      · simp
        omega
      · intro a ha hb
        simp at hb
        rcases hb with rfl | rfl
        · exact hac_names ha
        · exact hr_names ha
    have hperm : (es.map (fun e => e.2.addr) ++ [hL.next, receivers.addr]).Perm
        (hL.next :: xs) := by
      rw [List.perm_ext_iff_of_nodup hnd_as hnd_xs]
      intro a
      simp only [List.mem_append, List.mem_cons, hmem, List.mem_singleton, List.not_mem_nil,
        or_false]
      tauto
    have hnd_owned : (hL.next :: receivers.addr :: es.map (fun e => e.2.addr)).Nodup := by
      refine List.nodup_cons.mpr ⟨?_, hnd2⟩
      intro hx
      rcases List.mem_cons.mp hx with hx | hx
      · omega
      · exact hac_names hx
    have hperm_owned : (hL.next :: xs).Perm
        (hL.next :: receivers.addr :: es.map (fun e => e.2.addr)) := by
      rw [List.perm_ext_iff_of_nodup hnd_xs hnd_owned]
      intro a
      simp only [List.mem_cons, hmem]
    have hlive1 : (⟨hL.next + 1, hL.next :: hL.live⟩ : Alloc.heap).live =
        (hL.next :: xs) ++ h0.live := by
      simp [hlive]
    -- the array and the count
    have hshape : (target.take count2).filterMap (fun r =>
          match r.vtable, r.additional_info with
          | some .direct_message_vtable, some p => some p.addr
          | some .group_message_vtable, some p => some p.addr
          | _, _ => none) = es.map (fun e => e.2.addr) ∧
        ∀ h', Alloc.destroy_message_loop target count2 0 h' =
          Alloc.free_list (es.map fun e => e.2.addr) h' := by
      by_cases h00 : off = 0
      · have hes : es = [] := hoff.mp h00
        subst hes
        rw [if_pos h00, htarget] at hset
        simp only [Alloc.array_of, Alloc.set_global, Alloc.fresh_entity, ok_bind] at hset
        cases hset
        exact ⟨rfl, fun h' => rfl⟩
      · have hes : es ≠ [] := fun e => h00 (hoff.mpr e)
        rw [if_neg h00, htarget, alloc_array_of_ne_nil es hes] at hset
        cases hset
        refine ⟨?_, ?_⟩
        · rw [hcount, List.take_of_length_le (by rw [alloc_built_length])]
          exact alloc_owned_names es hkind
        · intro h'
          have := destroy_message_loop_built es [] h' hkind
          rw [hcount]
          simpa using this
    refine ⟨hL.next :: xs, ⟨hL.next + 1, h0.live⟩, hlive1, ?_, ?_, ?_, rfl⟩
    · simp only [Alloc.payload.owned, hshape.1]
      exact hperm_owned
    · simp only [Alloc.payload.owned, hshape.1]
      exact hnd_owned
    · simp only [Alloc.payload.destroy]
      exact alloc_destroy_message h0.live es target count2 receivers.addr hL.next content
        ⟨hL.next + 1, hL.next :: hL.live⟩ (hL.next :: xs) hlive1 hshape.2 hperm hnd_as
  · rw [if_neg hle] at h
    by_cases h2 : off = len + 1
    · rw [if_pos h2] at h
      cases h
    · rw [if_neg h2] at h
      cases h

/-- Claim C17 (exactly-once release).  When `parse_payload` returns `true`, the
blocks it has allocated and left live are the blocks that the payload owns
(username and password, or the channel, or nothing, or the content, the
receivers array and the names of the Direct and Group receivers), all distinct;
the `destroy` operation of the payload returns, every `free` in it being given
a live block, and afterwards the live blocks are those that were live before
the call of `parse_payload`. -/
theorem destroy_releases_allocated (p q : Alloc.payload) (raw : List Char)
    (out : List (List Char)) (h0 h1 : Alloc.heap)
    (h : Alloc.parse_payload p raw h0 = .ok ((true, q, out), h1)) :
    ∃ xs h2, h1.live = xs ++ h0.live ∧ xs.Perm q.owned ∧ q.owned.Nodup ∧
      q.destroy h1 = .ok h2 ∧ h2.live = h0.live := by
  by_cases hraw : raw.head? = some '/'
  · exact alloc_parse_command p q raw out h0 h1 hraw h
  · cases raw with
    | nil => simp [Alloc.parse_payload, load] at h
    | cons c rest =>
      have hc : c ≠ '/' := fun e => hraw (by simp [e])
      unfold Alloc.parse_payload at h
      obtain ⟨c0, hload, h⟩ := bind_eq_ok h
      have hc0 : c0 = c := by
        simp [load] at hload
        exact hload.symm
      subst hc0
      rw [if_neg hc] at h
      obtain ⟨⟨q', h1'⟩, hm, h⟩ := bind_eq_ok h
      cases h
      exact alloc_message_constructor p q (c0 :: rest) h0 h1 hm

theorem destroy_releases_allocated_witness :
    ∃ xs h2,
      (⟨12, [11, 10, 9, 7, 6, 1, 3]⟩ : Alloc.heap).live = xs ++ (⟨5, [1, 3]⟩ : Alloc.heap).live ∧
      xs.Perm (Alloc.payload.owned ⟨some .message_vtable,
        .message ⟨10, [⟨some .direct_message_vtable, some ⟨6, cblock "alice".toList⟩⟩,
                       ⟨some .group_message_vtable, some ⟨7, cblock "general".toList⟩⟩,
                       ⟨some .direct_message_vtable, some ⟨9, cblock "bob".toList⟩⟩]⟩
          ⟨11, cblock "hi".toList⟩ 3⟩) ∧
      (Alloc.payload.owned ⟨some .message_vtable,
        .message ⟨10, [⟨some .direct_message_vtable, some ⟨6, cblock "alice".toList⟩⟩,
                       ⟨some .group_message_vtable, some ⟨7, cblock "general".toList⟩⟩,
                       ⟨some .direct_message_vtable, some ⟨9, cblock "bob".toList⟩⟩]⟩
          ⟨11, cblock "hi".toList⟩ 3⟩).Nodup ∧
      Alloc.payload.destroy ⟨some .message_vtable,
        .message ⟨10, [⟨some .direct_message_vtable, some ⟨6, cblock "alice".toList⟩⟩,
                       ⟨some .group_message_vtable, some ⟨7, cblock "general".toList⟩⟩,
                       ⟨some .direct_message_vtable, some ⟨9, cblock "bob".toList⟩⟩]⟩
          ⟨11, cblock "hi".toList⟩ 3⟩ ⟨12, [11, 10, 9, 7, 6, 1, 3]⟩ = .ok h2 ∧
      h2.live = (⟨5, [1, 3]⟩ : Alloc.heap).live :=
  destroy_releases_allocated ⟨none, .indeterminate⟩ _
    (cline "@alice #general @bob hi".toList []) [] ⟨5, [1, 3]⟩ _ (by decide)

theorem string_at_cline (s rest : List Char) (h : NUL ∉ s) :
    string_at (s ++ NUL :: rest) = .ok s := by
  induction s with
  | nil => simp [string_at]
  | cons c s ih =>
    have hc : c ≠ NUL := fun e => h (by simp [e])
    have hs : NUL ∉ s := fun e => h (by simp [e])
    simp [string_at, hc, ih hs]

theorem handle_payload_receiver_line (pfx : Char) (c content slack : List Char)
    (hpfx : pfx = '@' ∨ pfx = '#') (hc : c ≠ [])
    (hc' : ∀ x ∈ c, x ≠ ' ' ∧ x ≠ NUL) (hcontent : NUL ∉ content) :
    Milestone00.handle_payload (cline (pfx :: c ++ ' ' :: content) slack) =
      .ok ["Direct message to ".toList ++ c ++ ": ".toList ++ content ++ "\n".toList] := by
  have hraw : cline (pfx :: c ++ ' ' :: content) slack =
      pfx :: (c ++ ' ' :: (content ++ NUL :: slack)) := by
    simp [cline]
  have h1 := strtok_r_token c ' ' (content ++ NUL :: slack) hc hc' (Or.inl rfl)
  rw [if_neg (by decide)] at h1
  have hne : pfx ≠ '/' := by
    rcases hpfx with rfl | rfl <;> decide
  rw [hraw]
  simp only [Milestone00.handle_payload, load, List.getElem?_cons_zero, ok_bind, if_neg hne,
    if_pos hpfx, List.drop_succ_cons, List.drop_zero, h1, string_of_ptr,
    string_at_cline content slack hcontent]

theorem handle_payload_global_line (line slack : List Char)
    (h : line.head? ≠ some '/' ∧ line.head? ≠ some '@' ∧ line.head? ≠ some '#')
    (hnul : NUL ∉ line) :
    Milestone00.handle_payload (cline line slack) =
      .ok ["Global message: ".toList ++ line ++ "\n".toList] := by
  have hs := string_at_cline line slack hnul
  cases line with
  | nil =>
    have h0 : load (cline [] slack) 0 = .ok NUL := by simp [cline, load]
    simp only [Milestone00.handle_payload, h0, ok_bind]
    rw [if_neg (by decide), if_neg (by decide)]
    simp only [cline] at hs ⊢
    rw [hs]
    rfl
  | cons c line =>
    have h0 : load (cline (c :: line) slack) 0 = .ok c := by simp [cline, load]
    have h1 : c ≠ '/' := fun e => h.1 (by simp [e])
    have h2 : ¬ (c = '@' ∨ c = '#') := by
      rintro (e | e)
      · exact h.2.1 (by simp [e])
      · exact h.2.2 (by simp [e])
    simp only [Milestone00.handle_payload, h0, ok_bind, if_neg h1, if_neg h2]
    simp only [cline] at hs ⊢
    rw [hs]
    rfl

theorem alloc_parse_then_destroy_examples :
    (Alloc.parse_payload ⟨none, .indeterminate⟩ (cline "/login metw password123".toList [])
        ⟨0, []⟩ >>= fun r => r.1.2.1.destroy r.2) = .ok ⟨2, []⟩ ∧
    (Alloc.parse_payload ⟨none, .indeterminate⟩ (cline "/join channel123".toList [])
        ⟨0, []⟩ >>= fun r => r.1.2.1.destroy r.2) = .ok ⟨1, []⟩ ∧
    (Alloc.parse_payload ⟨none, .indeterminate⟩ (cline "/logout".toList [])
        ⟨0, []⟩ >>= fun r => r.1.2.1.destroy r.2) = .ok ⟨0, []⟩ ∧
    (Alloc.parse_payload ⟨none, .indeterminate⟩ (cline "#general test 123".toList [])
        ⟨0, []⟩ >>= fun r => r.1.2.1.destroy r.2) = .ok ⟨3, []⟩ ∧
    (Alloc.parse_payload ⟨none, .indeterminate⟩ (cline "global message".toList [])
        ⟨0, []⟩ >>= fun r => r.1.2.1.destroy r.2) = .ok ⟨2, []⟩ :=
  ⟨by decide, by decide, by decide, by decide, by decide⟩

/-! ## The two embeddings of `parse_payload` agree -/

theorem erase_realloc (t : List Alloc.message_receiving_entity) (n : Nat) :
    realloc (t.map Alloc.message_receiving_entity.erase) n =
      (t.take n ++ List.replicate (n - t.length) Alloc.fresh_entity).map
        Alloc.message_receiving_entity.erase := by
  simp [realloc, List.map_take, Alloc.fresh_entity, fresh_entity,
    Alloc.message_receiving_entity.erase]

theorem erase_store (t : List Alloc.message_receiving_entity) (count : Nat)
    (e : Alloc.message_receiving_entity) (rsv : List message_receiving_entity)
    (h : store_entity (t.map Alloc.message_receiving_entity.erase) count e.erase = .ok rsv) :
    Alloc.store_entity t count e = .ok (t.set count e) ∧
      rsv = (t.set count e).map Alloc.message_receiving_entity.erase := by
  unfold store_entity at h
  by_cases hlt : count < (t.map Alloc.message_receiving_entity.erase).length
  · rw [if_pos hlt] at h
    cases h
    have hlt' : count < t.length := by simpa using hlt
    exact ⟨by simp [Alloc.store_entity, hlt'], by simp [List.map_set]⟩
  · rw [if_neg hlt] at h
    cases h

theorem alloc_receiver_loop_covers (raw : List Char) (L0 : List Nat) (fuel : Nat)
    (receivers : Alloc.ptr (List Alloc.message_receiving_entity))
    (count off : Nat) (h : Alloc.heap) (rsv' : List message_receiving_entity)
    (k' off' : Nat) (hinv : Alloc.loop_inv L0 receivers count off h)
    (hv : receiver_loop raw fuel (receivers.target.map Alloc.message_receiving_entity.erase)
      count off = .ok (rsv', k', off')) :
    ∃ receivers' h', Alloc.receiver_loop raw fuel receivers count off h =
        .ok (receivers', k', off', h') ∧
      rsv' = receivers'.target.map Alloc.message_receiving_entity.erase := by
  induction fuel generalizing receivers count off h with
  | zero => rw [receiver_loop] at hv; cases hv
  | succ fuel ih =>
    rw [receiver_loop] at hv
    obtain ⟨c, hload, hv⟩ := bind_eq_ok hv
    by_cases hc : c = '@' ∨ c = '#'
    · rw [if_pos hc] at hv
      obtain ⟨ne, hscan, hv⟩ := bind_eq_ok hv
      obtain ⟨nm1, hcopy, hv⟩ := bind_eq_ok hv
      obtain ⟨nm, hnul, hv⟩ := bind_eq_ok hv
      obtain ⟨rsv2, hst_v, hv⟩ := bind_eq_ok hv
      -- the array after `realloc`, if any
      obtain ⟨recv1, hB, hre, hre_v⟩ : ∃ recv1 hB,
          (if count ≥ 1 then
              Alloc.realloc receivers (count + 1) ⟨h.next + 1, h.next :: h.live⟩
            else .ok (receivers, ⟨h.next + 1, h.next :: h.live⟩)) = .ok (recv1, hB) ∧
          (if count ≥ 1 then
              realloc (receivers.target.map Alloc.message_receiving_entity.erase) (count + 1)
            else receivers.target.map Alloc.message_receiving_entity.erase) =
            recv1.target.map Alloc.message_receiving_entity.erase := by
        by_cases hk : count ≥ 1
        · obtain ⟨es, xs, hlive, -, hmem, -⟩ := hinv
          have hr_mem : receivers.addr ∈ xs := (hmem _).mpr (Or.inl rfl)
          have hl1 : (⟨h.next + 1, h.next :: h.live⟩ : Alloc.heap).live =
              (h.next :: xs) ++ L0 := by
            simp [hlive]
          refine ⟨⟨h.next + 1, receivers.target.take (count + 1) ++
              List.replicate (count + 1 - receivers.target.length) Alloc.fresh_entity⟩,
            ⟨h.next + 1 + 1, (h.next + 1) :: ((h.next :: xs).erase receivers.addr ++ L0)⟩,
            ?_, ?_⟩
          · rw [if_pos hk]
            unfold Alloc.realloc
            rw [heap_free_ok _ (h.next :: xs) L0 receivers.addr hl1
              (List.mem_cons_of_mem _ hr_mem), ok_bind]
            rfl
          · rw [if_pos hk]
            exact erase_realloc _ _
        · exact ⟨receivers, _, by rw [if_neg hk], by rw [if_neg hk]⟩
      have hst_v' : store_entity (recv1.target.map Alloc.message_receiving_entity.erase) count
          (Alloc.message_receiving_entity.erase
            { additional_info := some ⟨h.next, nm⟩,
              vtable := some (if c = '@' then .direct_message_vtable
                              else .group_message_vtable) }) = .ok rsv2 := by
        rw [← hre_v]
        exact hst_v
      obtain ⟨hst, hrsv2⟩ := erase_store _ _ _ _ hst_v'
      have hinv' := alloc_iteration_inv L0 receivers recv1 count off ne h hB c nm _ hinv hre hst
      rw [hrsv2] at hv
      obtain ⟨receivers', h', hloop, herase⟩ := ih ⟨recv1.addr, _⟩ _ _ hB hinv' hv
      refine ⟨receivers', h', ?_, herase⟩
      rw [Alloc.receiver_loop]
      simp only [hload, ok_bind, if_pos hc, hscan, Alloc.heap.malloc, hcopy, hnul, hre, hst,
        hloop]
    · rw [if_neg hc] at hv
      cases hv
      refine ⟨receivers, h, ?_, rfl⟩
      rw [Alloc.receiver_loop]
      simp only [hload, ok_bind, if_neg hc]


theorem erase_set_global (t : List Alloc.message_receiving_entity)
    (r : List message_receiving_entity)
    (h : set_global (t.map Alloc.message_receiving_entity.erase) = .ok r) :
    ∃ t', Alloc.set_global t = .ok t' ∧
      r = t'.map Alloc.message_receiving_entity.erase := by
  cases t with
  | nil => cases h
  | cons e rest =>
    refine ⟨{ e with vtable := some .global_message_vtable } :: rest, rfl, ?_⟩
    have h' : Outcome.ok
        (({ e.erase with vtable := some .global_message_vtable } :
            message_receiving_entity) ::
          rest.map Alloc.message_receiving_entity.erase) = .ok r := h
    cases h'
    rfl

theorem alloc_message_constructor_covers (p : Alloc.payload) (raw : List Char)
    (h0 : Alloc.heap) (q' : payload)
    (hv : message_constructor p.erase raw = .ok q') :
    ∃ q h1, Alloc.message_constructor p raw h0 = .ok (q, h1) ∧ q.erase = q' := by
  unfold message_constructor at hv
  obtain ⟨⟨rsv, count, off⟩, hloop_v, hv⟩ := bind_eq_ok hv
  have hinit : Alloc.loop_inv h0.live ⟨h0.next, [Alloc.fresh_entity]⟩ 0 0
      ⟨h0.next + 1, h0.next :: h0.live⟩ :=
    ⟨[], [h0.next], rfl, by simp, by simp, by simp, by simp, rfl, by simp, rfl, by simp⟩
  obtain ⟨receivers, hL, hloop, rfl⟩ :=
    alloc_receiver_loop_covers raw h0.live (raw.length + 1) ⟨h0.next, [Alloc.fresh_entity]⟩
      0 0 ⟨h0.next + 1, h0.next :: h0.live⟩ rsv count off hinit hloop_v
  dsimp only at hv
  obtain ⟨rsv2, count2, target, hset, hrsv2, hv⟩ : ∃ rsv2 count2 target,
      (if off = 0 then Alloc.set_global receivers.target >>= fun t => .ok (t, 1)
       else .ok (receivers.target, count)) = .ok (target, count2) ∧
      rsv2 = target.map Alloc.message_receiving_entity.erase ∧
      (strlen raw >>= fun len =>
        if off ≤ len then
          strcpy (malloc (len - off + 1)) (raw.drop off) 0 >>= fun content =>
            Outcome.ok (⟨some .message_vtable, .message rsv2 content count2⟩ : payload)
        else if off = len + 1 then .undefined else .abort) = .ok q' := by
    by_cases ho : off = 0
    · rw [if_pos ho] at hv
      obtain ⟨r, hr, hv⟩ := bind_eq_ok hv
      obtain ⟨t', ht', hrt⟩ := erase_set_global _ _ hr
      exact ⟨r, 1, t', by rw [if_pos ho, ht', ok_bind], hrt, hv⟩
    · rw [if_neg ho] at hv
      exact ⟨_, count, receivers.target, by rw [if_neg ho], rfl, hv⟩
  subst hrsv2
  obtain ⟨len, hlen, hv⟩ := bind_eq_ok hv
  by_cases hle : off ≤ len
  · rw [if_pos hle] at hv
    obtain ⟨content, hcopy, hv⟩ := bind_eq_ok hv
    cases hv
    refine ⟨⟨some .message_vtable,
        .message ⟨receivers.addr, target⟩ ⟨hL.next, content⟩ count2⟩,
      ⟨hL.next + 1, hL.next :: hL.live⟩, ?_, ?_⟩
    · unfold Alloc.message_constructor
      simp only [Alloc.heap.malloc, hloop, ok_bind, hset, hlen, if_pos hle, hcopy]
    · rfl
  · rw [if_neg hle] at hv
    by_cases heq : off = len + 1
    · rw [if_pos heq] at hv
      cases hv
    · rw [if_neg heq] at hv
      cases hv

theorem alloc_extract_token_covers (raw : List Char) (h : Alloc.heap) (r : Option Block)
    (b : Block) (hv : extract_token raw = .ok r) (ha : assert_ptr r = .ok b) :
    Alloc.extract_token raw h =
      .ok (some ⟨h.next, b⟩, ⟨h.next + 1, h.next :: h.live⟩) := by
  rw [assert_ptr_eq_ok ha] at hv
  unfold extract_token at hv
  obtain ⟨e, hscan, hv⟩ := bind_eq_ok hv
  by_cases he : e = 0
  · rw [if_pos he] at hv
    cases hv
  · rw [if_neg he] at hv
    obtain ⟨t1, hstore, hv⟩ := bind_eq_ok hv
    obtain ⟨t2, hcopy, hv⟩ := bind_eq_ok hv
    cases hv
    unfold Alloc.extract_token
    simp only [hscan, ok_bind, if_neg he, Alloc.heap.malloc, hstore, hcopy]

theorem alloc_parse_payload_covers (p : Alloc.payload) (raw : List Char) (h0 : Alloc.heap)
    (b : Bool) (q' : payload) (out : List (List Char))
    (hv : parse_payload p.erase raw = .ok (b, q', out)) :
    ∃ q h1, Alloc.parse_payload p raw h0 = .ok ((b, q, out), h1) ∧ q.erase = q' := by
  unfold parse_payload at hv
  obtain ⟨c, hload, hv⟩ := bind_eq_ok hv
  by_cases hc : c = '/'
  · rw [if_pos hc] at hv
    obtain ⟨⟨i, cmd⟩, hname, hv⟩ := bind_eq_ok hv
    obtain ⟨cmd', hnul, hv⟩ := bind_eq_ok hv
    obtain ⟨b1, hb1, hv⟩ := bind_eq_ok hv
    cases b1 with
    | true =>
      rw [if_pos rfl] at hv
      obtain ⟨r1, he1, hv⟩ := bind_eq_ok hv
      obtain ⟨username, ha1, hv⟩ := bind_eq_ok hv
      obtain ⟨n, hn, hv⟩ := bind_eq_ok hv
      obtain ⟨r2, he2, hv⟩ := bind_eq_ok hv
      obtain ⟨password, ha2, hv⟩ := bind_eq_ok hv
      cases hv
      refine ⟨⟨some .command_login_vtable,
          .command_login ⟨h0.next, username⟩ ⟨h0.next + 1, password⟩⟩,
        ⟨h0.next + 1 + 1, (h0.next + 1) :: h0.next :: h0.live⟩, ?_, ?_⟩
      · unfold Alloc.parse_payload
        simp only [hload, ok_bind, if_pos hc, hname, hnul, hb1, if_true,
          alloc_extract_token_covers _ h0 _ _ he1 ha1, assert_ptr, hn,
          alloc_extract_token_covers _ ⟨h0.next + 1, h0.next :: h0.live⟩ _ _ he2 ha2]
      · rfl
    | false =>
      rw [if_neg (by simp)] at hv
      obtain ⟨b2, hb2, hv⟩ := bind_eq_ok hv
      cases b2 with
      | true =>
        rw [if_pos rfl] at hv
        obtain ⟨r1, he1, hv⟩ := bind_eq_ok hv
        obtain ⟨channel, ha1, hv⟩ := bind_eq_ok hv
        cases hv
        refine ⟨⟨some .command_join_vtable, .command_join ⟨h0.next, channel⟩⟩,
          ⟨h0.next + 1, h0.next :: h0.live⟩, ?_, ?_⟩
        · unfold Alloc.parse_payload
          simp only [hload, ok_bind, if_pos hc, hname, hnul, hb1, hb2, if_true,
            alloc_extract_token_covers _ h0 _ _ he1 ha1, assert_ptr]
          rfl
        · rfl
      | false =>
        rw [if_neg (by simp)] at hv
        obtain ⟨b3, hb3, hv⟩ := bind_eq_ok hv
        cases b3 with
        | true =>
          rw [if_pos rfl] at hv
          cases hv
          refine ⟨⟨some .command_logout_vtable, .zeroed⟩, h0, ?_, ?_⟩
          · unfold Alloc.parse_payload
            simp only [hload, ok_bind, if_pos hc, hname, hnul, hb1, hb2, hb3, if_true]
            rfl
          · rfl
        | false =>
          rw [if_neg (by simp)] at hv
          obtain ⟨name, hnm, hv⟩ := bind_eq_ok hv
          cases hv
          refine ⟨p, h0, ?_, rfl⟩
          unfold Alloc.parse_payload
          simp only [hload, ok_bind, if_pos hc, hname, hnul, hb1, hb2, hb3, hnm]
          rfl
  · rw [if_neg hc] at hv
    obtain ⟨q1, hm, hv⟩ := bind_eq_ok hv
    cases hv
    obtain ⟨q, h1, hq, herase⟩ := alloc_message_constructor_covers p raw h0 _ hm
    refine ⟨q, h1, ?_, herase⟩
    unfold Alloc.parse_payload
    simp only [hload, ok_bind, if_neg hc, hq]

/-! ## A line that is not a command, in the RAII version -/

/-- Claim C25 (non-command lines are skipped), at the line `xlogin a b`: after
the notice `Skipping non-command`, `handle_command_payload` goes on, takes
`login` as the command name and constructs, processes and destroys a
`LoginCommand` with the arguments `a` and `b`. -/
theorem handle_command_payload_runs_after_skip_notice :
    Raii.handle_command_payload (cline "xlogin a b".toList []) =
      .ok ["Skipping non-command\n".toList,
           "String created: a\n".toList,
           "String created: b\n".toList,
           "Command: login\n  Arguments: [username: a, password:b]\n".toList,
           "String destroyed: b\n".toList,
           "String destroyed: a\n".toList,
           "\n".toList] := by
  decide

theorem handle_command_payload_skip_examples :
    Raii.handle_command_payload (cline "hello".toList []) =
      .ok ["Skipping non-command\n".toList, "Unknown command!\n".toList, "\n".toList] ∧
    Raii.handle_command_payload (cline "xjoin room".toList []) =
      .ok ["Skipping non-command\n".toList,
           "String created: room\n".toList,
           "Command: join\n  Arguments: [channel: room]\n".toList,
           "String destroyed: room\n".toList,
           "\n".toList] ∧
    Raii.handle_command_payload (cline "@logout".toList []) =
      .ok ["Skipping non-command\n".toList,
           "Command: logout\n  Arguments: []\n".toList,
           "\n".toList] :=
  ⟨by decide, by decide, by decide⟩

/-! ## The receiver names of milestone 02/01 -/

/-- Claim C22 (function-pointer and vtable parsers agree), at the line
`@metw #general test` of the test of milestone 02/01.  Both constructors
return, with two receivers and the same content.  In the vtable version the
names are the strings `metw` and `general`.  In the function-pointer version
the terminator of each name is stored one byte further: the byte after the
last character copied is never written, so the name cannot be read as a
string, and where fresh memory holds the byte `X` the names read `metwX` and
`generalX`. -/
theorem function_pointer_names_not_terminated :
    (message_constructor fresh_payload (cline "@metw #general test".toList []) >>=
      fun q => .ok (q.receiver_names.map string_arg)) =
      .ok [.ok "metw".toList, .ok "general".toList] ∧
    (FunctionPointer.message_constructor ⟨none, none, .indeterminate⟩
        (cline "@metw #general test".toList []) >>=
      fun q => .ok (q.receiver_names.map string_arg)) =
      .ok [.undefined, .undefined] ∧
    (FunctionPointer.message_constructor ⟨none, none, .indeterminate⟩
        (cline "@metw #general test".toList []) >>=
      fun q => .ok (q.receiver_names.map fun b =>
        string_arg (b.map (initial_contents 'X')))) =
      .ok [.ok "metwX".toList, .ok "generalX".toList] ∧
    (message_constructor fresh_payload (cline "@metw #general test".toList []) >>=
      fun q => .ok (q.receiver_names.map fun b =>
        string_arg (b.map (initial_contents 'X')))) =
      .ok [.ok "metw".toList, .ok "general".toList] := by
  refine ⟨by decide, by decide, by decide, by decide⟩

/-! ## Milestone 01: what `push_payload` changes in the buffer -/

theorem push_payload_parse_unknown_name (name tail slack : List Char)
    (hname : ∀ c ∈ name, c ≠ ' ' ∧ c ≠ NUL)
    (htail : tail = [] ∨ ∃ rest, tail = ' ' :: rest)
    (hbound : 5 ≤ name.length ∨ tail ≠ [])
    (hunk : name.take 6 ≠ "login".toList ∧ name.take 6 ≠ "join".toList ∧
      name.take 6 ≠ "logout".toList) :
    Traditional.push_payload_parse (cline ('/' :: name ++ tail) slack) =
      .ok (false, Traditional.fresh_payload,
        ["Ignoring invalid command ".toList ++ name.take 6 ++ "\n".toList]) := by
  obtain ⟨rest, hcmd⟩ := command_name_of_line name tail slack hname htail hbound
  have hs : NUL ∉ name.take 6 := fun h => (hname NUL (List.mem_of_mem_take h)).2 rfl
  have h0 : load (cline ('/' :: name ++ tail) slack) 0 = .ok '/' := by
    simp [cline, load]
  have h1 := strcmp_eq_cstring "login".toList (name.take 6) rest (by decide) hs
  have h2 := strcmp_eq_cstring "join".toList (name.take 6) rest (by decide) hs
  have h3 := strcmp_eq_cstring "logout".toList (name.take 6) rest (by decide) hs
  have hc := cstr_cblock (name.take 6) rest hs
  rw [decide_eq_false (Ne.symm hunk.1)] at h1
  rw [decide_eq_false (Ne.symm hunk.2.1)] at h2
  rw [decide_eq_false (Ne.symm hunk.2.2)] at h3
  unfold Traditional.push_payload_parse
  dsimp only
  rw [h0]
  cases hloop : command_name_loop (cline ('/' :: name ++ tail) slack) 6 0 (malloc 7) with
  | ok r =>
    obtain ⟨i, cmd⟩ := r
    rw [hloop] at hcmd
    have hst : store cmd i NUL = .ok ((name.take 6).map some ++ some NUL :: rest) := hcmd
    simp only [ok_bind, if_true, hst, h1, h2, h3, hc]
    rfl
  | abort => rw [hloop] at hcmd; exact absurd hcmd (by intro h; cases h)
  | undefined => rw [hloop] at hcmd; exact absurd hcmd (by intro h; cases h)
  | fuel_out => rw [hloop] at hcmd; exact absurd hcmd (by intro h; cases h)

theorem push_payload_not_valid (buf : Traditional.payload_buffer) (raw : List Char)
    (q : Traditional.payload) (out : List (List Char))
    (h : Traditional.push_payload_parse raw = .ok (false, q, out)) :
    Traditional.push_payload buf raw = .ok (buf, out) := by
  unfold Traditional.push_payload
  rw [h]
  rfl

theorem push_payload_unknown_name (buf : Traditional.payload_buffer)
    (name tail slack : List Char)
    (hname : ∀ c ∈ name, c ≠ ' ' ∧ c ≠ NUL)
    (htail : tail = [] ∨ ∃ rest, tail = ' ' :: rest)
    (hbound : 5 ≤ name.length ∨ tail ≠ [])
    (hunk : name.take 6 ≠ "login".toList ∧ name.take 6 ≠ "join".toList ∧
      name.take 6 ≠ "logout".toList) :
    Traditional.push_payload buf (cline ('/' :: name ++ tail) slack) =
      .ok (buf, ["Ignoring invalid command ".toList ++ name.take 6 ++ "\n".toList]) :=
  push_payload_not_valid buf _ _ _
    (push_payload_parse_unknown_name name tail slack hname htail hbound hunk)

theorem push_payload_appends (buf : Traditional.payload_buffer) (raw : List Char)
    (q : Traditional.payload)
    (hb : buf.payloads.length = buf.cap ∧ buf.len ≤ buf.cap ∧ 1 ≤ buf.cap)
    (h : Traditional.parses_to raw q) :
    ∃ buf' out, Traditional.push_payload buf raw = .ok (buf', out) ∧
      buf'.len = buf.len + 1 ∧ buf'.payloads[buf.len]? = some q ∧
      buf'.process_base = buf.process_base ∧
      (∀ i, i < buf.len → buf'.payloads[i]? = buf.payloads[i]?) ∧
      buf'.cap = (if buf.cap = buf.len then buf.cap * 2 else buf.cap) ∧
      buf'.payloads.length = buf'.cap := by
  have hholds : Traditional.holds buf (buf.payloads.take buf.len) :=
    ⟨by simp [List.length_take]; omega, hb.1, hb.2.1, hb.2.2, rfl⟩
  obtain ⟨buf', out, hpush, ⟨hlen, hcap, hle, hpos, htake⟩, hpb⟩ :=
    push_payload_valid buf _ raw q hholds h
  have hlen' : buf'.len = buf.len + 1 := by
    rw [hlen]
    simp [List.length_take]
    omega
  have hcap' : buf'.cap = (if buf.cap = buf.len then buf.cap * 2 else buf.cap) := by
    obtain ⟨o, hp⟩ := h
    unfold Traditional.push_payload at hpush
    rw [hp] at hpush
    simp only [ok_bind, if_true] at hpush
    by_cases hc : buf.cap = buf.len
    · simp only [hc, if_true] at hpush ⊢
      split at hpush
      · cases hpush
        rfl
      · cases hpush
    · simp only [hc, if_false] at hpush ⊢
      split at hpush
      · cases hpush
        rfl
      · cases hpush
  refine ⟨buf', out, hpush, hlen', ?_, hpb, ?_, hcap', hcap⟩
  · have h1 : (buf'.payloads.take buf'.len)[buf.len]? = some q := by
      have hmin : (buf.payloads.take buf.len).length = buf.len := by
        simp [List.length_take]
        omega
      rw [htake, List.getElem?_append_right (by omega), hmin]
      simp
    rw [List.getElem?_take_of_lt (by omega)] at h1
    exact h1
  · intro i hi
    have h1 : (buf'.payloads.take buf'.len)[i]? = buf.payloads[i]? := by
      have hmin : (buf.payloads.take buf.len).length = buf.len := by
        simp [List.length_take]
        omega
      rw [htake, List.getElem?_append_left (by omega), List.getElem?_take_of_lt hi]
    rw [List.getElem?_take_of_lt (by omega)] at h1
    exact h1

/-- Claim C23 (a rejected line leaves the buffer untouched), at the line
`/logoutx`, whose command name is none of `login`, `join`, `logout`:
`push_payload` stores a logout payload and increases `len`, on the buffer of
`new_buffer` and, doubling `cap`, on a full buffer of one payload. -/
theorem push_payload_logoutx_stored :
    Traditional.push_payload Traditional.new_buffer (cline "/logoutx".toList []) =
      .ok (⟨0, 1, 1, [⟨some .COMMAND_LOGOUT, .zeroed⟩]⟩, []) ∧
    Traditional.push_payload
        ⟨0, 1, 1, [⟨some .COMMAND_JOIN, .command_join (cblock "room".toList)⟩]⟩
        (cline "/logoutx".toList []) =
      .ok (⟨0, 2, 2, [⟨some .COMMAND_JOIN, .command_join (cblock "room".toList)⟩,
                      ⟨some .COMMAND_LOGOUT, .zeroed⟩]⟩, []) :=
  ⟨by decide, by decide⟩

/-! ## Milestone 01: the capacity of the buffer -/

theorem payload_valid_eq (raw : List Char) (valid : Bool) (q : Traditional.payload)
    (out : List (List Char)) (h : Traditional.push_payload_parse raw = .ok (valid, q, out)) :
    Traditional.payload_valid raw = valid := by
  simp [Traditional.payload_valid, h]

theorem push_payload_capacity (buf buf' : Traditional.payload_buffer) (n : Nat)
    (raw : List Char) (out : List (List Char)) (hinv : Traditional.capacity_inv buf n)
    (h : Traditional.push_payload buf raw = .ok (buf', out)) :
    Traditional.capacity_inv buf' (n + if Traditional.payload_valid raw then 1 else 0) ∧
      buf'.cap = (if Traditional.payload_valid raw = true ∧ buf.len = buf.cap
        then buf.cap * 2 else buf.cap) := by
  obtain ⟨pb, len, cap, payloads⟩ := buf
  obtain ⟨hpb, hle, hlen, hn, k, hk, hmin⟩ := hinv
  simp only at hpb hle hlen hn hk hmin
  unfold Traditional.push_payload at h
  obtain ⟨⟨valid, parsed, o⟩, hp, h⟩ := bind_eq_ok h
  rw [payload_valid_eq raw valid parsed o hp]
  cases valid with
  | false =>
    cases h
    simp only [Bool.false_eq_true, if_false, false_and, Nat.add_zero]
    exact ⟨⟨hpb, hle, hlen, hn, k, hk, hmin⟩, trivial⟩
  | true =>
    simp only [if_true] at h
    by_cases hc : cap = len
    · subst hc
      simp only [if_true] at h
      split at h
      · cases h
        refine ⟨⟨?_, ?_, ?_, ?_, k + 1, ?_, ?_⟩, ?_⟩
        · show pb ≤ cap + 1
          omega
        · show cap + 1 ≤ cap * 2
          have : 0 < 2 ^ k := Nat.two_pow_pos k
          omega
        · show (List.set _ _ _).length = cap * 2
          simp [Traditional.realloc, hlen]
          omega
        · show cap + 1 = n + 1
          omega
        · show cap * 2 = 2 ^ (k + 1)
          rw [hk, Nat.pow_succ]
        · intro j hj
          have hj' : 2 ^ k < 2 ^ j := by
            have : cap + 1 ≤ 2 ^ j := hj
            omega
          have := (Nat.pow_lt_pow_iff_right (by decide : 1 < 2)).mp hj'
          omega
        · simp
      · cases h
    · simp only [hc, if_false] at h
      split at h
      · cases h
        refine ⟨⟨?_, ?_, ?_, ?_, k, hk, ?_⟩, ?_⟩
        · show pb ≤ len + 1
          omega
        · show len + 1 ≤ cap
          omega
        · show (List.set _ _ _).length = cap
          simp [hlen]
        · show len + 1 = n + 1
          omega
        · intro j hj
          have : len + 1 ≤ 2 ^ j := hj
          exact hmin j (by omega)
        · have hne : ¬ len = cap := fun e => hc e.symm
          simp [hne]
      · cases h

theorem process_next_capacity (buf buf' : Traditional.payload_buffer) (n : Nat)
    (out : List (List Char)) (hinv : Traditional.capacity_inv buf n)
    (h : Traditional.process_next buf = .ok (buf', out)) :
    Traditional.capacity_inv buf' n ∧ buf'.cap = buf.cap := by
  obtain ⟨hpb, hle, hlen, hn, hk⟩ := hinv
  unfold Traditional.process_next at h
  by_cases hlt : buf.process_base < buf.len
  · rw [if_pos hlt] at h
    cases hget : buf.payloads[buf.process_base]? with
    | none =>
      rw [hget] at h
      cases h
    | some q =>
      rw [hget] at h
      obtain ⟨t, -, h⟩ := bind_eq_ok h
      cases h
      exact ⟨⟨hlt, hle, hlen, hn, hk⟩, rfl⟩
  · rw [if_neg hlt] at h
    cases h

theorem new_buffer_capacity : Traditional.capacity_inv Traditional.new_buffer 0 :=
  ⟨Nat.le_refl _, by decide, rfl, rfl, 0, rfl, fun _ _ => Nat.zero_le _⟩

theorem run_capacity (calls : List Traditional.call) (buf buf' : Traditional.payload_buffer)
    (n : Nat) (hinv : Traditional.capacity_inv buf n)
    (h : Traditional.run buf calls = .ok buf') :
    Traditional.capacity_inv buf' (n + Traditional.valid_pushes calls) := by
  induction calls generalizing buf n with
  | nil =>
    cases h
    exact hinv
  | cons c calls ih =>
    cases c with
    | push_payload raw =>
      rw [Traditional.run] at h
      obtain ⟨⟨b1, o⟩, hp, h⟩ := bind_eq_ok h
      have h1 := (push_payload_capacity buf b1 n raw o hinv hp).1
      have h2 := ih b1 _ h1 h
      rw [Traditional.valid_pushes, ← Nat.add_assoc]
      exact h2
    | process_next =>
      rw [Traditional.run] at h
      obtain ⟨⟨b1, o⟩, hp, h⟩ := bind_eq_ok h
      have h1 := (process_next_capacity buf b1 n o hinv hp).1
      exact ih b1 _ h1 h

/-- Claim C24 (capacity invariant of the payload buffer).  In the state that a
sequence of `push_payload` and `process_next` calls reaches from `new_buffer`,
every call having returned: `process_base ≤ len ≤ cap`; `len` is the number `n`
of valid payloads pushed; `cap` is a power of two, at least `n`, and no power
of two below it is at least `n`.  A further `push_payload` doubles `cap` when
the payload is valid and `len = cap`, and leaves it as it is otherwise; a
further `process_next` leaves `cap` as it is. -/
theorem capacity_invariant (calls : List Traditional.call)
    (buf : Traditional.payload_buffer)
    (h : Traditional.run Traditional.new_buffer calls = .ok buf) :
    buf.process_base ≤ buf.len ∧ buf.len ≤ buf.cap ∧
    buf.len = Traditional.valid_pushes calls ∧
    (∃ k, buf.cap = 2 ^ k ∧ Traditional.valid_pushes calls ≤ 2 ^ k ∧
      ∀ j, Traditional.valid_pushes calls ≤ 2 ^ j → k ≤ j) ∧
    (∀ raw buf' out, Traditional.push_payload buf raw = .ok (buf', out) →
      buf'.cap = (if Traditional.payload_valid raw = true ∧ buf.len = buf.cap
        then buf.cap * 2 else buf.cap)) ∧
    (∀ buf' out, Traditional.process_next buf = .ok (buf', out) → buf'.cap = buf.cap) := by
  have hinv := run_capacity calls _ buf 0 new_buffer_capacity h
  rw [Nat.zero_add] at hinv
  have hinv' := hinv
  obtain ⟨hpb, hle, hlen, hn, k, hk, hmin⟩ := hinv'
  refine ⟨hpb, hle, hn, ⟨k, hk, ?_, ?_⟩, ?_, ?_⟩
  · rw [← hn, ← hk]
    exact hle
  · intro j hj
    exact hmin j (by rw [hn]; exact hj)
  · intro raw buf' out hp
    exact (push_payload_capacity buf buf' _ raw out hinv hp).2
  · intro buf' out hp
    exact (process_next_capacity buf buf' _ out hinv hp).2

theorem capacity_invariant_witness :
    (1 : Nat) ≤ 3 ∧ 3 ≤ 4 ∧
    3 = Traditional.valid_pushes
      [.push_payload (cline "hi".toList []), .push_payload (cline "/logout".toList []),
       .push_payload (cline "/nope x".toList []), .process_next,
       .push_payload (cline "@a b".toList [])] ∧
    (∃ k, 4 = 2 ^ k ∧
      Traditional.valid_pushes
        [.push_payload (cline "hi".toList []), .push_payload (cline "/logout".toList []),
         .push_payload (cline "/nope x".toList []), .process_next,
         .push_payload (cline "@a b".toList [])] ≤ 2 ^ k ∧
      ∀ j, Traditional.valid_pushes
        [.push_payload (cline "hi".toList []), .push_payload (cline "/logout".toList []),
         .push_payload (cline "/nope x".toList []), .process_next,
         .push_payload (cline "@a b".toList [])] ≤ 2 ^ j → k ≤ j) ∧
    (∀ raw buf' out,
      Traditional.push_payload
        ⟨1, 3, 4, [⟨some .MESSAGE_GLOBAL, .message_global (cblock "hi".toList)⟩,
          ⟨some .COMMAND_LOGOUT, .zeroed⟩,
          ⟨some .MESSAGE_DIRECT,
            .message_direct (cblock "b".toList ++ [none, none]) (cblock "a".toList)⟩,
          Traditional.fresh_payload]⟩ raw = .ok (buf', out) →
      buf'.cap = (if Traditional.payload_valid raw = true ∧ 3 = 4 then 4 * 2 else 4)) ∧
    (∀ buf' out,
      Traditional.process_next
        ⟨1, 3, 4, [⟨some .MESSAGE_GLOBAL, .message_global (cblock "hi".toList)⟩,
          ⟨some .COMMAND_LOGOUT, .zeroed⟩,
          ⟨some .MESSAGE_DIRECT,
            .message_direct (cblock "b".toList ++ [none, none]) (cblock "a".toList)⟩,
          Traditional.fresh_payload]⟩ = .ok (buf', out) → buf'.cap = 4) :=
  capacity_invariant
    [.push_payload (cline "hi".toList []), .push_payload (cline "/logout".toList []),
     .push_payload (cline "/nope x".toList []), .process_next,
     .push_payload (cline "@a b".toList [])]
    ⟨1, 3, 4, [⟨some .MESSAGE_GLOBAL, .message_global (cblock "hi".toList)⟩,
      ⟨some .COMMAND_LOGOUT, .zeroed⟩,
      ⟨some .MESSAGE_DIRECT,
        .message_direct (cblock "b".toList ++ [none, none]) (cblock "a".toList)⟩,
      Traditional.fresh_payload]⟩
    (by decide)

/-! ## Messages in the switch-statement version and in the vtable version -/

theorem push_payload_parse_receiver (pfx : Char) (name content slack : List Char)
    (hpfx : pfx = '@' ∨ pfx = '#') (hne : name ≠ [])
    (hname : ∀ c ∈ name, c ≠ ' ' ∧ c ≠ NUL) (hcontent : NUL ∉ content) :
    Traditional.push_payload_parse (cline (pfx :: name ++ ' ' :: content) slack) =
      .ok (true,
        (if pfx = '@' then
          ⟨some .MESSAGE_DIRECT,
            .message_direct (cblock content ++ [none, none]) (cblock name)⟩
         else
          ⟨some .MESSAGE_GROUP,
            .message_group (cblock content ++ [none, none]) (cblock name)⟩), []) := by
  have hraw : cline (pfx :: name ++ ' ' :: content) slack =
      pfx :: (name ++ ' ' :: (content ++ NUL :: slack)) := by
    simp [cline]
  have hslash : pfx ≠ '/' := by
    rcases hpfx with h | h <;> rw [h] <;> decide
  have hnn : NUL ∉ name := not_nul_of_token name hname
  have hpn : pfx ≠ NUL := by
    rcases hpfx with h | h <;> rw [h] <;> decide
  have hline : NUL ∉ pfx :: name ++ ' ' :: content := by
    intro h
    simp only [List.cons_append, List.mem_cons, List.mem_append] at h
    rcases h with h | h | h | h
    · exact hpn h.symm
    · exact hnn h
    · exact absurd h (by decide)
    · exact hcontent h
  have hlen : strlen (cline (pfx :: name ++ ' ' :: content) slack) =
      .ok (pfx :: name ++ ' ' :: content).length := strlen_cline _ slack hline
  have htok := extract_token_token name ' ' (content ++ NUL :: slack) hne hname (Or.inl rfl)
  have hfirst : ∃ c, Traditional.load_block (cblock name) = .ok c ∧ c ≠ NUL := by
    cases name with
    | nil => exact absurd rfl hne
    | cons c name => exact ⟨c, rfl, (hname c (by simp)).2⟩
  obtain ⟨c1, hc1, hc1n⟩ := hfirst
  have hdrop : (name ++ ' ' :: (content ++ NUL :: slack)).drop (name.length + 1) =
      content ++ NUL :: slack := by
    rw [show name ++ ' ' :: (content ++ NUL :: slack) =
      (name ++ [' ']) ++ (content ++ NUL :: slack) by simp]
    rw [List.drop_append_of_le_length (by simp)]
    simp
  have hsize : (pfx :: name ++ ' ' :: content).length - name.length + 1 =
      (content.length + 1) + 2 := by
    simp
    omega
  have hcopy := strcpy_eq content slack [] (List.replicate (content.length + 1) none)
    [none, none] (by simp) hcontent
  have hm : malloc ((content.length + 1) + 2) =
      [] ++ List.replicate (content.length + 1) none ++ [none, none] := by
    simp [malloc, List.replicate_add]
  simp only [List.length_nil, List.nil_append] at hcopy
  unfold Traditional.push_payload_parse
  dsimp only
  rw [hlen, hraw]
  rcases hpfx with rfl | rfl
  · simp only [load, List.getElem?_cons_zero, ok_bind, hslash, if_false, if_true, ne_eq,
      reduceCtorEq, not_false_eq_true, List.drop_succ_cons, List.drop_zero,
      htok, assert_ptr, cstr_cblock_eq name hnn, hc1, hsize, hm, hdrop, hc1n,
      List.nil_append, hcopy]
  · have h1 : ('#' : Char) ≠ '@' := by decide
    simp only [load, List.getElem?_cons_zero, ok_bind, hslash, h1, if_false, if_true, ne_eq,
      reduceCtorEq, not_false_eq_true, List.drop_succ_cons, List.drop_zero,
      htok, assert_ptr, cstr_cblock_eq name hnn, hc1, hsize, hm, hdrop, hc1n,
      List.nil_append, hcopy]

theorem push_payload_parse_global (line slack : List Char)
    (h : line.head? ≠ some '/' ∧ line.head? ≠ some '@' ∧ line.head? ≠ some '#')
    (hnul : NUL ∉ line) :
    Traditional.push_payload_parse (cline line slack) =
      .ok (true, ⟨some .MESSAGE_GLOBAL, .message_global (cblock line)⟩, []) := by
  have hlen : strlen (cline line slack) = .ok line.length := strlen_cline line slack hnul
  have hcopy : strcpy (malloc (line.length + 1)) (cline line slack) 0 = .ok (cblock line) :=
    strcpy_fresh line slack hnul
  obtain ⟨c0, h0, h1, h2, h3⟩ : ∃ c0, load (cline line slack) 0 = .ok c0 ∧
      c0 ≠ '/' ∧ c0 ≠ '@' ∧ c0 ≠ '#' := by
    cases line with
    | nil => exact ⟨NUL, by simp [cline, load], by decide, by decide, by decide⟩
    | cons c line =>
      exact ⟨c, by simp [cline, load], fun e => h.1 (by simp [e]),
        fun e => h.2.1 (by simp [e]), fun e => h.2.2 (by simp [e])⟩
  have hc : cstr [some NUL] = .ok [] := by simp [cstr]
  unfold Traditional.push_payload_parse
  dsimp only
  simp only [h0, ok_bind, h1, h2, h3, if_false, ne_eq, not_true_eq_false, hc, hlen,
    List.length_nil, Nat.sub_zero, Traditional.load_block, hcopy]

theorem push_then_process_of_parse (raw : List Char) (q : Traditional.payload)
    (out : List (List Char)) (t : List Char)
    (hp : Traditional.push_payload_parse raw = .ok (true, q, out))
    (ht : Traditional.process_next_switch q = .ok t) :
    Traditional.push_then_process raw = .ok (out ++ [t]) := by
  unfold Traditional.push_then_process Traditional.push_payload
  rw [hp]
  simp [Traditional.new_buffer, Traditional.process_next, ht]

theorem parse_then_process_of_parse (p q : payload) (raw : List Char)
    (out text : List (List Char)) (hp : parse_payload p raw = .ok (true, q, out))
    (ht : q.process = .ok text) :
    parse_then_process p raw = .ok (out ++ text) := by
  unfold parse_then_process
  rw [hp]
  simp [ht]

/-- Claim C21 (switch-statement and vtable versions agree on messages).  For a
global line (no receiver token, first character none of `/`, `@`, `#`) and for
a line of one receiver token with a non-empty name, one space and a content
that does not begin with `@` or `#`, `push_payload` followed by `process_next`
on the buffer of `new_buffer` and `parse_payload` followed by `process` both
return and print the same text: the one report of the receiver with the
content. -/
theorem switch_and_vtable_agree_on_messages (p : payload)
    (toks : List (Char × List Char)) (content slack : List Char)
    (hlen : toks.length ≤ 1)
    (htok : ∀ t ∈ toks, (t.1 = '@' ∨ t.1 = '#') ∧ t.2 ≠ [] ∧ ' ' ∉ t.2)
    (hc : content.head? ≠ some '@' ∧ content.head? ≠ some '#')
    (hg : toks = [] → content.head? ≠ some '/')
    (hnul : NUL ∉ tokens_text toks ++ content) :
    Traditional.push_then_process (cline (tokens_text toks ++ content) slack) =
      .ok [Receiver.line content
        (match toks with
         | [] => Receiver.Global
         | t :: _ => token_receiver t)] ∧
    parse_then_process p (cline (tokens_text toks ++ content) slack) =
      Traditional.push_then_process (cline (tokens_text toks ++ content) slack) := by
  match toks, hlen, htok, hg, hnul with
  | [], _, _, hg, hnul =>
    have hnul' : NUL ∉ content := by simpa [tokens_text] using hnul
    have hh : content.head? ≠ some '/' ∧ content.head? ≠ some '@' ∧
        content.head? ≠ some '#' := ⟨hg rfl, hc.1, hc.2⟩
    have h1 := push_then_process_of_parse (cline content slack) _ _
      ("Global message: ".toList ++ content ++ "\n".toList)
      (push_payload_parse_global content slack hh hnul')
      (by simp [Traditional.process_next_switch, cstr_cblock_eq content hnul'])
    have h2 := parse_then_process_of_parse p _ (cline content slack) _
      ["Global message: ".toList ++ content ++ "\n".toList]
      (parse_payload_global p content slack hh hnul')
      (by simp [payload.process, payload_vtable.process, process_message,
        process_message_loop, global_entity, call_transmit,
        message_receiving_entity_vtable.transmit_message, transmit_global_message,
        cstr_cblock_eq content hnul'])
    simp only [tokens_text, List.nil_append]
    rw [h2, h1]
    exact ⟨rfl, rfl⟩
  | [(pfx, name)], _, htok, _, hnul =>
    obtain ⟨hpfx, hne, hsp⟩ := htok (pfx, name) (by simp)
    simp only at hpfx hne hsp
    have hline : tokens_text [(pfx, name)] ++ content = pfx :: name ++ ' ' :: content := by
      simp [tokens_text]
    have hcontent : NUL ∉ content := fun e => hnul (by simp [e])
    have hnn : NUL ∉ name := fun e => hnul (by simp [tokens_text, e])
    have hname : ∀ c ∈ name, c ≠ ' ' ∧ c ≠ NUL := fun c hcm =>
      ⟨fun e => hsp (e ▸ hcm), fun e => hnn (e ▸ hcm)⟩
    have hcs : cstr (cblock content ++ [none, none]) = .ok content := by
      have := cstr_cblock content [none, none] hcontent
      simpa [cblock] using this
    have hpp := push_payload_parse_receiver pfx name content slack hpfx hne hname hcontent
    have hvp := parse_payload_tokens p [(pfx, name)] content slack (by simp)
      (fun t ht => by
        have : t = (pfx, name) := by simpa using ht
        subst this
        exact ⟨hpfx, hsp⟩) hc hnul
    rw [hline] at hvp ⊢
    have h1 : Traditional.push_then_process (cline (pfx :: name ++ ' ' :: content) slack) =
        .ok ([] ++ [Receiver.line content (token_receiver (pfx, name))]) := by
      refine push_then_process_of_parse _ _ _ _ hpp ?_
      rcases hpfx with rfl | rfl
      · simp [Traditional.process_next_switch, cstr_cblock_eq name hnn, hcs, token_receiver,
          Receiver.line]
      · simp [Traditional.process_next_switch, cstr_cblock_eq name hnn, hcs, token_receiver,
          Receiver.line]
    have h2 : parse_then_process p (cline (pfx :: name ++ ' ' :: content) slack) =
        .ok ([] ++ [Receiver.line content (token_receiver (pfx, name))]) := by
      refine parse_then_process_of_parse p _ _ _ _ hvp ?_
      rcases hpfx with rfl | rfl
      · simp [payload.process, payload_vtable.process, process_message,
          process_message_loop, token_entity, call_transmit,
          message_receiving_entity_vtable.transmit_message, transmit_direct_message,
          string_arg, cstr_cblock_eq name hnn, cstr_cblock_eq content hcontent,
          token_receiver, Receiver.line]
      · simp [payload.process, payload_vtable.process, process_message,
          process_message_loop, token_entity, call_transmit,
          message_receiving_entity_vtable.transmit_message, transmit_group_message,
          string_arg, cstr_cblock_eq name hnn, cstr_cblock_eq content hcontent,
          token_receiver, Receiver.line]
    rw [h2, h1]
    exact ⟨rfl, rfl⟩

theorem switch_and_vtable_agree_on_messages_witness :
    Traditional.push_then_process (cline "#general Check this out!".toList []) =
      .ok ["Group message to general: Check this out!\n".toList] ∧
    parse_then_process fresh_payload (cline "#general Check this out!".toList []) =
      Traditional.push_then_process (cline "#general Check this out!".toList []) :=
  switch_and_vtable_agree_on_messages fresh_payload [('#', "general".toList)]
    "Check this out!".toList [] (by decide) (by decide) (by decide) (by decide) (by decide)

theorem switch_and_vtable_differ_on_two_receivers :
    Traditional.push_then_process (cline "@alice @bob hi".toList []) =
      .ok ["Direct message to alice: @bob hi\n".toList] ∧
    parse_then_process fresh_payload (cline "@alice @bob hi".toList []) =
      .ok ["Direct message to alice: hi\n".toList,
           "Direct message to bob: hi\n".toList] :=
  ⟨by decide, by decide⟩

/-! ## The receiver scan, iteration by iteration -/

theorem outcome_bind_assoc {α β γ : Type} (x : Outcome α) (f : α → Outcome β)
    (g : β → Outcome γ) : ((x >>= f) >>= g) = (x >>= fun a => f a >>= g) := by
  cases x <;> rfl

theorem receiver_loop_unfold (raw : List Char) (fuel : Nat)
    (receivers : List message_receiving_entity) (receiver_count content_offset : Nat) :
    receiver_loop raw (fuel + 1) receivers receiver_count content_offset =
      (load raw content_offset >>= fun c =>
        if c = '@' ∨ c = '#' then
          receiver_iteration raw c receivers receiver_count content_offset >>= fun s =>
            receiver_loop raw fuel s.1 s.2.1 s.2.2
        else .ok (receivers, receiver_count, content_offset)) := by
  rw [receiver_loop]
  congr 1
  funext c
  by_cases hc : c = '@' ∨ c = '#'
  · rw [if_pos hc, if_pos hc]
    unfold receiver_iteration
    simp only [outcome_bind_assoc, ok_bind]
  · rw [if_neg hc, if_neg hc]

theorem receiver_iteration_step (pre nm rest : List Char) (c : Char)
    (hc : c = '@' ∨ c = '#') (hnm : ' ' ∉ nm)
    (acc : List message_receiving_entity) :
    receiver_iteration (pre ++ c :: nm ++ ' ' :: rest) c (receiver_array acc)
        acc.length pre.length =
      .ok (receiver_array (acc ++ [token_entity (c, nm)]), acc.length + 1,
        pre.length + (nm.length + 1) + 1) := by
  have hraw : pre ++ c :: nm ++ ' ' :: rest = pre ++ c :: (nm ++ ' ' :: rest) := by simp
  have hdrop : (pre ++ c :: (nm ++ ' ' :: rest)).drop pre.length =
      (c :: nm) ++ ' ' :: rest := by
    simp
  have hdrop1 : (pre ++ c :: (nm ++ ' ' :: rest)).drop (pre.length + 1) =
      nm ++ ' ' :: rest := by
    simp
  have hcs : ' ' ∉ c :: nm := by
    intro h
    rcases List.mem_cons.mp h with h | h
    · rcases hc with rfl | rfl <;> exact absurd h (by decide)
    · exact hnm h
  have hscan := name_end_scan_name (c :: nm) rest pre.length hcs
  have hsize : pre.length + (c :: nm).length - pre.length = nm.length + 1 := by
    simp
  have hcopy := receiver_name_copy_eq pre.length nm rest [] (List.replicate nm.length none)
    [none] (by simp) hnm
  have hm : malloc (nm.length + 1) = [] ++ List.replicate nm.length none ++ [none] := by
    simp [malloc, List.replicate_succ']
  have hstore : store (nm.map some ++ [none]) (nm.length + 1 - 1) NUL = .ok (cblock nm) := by
    have h := store_append (nm.map some) none [] NUL
    simpa [cblock] using h
  rw [hraw]
  unfold receiver_iteration
  rw [hdrop, hscan, ok_bind, hdrop1, hsize, hm]
  simp only [List.length_nil, Nat.add_zero] at hcopy
  dsimp only
  rw [hcopy, ok_bind]
  simp only [List.nil_append]
  rw [hstore, ok_bind, receiver_array_push acc, ok_bind]
  simp [token_entity]

theorem receiver_loop_short (toks : List (Char × List Char)) (pre rest : List Char)
    (acc : List message_receiving_entity)
    (htok : ∀ t ∈ toks, (t.1 = '@' ∨ t.1 = '#') ∧ ' ' ∉ t.2) :
    receiver_loop (pre ++ tokens_text toks ++ rest) toks.length (receiver_array acc)
        acc.length pre.length = .fuel_out := by
  induction toks generalizing pre acc with
  | nil => rfl
  | cons t ts ih =>
    obtain ⟨c, nm⟩ := t
    have ht := htok (c, nm) (by simp)
    have hraw : pre ++ tokens_text ((c, nm) :: ts) ++ rest =
        pre ++ c :: nm ++ ' ' :: (tokens_text ts ++ rest) := by
      simp [tokens_text]
    have hraw2 : pre ++ c :: nm ++ ' ' :: (tokens_text ts ++ rest) =
        (pre ++ c :: nm ++ [' ']) ++ tokens_text ts ++ rest := by
      simp
    have h := ih (pre ++ c :: nm ++ [' ']) (acc ++ [token_entity (c, nm)])
      (fun t h => htok t (by simp [h]))
    have hlen : (pre ++ c :: nm ++ [' ']).length = pre.length + (nm.length + 1) + 1 := by
      simp
      omega
    rw [hlen] at h
    rw [List.length_cons, hraw, receiver_loop_step pre nm _ c ht.1 ht.2 acc ts.length, hraw2]
    simp only [List.length_append, List.length_singleton] at h
    exact h

theorem tokens_text_append (a b : List (Char × List Char)) :
    tokens_text (a ++ b) = tokens_text a ++ tokens_text b := by
  induction a with
  | nil => rfl
  | cons t a ih => simp [tokens_text, ih]

/-- Claim C26 (termination of the receiver scan).  The line is its leading
receiver tokens `toks`, each `@` or `#`, a name without space and a space, and
then a content that does not begin with `@` or `#`; the object read is the line
and its terminator, with nothing after it, so that a read at any other index
is undefined.  The loop of `message_constructor` returns for every bound above
the number of tokens and runs out of iterations with that number as bound: it
makes exactly one iteration per token.  The iteration for the token `k` is
entered at the index where the token starts, returns, and leaves
`content_offset` at a greater index, the one after the space of that token. -/
theorem receiver_scan_terminates (toks : List (Char × List Char)) (content : List Char)
    (htok : ∀ t ∈ toks, (t.1 = '@' ∨ t.1 = '#') ∧ ' ' ∉ t.2)
    (hc : content.head? ≠ some '@' ∧ content.head? ≠ some '#')
    (hnul : NUL ∉ tokens_text toks ++ content) :
    strlen (cline (tokens_text toks ++ content) []) =
      .ok (tokens_text toks ++ content).length ∧
    (∀ fuel, toks.length < fuel →
      receiver_loop (cline (tokens_text toks ++ content) []) fuel [fresh_entity] 0 0 =
        .ok (receiver_array (toks.map token_entity), toks.length,
          (tokens_text toks).length)) ∧
    receiver_loop (cline (tokens_text toks ++ content) []) toks.length [fresh_entity] 0 0 =
      .fuel_out ∧
    (tokens_text toks).length ≤ (tokens_text toks ++ content).length ∧
    ∀ k t, toks[k]? = some t →
      load (cline (tokens_text toks ++ content) []) (tokens_text (toks.take k)).length =
        .ok t.1 ∧
      receiver_iteration (cline (tokens_text toks ++ content) []) t.1
          (receiver_array ((toks.take k).map token_entity)) k
          (tokens_text (toks.take k)).length =
        .ok (receiver_array ((toks.take (k + 1)).map token_entity), k + 1,
          (tokens_text (toks.take (k + 1))).length) ∧
      (tokens_text (toks.take k)).length < (tokens_text (toks.take (k + 1))).length ∧
      load (cline (tokens_text toks ++ content) [])
        ((tokens_text (toks.take (k + 1))).length - 1) = .ok ' ' := by
  obtain ⟨d, rest, hd, hrest⟩ := content_head content [] hc
  have hraw : cline (tokens_text toks ++ content) [] = tokens_text toks ++ d :: rest := by
    simp [cline, hrest]
  refine ⟨strlen_cline _ [] hnul, ?_, ?_, by simp, ?_⟩
  · intro fuel hfuel
    have h := receiver_loop_tokens toks [] d rest [] fuel htok hd hfuel
    simpa [hraw, receiver_array] using h
  · have h := receiver_loop_short toks [] (d :: rest) [] htok
    simpa [hraw, receiver_array] using h
  · intro k t hk
    obtain ⟨c, nm⟩ := t
    obtain ⟨hlt, hget⟩ := List.getElem?_eq_some_iff.mp hk
    have hsplit : toks = toks.take k ++ (c, nm) :: toks.drop (k + 1) := by
      have h1 : toks.drop k = (c, nm) :: toks.drop (k + 1) := by
        rw [List.drop_eq_getElem_cons hlt, hget]
      have h2 := (List.take_append_drop k toks).symm
      rw [h1] at h2
      exact h2
    have htake : toks.take (k + 1) = toks.take k ++ [(c, nm)] := by
      rw [List.take_succ, hk]
      rfl
    have ht := htok (c, nm) (List.getElem?_mem hk)
    simp only at ht
    have hline : cline (tokens_text toks ++ content) [] =
        tokens_text (toks.take k) ++ c :: nm ++
          ' ' :: (tokens_text (toks.drop (k + 1)) ++ d :: rest) := by
      rw [hraw]
      conv_lhs => rw [hsplit]
      simp [tokens_text_append, tokens_text]
    have hklen : ((toks.take k).map token_entity).length = k := by
      simp
      omega
    have hstep := receiver_iteration_step (tokens_text (toks.take k)) nm
      (tokens_text (toks.drop (k + 1)) ++ d :: rest) c ht.1 ht.2
      ((toks.take k).map token_entity)
    rw [hklen] at hstep
    have hoff : (tokens_text (toks.take (k + 1))).length =
        (tokens_text (toks.take k)).length + (nm.length + 1) + 1 := by
      rw [htake, tokens_text_append]
      simp [tokens_text]
      omega
    refine ⟨?_, ?_, ?_, ?_⟩
    · rw [hline]
      have h := load_append (tokens_text (toks.take k)) c
        (nm ++ ' ' :: (tokens_text (toks.drop (k + 1)) ++ d :: rest))
      simpa using h
    · rw [hline, hstep, hoff, htake]
      simp
    · omega
    · rw [hline, hoff]
      have h := load_append (tokens_text (toks.take k) ++ c :: nm) ' '
        (tokens_text (toks.drop (k + 1)) ++ d :: rest)
      have hl : (tokens_text (toks.take k) ++ c :: nm).length =
          (tokens_text (toks.take k)).length + (nm.length + 1) + 1 - 1 := by
        simp
      rw [hl] at h
      simpa using h

theorem receiver_scan_terminates_witness :
    strlen (cline "@alice #general @bob hi".toList []) = .ok 23 ∧
    (∀ fuel, 3 < fuel →
      receiver_loop (cline "@alice #general @bob hi".toList []) fuel [fresh_entity] 0 0 =
        .ok ([⟨some .direct_message_vtable, some (cblock "alice".toList)⟩,
              ⟨some .group_message_vtable, some (cblock "general".toList)⟩,
              ⟨some .direct_message_vtable, some (cblock "bob".toList)⟩], 3, 21)) ∧
    receiver_loop (cline "@alice #general @bob hi".toList []) 3 [fresh_entity] 0 0 =
      .fuel_out ∧
    21 ≤ 23 ∧
    ∀ k t, [('@', "alice".toList), ('#', "general".toList), ('@', "bob".toList)][k]? = some t →
      load (cline "@alice #general @bob hi".toList [])
        (tokens_text
          ([('@', "alice".toList), ('#', "general".toList), ('@', "bob".toList)].take k)).length =
        .ok t.1 ∧
      receiver_iteration (cline "@alice #general @bob hi".toList []) t.1
          (receiver_array
            (([('@', "alice".toList), ('#', "general".toList), ('@', "bob".toList)].take k).map
              token_entity)) k
          (tokens_text
            ([('@', "alice".toList), ('#', "general".toList),
              ('@', "bob".toList)].take k)).length =
        .ok (receiver_array
            (([('@', "alice".toList), ('#', "general".toList),
              ('@', "bob".toList)].take (k + 1)).map token_entity), k + 1,
          (tokens_text
            ([('@', "alice".toList), ('#', "general".toList),
              ('@', "bob".toList)].take (k + 1))).length) ∧
      (tokens_text
          ([('@', "alice".toList), ('#', "general".toList), ('@', "bob".toList)].take k)).length <
        (tokens_text
          ([('@', "alice".toList), ('#', "general".toList),
            ('@', "bob".toList)].take (k + 1))).length ∧
      load (cline "@alice #general @bob hi".toList [])
        ((tokens_text
          ([('@', "alice".toList), ('#', "general".toList),
            ('@', "bob".toList)].take (k + 1))).length - 1) = .ok ' ' :=
  receiver_scan_terminates
    [('@', "alice".toList), ('#', "general".toList), ('@', "bob".toList)] "hi".toList
    (by decide) (by decide) (by decide)

/-! ## Milestone 02/01: `message_constructor` on lines of receiver tokens -/

theorem fp_receiver_array_push (acc : List FunctionPointer.message_receiving_entity)
    (e : FunctionPointer.message_receiving_entity) :
    FunctionPointer.store_entity
        (if acc.length ≥ 1 then
          FunctionPointer.realloc (FunctionPointer.receiver_array acc) (acc.length + 1)
         else FunctionPointer.receiver_array acc) acc.length e =
      .ok (FunctionPointer.receiver_array (acc ++ [e])) := by
  cases acc with
  | nil => simp [FunctionPointer.receiver_array, FunctionPointer.store_entity]
  | cons a acc =>
    have h : FunctionPointer.realloc (a :: acc) ((a :: acc).length + 1) =
        (a :: acc) ++ [FunctionPointer.fresh_entity] := by
      simp [FunctionPointer.realloc, List.take_of_length_le]
    simp only [FunctionPointer.receiver_array, List.length_cons, ge_iff_le, Nat.le_add_left,
      if_true]
    rw [List.length_cons] at h
    rw [h]
    simp [FunctionPointer.store_entity]

theorem fp_receiver_loop_step (pre nm rest : List Char) (c : Char)
    (hc : c = '@' ∨ c = '#') (hnm : ' ' ∉ nm)
    (acc : List FunctionPointer.message_receiving_entity) (fuel : Nat) :
    FunctionPointer.receiver_loop (pre ++ c :: nm ++ ' ' :: rest) (fuel + 1)
        (FunctionPointer.receiver_array acc) acc.length pre.length =
      FunctionPointer.receiver_loop (pre ++ c :: nm ++ ' ' :: rest) fuel
        (FunctionPointer.receiver_array (acc ++ [FunctionPointer.token_entity (c, nm)]))
        (acc.length + 1) (pre.length + (nm.length + 1) + 1) := by
  have hraw : pre ++ c :: nm ++ ' ' :: rest = pre ++ c :: (nm ++ ' ' :: rest) := by simp
  have hload : load (pre ++ c :: (nm ++ ' ' :: rest)) pre.length = .ok c :=
    load_append pre c _
  have hdrop : (pre ++ c :: (nm ++ ' ' :: rest)).drop pre.length =
      (c :: nm) ++ ' ' :: rest := by
    simp
  have hdrop1 : (pre ++ c :: (nm ++ ' ' :: rest)).drop (pre.length + 1) =
      nm ++ ' ' :: rest := by
    simp
  have hcs : ' ' ∉ c :: nm := by
    intro h
    rcases List.mem_cons.mp h with h | h
    · rcases hc with rfl | rfl <;> exact absurd h (by decide)
    · exact hnm h
  have hscan := name_end_scan_name (c :: nm) rest pre.length hcs
  have hsize : pre.length + (c :: nm).length - pre.length = nm.length + 1 := by
    simp
  have hcopy := receiver_name_copy_eq pre.length nm rest [] (List.replicate nm.length none)
    (none :: none :: List.replicate
      (FunctionPointer.sizeof_message_receiving_entity * (nm.length + 1) - (nm.length + 2))
      none) (by simp) hnm
  have hm : malloc (FunctionPointer.sizeof_message_receiving_entity * (nm.length + 1)) =
      [] ++ List.replicate nm.length none ++ (none :: none :: List.replicate
        (FunctionPointer.sizeof_message_receiving_entity * (nm.length + 1) - (nm.length + 2))
        none) := by
    have hsum : FunctionPointer.sizeof_message_receiving_entity * (nm.length + 1) =
        nm.length + (1 + (1 + (FunctionPointer.sizeof_message_receiving_entity *
          (nm.length + 1) - (nm.length + 2)))) := by
      simp only [FunctionPointer.sizeof_message_receiving_entity]
      omega
    unfold malloc
    conv_lhs => rw [hsum]
    simp only [List.replicate_add, List.nil_append]
    rfl
  have hstore : store (nm.map some ++ none :: none :: List.replicate
      (FunctionPointer.sizeof_message_receiving_entity * (nm.length + 1) - (nm.length + 2))
      none) (nm.length + 1) NUL = .ok (FunctionPointer.name_block nm) := by
    have h := store_append (nm.map some ++ [none]) none (List.replicate
      (FunctionPointer.sizeof_message_receiving_entity * (nm.length + 1) - (nm.length + 2))
      none) NUL
    simpa [FunctionPointer.name_block] using h
  rw [hraw, FunctionPointer.receiver_loop, hload, ok_bind, if_pos hc, hdrop, hscan, ok_bind,
    hdrop1, hsize, hm]
  simp only [List.length_nil, Nat.add_zero] at hcopy
  dsimp only
  rw [hcopy, ok_bind]
  simp only [List.nil_append]
  rw [hstore, ok_bind, fp_receiver_array_push acc, ok_bind]
  simp [FunctionPointer.token_entity]

theorem fp_receiver_loop_tokens (toks : List (Char × List Char)) (pre : List Char)
    (d : Char) (rest : List Char) (acc : List FunctionPointer.message_receiving_entity)
    (fuel : Nat) (htok : ∀ t ∈ toks, (t.1 = '@' ∨ t.1 = '#') ∧ ' ' ∉ t.2)
    (hd : d ≠ '@' ∧ d ≠ '#') (hfuel : toks.length < fuel) :
    FunctionPointer.receiver_loop (pre ++ tokens_text toks ++ d :: rest) fuel
        (FunctionPointer.receiver_array acc) acc.length pre.length =
      .ok (FunctionPointer.receiver_array (acc ++ toks.map FunctionPointer.token_entity),
        acc.length + toks.length, pre.length + (tokens_text toks).length) := by
  induction toks generalizing pre acc fuel with
  | nil =>
    cases fuel with
    | zero => simp at hfuel
    | succ fuel =>
      have hl : load (pre ++ d :: rest) pre.length = .ok d := load_append pre d rest
      simp [tokens_text, FunctionPointer.receiver_loop, hl, hd]
  | cons t ts ih =>
    cases fuel with
    | zero => simp at hfuel
    | succ fuel =>
      obtain ⟨c, nm⟩ := t
      have ht := htok (c, nm) (by simp)
      have hraw : pre ++ tokens_text ((c, nm) :: ts) ++ d :: rest =
          pre ++ c :: nm ++ ' ' :: (tokens_text ts ++ d :: rest) := by
        simp [tokens_text]
      have hraw2 : pre ++ c :: nm ++ ' ' :: (tokens_text ts ++ d :: rest) =
          (pre ++ c :: nm ++ [' ']) ++ tokens_text ts ++ d :: rest := by
        simp
      have h := ih (pre ++ c :: nm ++ [' ']) (acc ++ [FunctionPointer.token_entity (c, nm)])
        fuel (fun t h => htok t (by simp [h])) (by simpa using hfuel)
      have hlen : (pre ++ c :: nm ++ [' ']).length = pre.length + (nm.length + 1) + 1 := by
        simp
        omega
      rw [hlen] at h
      rw [hraw, fp_receiver_loop_step pre nm _ c ht.1 ht.2 acc fuel, hraw2]
      simp only [List.length_append, List.length_singleton] at h
      rw [h]
      simp [tokens_text]
      omega

theorem fp_message_constructor_tokens (p : FunctionPointer.payload)
    (toks : List (Char × List Char)) (content slack : List Char) (hne : toks ≠ [])
    (htok : ∀ t ∈ toks, (t.1 = '@' ∨ t.1 = '#') ∧ ' ' ∉ t.2)
    (hc : content.head? ≠ some '@' ∧ content.head? ≠ some '#')
    (hnul : NUL ∉ tokens_text toks ++ content) :
    FunctionPointer.message_constructor p (cline (tokens_text toks ++ content) slack) =
      .ok ⟨some .process_message, some .destroy_message,
        .message (toks.map FunctionPointer.token_entity) (cblock content) toks.length⟩ := by
  obtain ⟨d, rest, hd, hrest⟩ := content_head content slack hc
  have hraw : cline (tokens_text toks ++ content) slack =
      tokens_text toks ++ d :: rest := by
    simp [cline, hrest]
  have hloop := fp_receiver_loop_tokens toks [] d rest []
    ((tokens_text toks ++ d :: rest).length + 1) htok hd (by
      have := length_le_tokens_text toks
      simp
      omega)
  simp only [List.nil_append, List.length_nil, Nat.zero_add] at hloop
  have hpos : (tokens_text toks).length ≠ 0 := by
    have := length_le_tokens_text toks
    have : toks.length ≠ 0 := fun h => hne (List.length_eq_zero.mp h)
    omega
  have hstrlen : strlen (cline (tokens_text toks ++ content) slack) =
      .ok (tokens_text toks ++ content).length :=
    strlen_cline (tokens_text toks ++ content) slack hnul
  have hdrop : (cline (tokens_text toks ++ content) slack).drop (tokens_text toks).length =
      content ++ NUL :: slack := by
    simp [cline]
  have hcontent : NUL ∉ content := fun h => hnul (by simp [h])
  have harr : FunctionPointer.receiver_array (toks.map FunctionPointer.token_entity) =
      toks.map FunctionPointer.token_entity := by
    cases toks with
    | nil => exact absurd rfl hne
    | cons t ts => rfl
  rw [show FunctionPointer.receiver_array
      ([] : List FunctionPointer.message_receiving_entity) =
      [FunctionPointer.fresh_entity] from rfl, harr] at hloop
  unfold FunctionPointer.message_constructor
  dsimp only
  rw [hraw, hloop, ← hraw]
  simp only [ok_bind, hpos, if_false, hstrlen, List.length_append, Nat.le_add_right,
    if_true, hdrop, Nat.add_sub_cancel_left, strcpy_fresh content slack hcontent]

theorem cstr_unwritten (s : List Char) (rest : Block) (hs : NUL ∉ s) :
    cstr (s.map some ++ none :: rest) = .undefined := by
  induction s with
  | nil => simp [cstr]
  | cons c s ih =>
    have hc : c ≠ NUL := fun e => hs (by simp [e])
    have h := ih (fun e => hs (by simp [e]))
    show cstr (some c :: (s.map some ++ none :: rest)) = _
    rw [cstr, if_neg hc, h]
    rfl

theorem fp_name_block_reads (nm : List Char) (hnm : NUL ∉ nm) (x : Char) (hx : x ≠ NUL) :
    cstr (FunctionPointer.name_block nm) = .undefined ∧
    cstr (initial_contents x (FunctionPointer.name_block nm)) = .ok (nm ++ [x]) ∧
    cstr (initial_contents x (cblock nm)) = .ok nm := by
  refine ⟨cstr_unwritten nm _ hnm, ?_, ?_⟩
  · have hnx : NUL ∉ nm ++ [x] := by
      intro h
      rcases List.mem_append.mp h with h | h
      · exact hnm h
      · have hx' : NUL = x := by simpa using h
        exact hx hx'.symm
    have h := cstr_cblock (nm ++ [x])
      ((List.replicate (FunctionPointer.sizeof_message_receiving_entity * (nm.length + 1) -
        (nm.length + 2)) none).map fun o => some (o.getD x)) hnx
    simpa [initial_contents, FunctionPointer.name_block, Function.comp_def] using h
  · have h := cstr_cblock nm [] hnm
    simpa [initial_contents, cblock, Function.comp_def] using h

end HowToOop
